import Mathlib

/-!
# Flow editor (`src/js/script.js`)

A shallow embedding of the module state of the flow editor and of the handlers that
mutate it.  The module keeps three variables, `currentFlow`, `isEditMode` and
`editingBlockId`; every handler below is a function from the state before the handler
to the state after it.

The block handlers (`deleteBlock`, `handleBlockSubmit`, `updateExistingBlock`,
`addNewBlock`) are embedded over the typed document of the data model (`Flow`).  The
handlers that load or save a document (`validateJson`, `loadJsonFromInput`,
`handleFileUpload`, `saveFlowToJSON`) assign whatever `JSON.parse` returned to
`currentFlow`, so they are embedded over raw JSON values (`JVal`), in the namespace
`FlowEditor.Json`.

The browser built-ins `JSON.parse`, `JSON.stringify` and the relational operator on
arbitrary values are not code of the repository; they are the fields of `Platform`.  The
handlers are embedded over an arbitrary platform; `jsPlatform` is a reference
implementation of the three built-ins on the values of `JVal`.
-/

namespace FlowEditor

/-! ## JSON values -/

/-- A value produced by `JSON.parse`.  An object is the list of its members in property
order.  Numbers carry an integer payload: the handlers only test a number for being zero
and compare two numbers for equality. -/
inductive JVal where
  | null
  | bool (b : Bool)
  | num (n : Int)
  | str (s : String)
  | arr (xs : List JVal)
  | obj (kvs : List (String × JVal))
  deriving Repr

mutual
/-- Decidable equality of JSON values. -/
def JVal.decEq : (a b : JVal) → Decidable (a = b)
  | .null, .null => isTrue rfl
  | .bool a, .bool b =>
    if h : a = b then isTrue (by rw [h]) else isFalse (by intro e; cases e; exact h rfl)
  | .num a, .num b =>
    if h : a = b then isTrue (by rw [h]) else isFalse (by intro e; cases e; exact h rfl)
  | .str a, .str b =>
    if h : a = b then isTrue (by rw [h]) else isFalse (by intro e; cases e; exact h rfl)
  | .arr a, .arr b =>
    match JVal.decEqList a b with
    | isTrue h => isTrue (by rw [h])
    | isFalse h => isFalse (by intro e; cases e; exact h rfl)
  | .obj a, .obj b =>
    match JVal.decEqMembers a b with
    | isTrue h => isTrue (by rw [h])
    | isFalse h => isFalse (by intro e; cases e; exact h rfl)
  | .null, .bool _ | .null, .num _ | .null, .str _ | .null, .arr _ | .null, .obj _
  | .bool _, .null | .bool _, .num _ | .bool _, .str _ | .bool _, .arr _ | .bool _, .obj _
  | .num _, .null | .num _, .bool _ | .num _, .str _ | .num _, .arr _ | .num _, .obj _
  | .str _, .null | .str _, .bool _ | .str _, .num _ | .str _, .arr _ | .str _, .obj _
  | .arr _, .null | .arr _, .bool _ | .arr _, .num _ | .arr _, .str _ | .arr _, .obj _
  | .obj _, .null | .obj _, .bool _ | .obj _, .num _ | .obj _, .str _ | .obj _, .arr _ =>
    isFalse (by intro e; cases e)
/-- Decidable equality of lists of JSON values. -/
def JVal.decEqList : (a b : List JVal) → Decidable (a = b)
  | [], [] => isTrue rfl
  | [], _ :: _ | _ :: _, [] => isFalse (by intro e; cases e)
  | x :: xs, y :: ys =>
    match JVal.decEq x y, JVal.decEqList xs ys with
    | isTrue h1, isTrue h2 => isTrue (by rw [h1, h2])
    | isFalse h, _ => isFalse (by intro e; cases e; exact h rfl)
    | _, isFalse h => isFalse (by intro e; cases e; exact h rfl)
/-- Decidable equality of member lists. -/
def JVal.decEqMembers : (a b : List (String × JVal)) → Decidable (a = b)
  | [], [] => isTrue rfl
  | [], _ :: _ | _ :: _, [] => isFalse (by intro e; cases e)
  | (k, x) :: xs, (l, y) :: ys =>
    if hk : k = l then
      match JVal.decEq x y, JVal.decEqMembers xs ys with
      | isTrue h1, isTrue h2 => isTrue (by rw [hk, h1, h2])
      | isFalse h, _ => isFalse (by intro e; cases e; exact h rfl)
      | _, isFalse h => isFalse (by intro e; cases e; exact h rfl)
    else isFalse (by intro e; cases e; exact hk rfl)
end

instance : DecidableEq JVal := JVal.decEq

deriving instance DecidableEq for Except

/-! ## The typed document (spec section 3) -/

/-- The shape of `inputData` and `outputData` of a block. -/
structure DataSample where
  title : String
  description : String
  format : String
  data : String
  deriving DecidableEq, Repr

/-- The `details` member of a block. -/
structure Details where
  explanation : String
  tasks : List String
  deriving DecidableEq, Repr

/-- A block of a flow, as built by `handleBlockSubmit`. -/
structure Block where
  id : String
  title : String
  icon : String
  description : String
  details : Details
  inputData : Option DataSample
  outputData : Option DataSample
  deriving DecidableEq, Repr

/-- A connection `{from, to, label}`; `from` and `to` are reserved words of Lean, hence
the underscores. -/
structure Connection where
  from_ : String
  to_ : String
  label : String
  deriving DecidableEq, Repr

/-- The flow document `{title, description, blocks, connections}`. -/
structure Flow where
  title : String
  description : String
  blocks : List Block
  connections : List Connection
  deriving DecidableEq, Repr

/-- The module variables `currentFlow`, `isEditMode` and `editingBlockId` (lines 2-11);
`none` is the JavaScript `null`.  `F` is the type of the document. -/
structure State (F : Type) where
  currentFlow : F
  isEditMode : Bool
  editingBlockId : Option String
  deriving DecidableEq, Repr

/-- The value of `currentFlow` when the script is loaded (lines 2-7). -/
def initialFlow : Flow :=
  { title := "Новый поток данных"
    description := "Описание потока данных"
    blocks := []
    connections := [] }

/-- The module state when the script is loaded (lines 2-11). -/
def initialState : State Flow :=
  { currentFlow := initialFlow, isEditMode := false, editingBlockId := none }

/-- The state part of `cancelEditMode` (lines 295-299); the rest of the function resets
the form and the highlighting. -/
def cancelEditMode {F : Type} (s : State F) : State F :=
  { s with isEditMode := false, editingBlockId := none }

/-! ## Array helpers -/

/-- The method `Array.prototype.findIndex`; `none` is the result `-1`. -/
def findIndex {α : Type} (p : α → Bool) : List α → Option Nat
  | [] => none
  | x :: xs => if p x then some 0 else (findIndex p xs).map (· + 1)

/-! ## Deleting a block (lines 379-408) -/

/-- The synchronous part of `deleteBlock(blockId)`.  `dom` tells which ids
`document.getElementById` finds.  The second component is the argument of the callback
handed to `setTimeout`, when one was scheduled. -/
def deleteBlock (dom : String → Bool) (s : State Flow) (blockId : String) :
    State Flow × Option String :=
  if !dom blockId then (s, none)
  else
    let s1 := if s.isEditMode && s.editingBlockId == some blockId then cancelEditMode s else s
    (s1, some blockId)

/-- The callback that `deleteBlock(blockId)` hands to `setTimeout` (lines 393-407):
`findIndex` and `splice` on the blocks, `filter` on the connections. -/
def deleteBlockTimeout (s : State Flow) (blockId : String) : State Flow :=
  let blocks :=
    match findIndex (fun block => block.id == blockId) s.currentFlow.blocks with
    | some blockIndex => s.currentFlow.blocks.eraseIdx blockIndex
    | none => s.currentFlow.blocks
  let connections :=
    s.currentFlow.connections.filter (fun conn => conn.from_ != blockId && conn.to_ != blockId)
  { s with currentFlow := { s.currentFlow with blocks := blocks, connections := connections } }

/-! ## Submitting the block form (lines 588-734) -/

/-- The code points that `String.prototype.trim` strips: the ECMAScript productions
WhiteSpace and LineTerminator. -/
def isJsWhitespace (c : Char) : Bool :=
  let n := c.toNat
  n == 0x09 || n == 0x0A || n == 0x0B || n == 0x0C || n == 0x0D || n == 0x20 ||
  n == 0xA0 || n == 0x1680 || (0x2000 ≤ n && n ≤ 0x200A) || n == 0x2028 || n == 0x2029 ||
  n == 0x202F || n == 0x205F || n == 0x3000 || n == 0xFEFF

/-- The method `String.prototype.trim`. -/
def jsTrim (s : String) : String :=
  ⟨((s.data.dropWhile isJsWhitespace).reverse.dropWhile isJsWhitespace).reverse⟩

/-- The pieces of `split('\n')` on a list of characters. -/
def splitNewline : List Char → List (List Char)
  | [] => [[]]
  | c :: cs =>
    if c = '\n' then [] :: splitNewline cs
    else
      match splitNewline cs with
      | l :: ls => (c :: l) :: ls
      | [] => [[c]]

/-- The expression `value.split('\n').filter(task => task.trim() !== '')` of lines 607
and 625. -/
def tasksOf (value : String) : List String :=
  ((splitNewline value.data).map String.mk).filter (fun task => jsTrim task != "")

/-- The expression `value || fallback` on a string `value`: the empty string is the only
falsy string. -/
def orDefault (value fallback : String) : String :=
  if value = "" then fallback else value

/-- What `handleBlockSubmit` reads from the submit event and from the form it came from
(lines 592-636).  `isInlineEdit` tells whether the form carries the class
`inline-edit-form`; `id` is the id of the enclosing block element for an inline form and
the value of the field `block-id` for the main form; the other members are the values of
the form fields. -/
structure SubmitEvent where
  isInlineEdit : Bool
  id : String
  title : String
  icon : String
  description : String
  explanation : String
  tasks : String
  inputTitle : String
  inputDescription : String
  inputFormat : String
  inputData : String
  outputTitle : String
  outputDescription : String
  outputFormat : String
  outputData : String
  deriving DecidableEq, Repr

/-- The object `blockData` built at lines 639-660. -/
def blockDataOf (e : SubmitEvent) : Block :=
  { id := e.id
    title := e.title
    icon := e.icon
    description := e.description
    details := { explanation := e.explanation, tasks := tasksOf e.tasks }
    inputData := some
      { title := orDefault e.inputTitle "Входные данные"
        description := orDefault e.inputDescription ""
        format := e.inputFormat
        data := e.inputData }
    outputData := some
      { title := orDefault e.outputTitle "Выходные данные"
        description := orDefault e.outputDescription ""
        format := e.outputFormat
        data := e.outputData } }

/-- The arguments of a call of `showNotification(message, type)`. -/
structure Notification where
  message : String
  type : String
  deriving DecidableEq, Repr

/-- The function `updateExistingBlock(blockData)` (lines 702-718).  No block id is
strictly equal to `null`, so with `editingBlockId = null` the `findIndex` of line 704
returns `-1`. -/
def updateExistingBlock (s : State Flow) (blockData : Block) : State Flow :=
  match s.editingBlockId with
  | none => s
  | some editingBlockId =>
    match findIndex (fun block => block.id == editingBlockId) s.currentFlow.blocks with
    | none => s
    | some blockIndex =>
      let blockData := { blockData with id := editingBlockId }
      let blocks := s.currentFlow.blocks.set blockIndex blockData
      let connections :=
        if blockData.id != editingBlockId then
          s.currentFlow.connections.map (fun conn =>
            let conn := if conn.from_ == editingBlockId then { conn with from_ := blockData.id } else conn
            if conn.to_ == editingBlockId then { conn with to_ := blockData.id } else conn)
        else s.currentFlow.connections
      { s with currentFlow := { s.currentFlow with blocks := blocks, connections := connections } }

/-- The function `addNewBlock(blockData)` (lines 720-734).  The read of
`blocks[blocks.length - 2]` is inside the array whenever the guard of line 725 holds. -/
def addNewBlock (s : State Flow) (blockData : Block) : State Flow :=
  let blocks := s.currentFlow.blocks ++ [blockData]
  let connections :=
    if blocks.length > 1 then
      match blocks[blocks.length - 2]? with
      | some prevBlock =>
        let prevBlockId := prevBlock.id
        s.currentFlow.connections ++
          [{ from_ := prevBlockId
             to_ := blockData.id
             label := "Соединение " ++ prevBlockId ++ " → " ++ blockData.id }]
      | none => s.currentFlow.connections
    else s.currentFlow.connections
  { s with currentFlow := { s.currentFlow with blocks := blocks, connections := connections } }

/-- The handler `handleBlockSubmit(e)` (lines 588-700): the state after the handler and
the notification it shows. -/
def handleBlockSubmit (s : State Flow) (e : SubmitEvent) : State Flow × Notification :=
  let blockData := blockDataOf e
  if s.isEditMode then
    let s1 := updateExistingBlock s blockData
    let s2 := if e.isInlineEdit then s1 else cancelEditMode s1
    ({ s2 with isEditMode := false, editingBlockId := none },
      { message := "Блок \"" ++ e.title ++ "\" успешно обновлен", type := "success" })
  else if s.currentFlow.blocks.any (fun block => block.id == e.id) then
    (s, { message := "Блок с ID \"" ++ e.id ++ "\" уже существует", type := "error" })
  else
    let s1 := addNewBlock s blockData
    let s2 := if e.isInlineEdit then s1 else cancelEditMode s1
    ({ s2 with isEditMode := false, editingBlockId := none },
      { message := "Блок \"" ++ e.title ++ "\" успешно добавлен", type := "success" })

/-! ## Import and export over raw JSON values (lines 435-488, 565-586, 751-957) -/

namespace Json

/-- The browser built-ins the import and export handlers call.  `jsonParse` is
`JSON.parse` (an error is the message of the thrown `SyntaxError`), `jsonStringify` is
`JSON.stringify(value, null, 2)`, and `gtZero v` is the result of the comparison `v > 0`
on a JSON value (`none` when the coercion to a number throws). -/
structure Platform where
  jsonParse : String → Except String JVal
  jsonStringify : JVal → String
  gtZero : JVal → Option Bool

/-- The property read `v.name`, for the member names this module reads from documents
(none of them is a built-in property of arrays, strings, numbers or booleans).  `none` is
`undefined`; reading a property of `null` or `undefined` throws a `TypeError`. -/
def member (v : Option JVal) (name : String) : Except String (Option JVal) :=
  match v with
  | none => .error "TypeError"
  | some .null => .error "TypeError"
  | some (.obj kvs) => .ok (kvs.lookup name)
  | some _ => .ok none

/-- JavaScript truthiness of a value read from a document. -/
def truthy : Option JVal → Bool
  | none => false
  | some .null => false
  | some (.bool b) => b
  | some (.num n) => n != 0
  | some (.str s) => s != ""
  | some (.arr _) => true
  | some (.obj _) => true

/-- The function `Array.isArray`. -/
def isArray : Option JVal → Bool
  | some (.arr _) => true
  | _ => false

/-- Strict equality `a === b` of two values read from different places of a parsed
document: primitives compare by value, two objects or arrays are different references. -/
def strictEq : Option JVal → Option JVal → Bool
  | none, none => true
  | some .null, some .null => true
  | some (.bool a), some (.bool b) => a == b
  | some (.num a), some (.num b) => a == b
  | some (.str a), some (.str b) => a == b
  | _, _ => false

mutual
/-- Whether the coercion of a JSON value to a string throws: an object with an own member
`toString` has no callable conversion method, and an array converts its elements. -/
def toStringThrows : JVal → Bool
  | .arr xs => toStringThrowsList xs
  | .obj kvs => kvs.any (fun kv => kv.1 == "toString")
  | _ => false
/-- Whether the coercion of some element of the list throws. -/
def toStringThrowsList : List JVal → Bool
  | [] => false
  | x :: xs => toStringThrows x || toStringThrowsList xs
end

/-- Writing a value into `textContent`, `id` or a template string. -/
def toStr : Option JVal → Except String Unit
  | none => .ok ()
  | some v => if toStringThrows v then .error "TypeError" else .ok ()

/-- Writing every element of a list into `textContent` (the `forEach` of line 861). -/
def toStrAll : List JVal → Except String Unit
  | [] => .ok ()
  | x :: xs => do
    toStr (some x)
    toStrAll xs

/-- The test `tasks.length > 0` of line 855 on a truthy `tasks`. -/
def lengthGtZero (P : Platform) : Option JVal → Except String Bool
  | some (.arr xs) => .ok (decide (xs.length > 0))
  | some (.str s) => .ok (decide (s.length > 0))
  | some (.obj kvs) =>
    match kvs.lookup "length" with
    | none => .ok false
    | some v =>
      match P.gtZero v with
      | some b => .ok b
      | none => .error "TypeError"
  | _ => .ok false

/-- The data part of `createBlockElement` for `inputData` and `outputData`
(lines 870-893 and 896-919). -/
def createDataElement (sample : Option JVal) : Except String Unit := do
  if truthy sample then
    let data ← member sample "data"
    if truthy data then
      toStr (← member sample "title")
      let description ← member sample "description"
      if truthy description then
        toStr description
      toStr (← member sample "format")
      toStr data

/-- Whether `createBlockElement(block)` (lines 788-924) completes on a raw JSON value; an
error is a thrown `TypeError`. -/
def createBlockElement (P : Platform) (block : JVal) : Except String Unit := do
  toStr (← member (some block) "id")
  toStr (← member (some block) "icon")
  toStr (← member (some block) "title")
  toStr (← member (some block) "description")
  let details ← member (some block) "details"
  let explanation ← member details "explanation"
  if truthy explanation then
    toStr explanation
  let tasks ← member details "tasks"
  if truthy tasks then
    if (← lengthGtZero P tasks) then
      match tasks with
      | some (.arr ts) => toStrAll ts
      | _ => throw "TypeError"
  createDataElement (← member (some block) "inputData")
  createDataElement (← member (some block) "outputData")

/-- The call `flow.connections.find(conn => conn.from === block.id &&
conn.to === nextBlock.id)` of line 778 on the elements of `flow.connections`. -/
def findConnection (block nextBlock : JVal) : List JVal → Except String (Option JVal)
  | [] => .ok none
  | conn :: conns => do
    let from_ ← member (some conn) "from"
    let blockId ← member (some block) "id"
    if strictEq from_ blockId then
      let to_ ← member (some conn) "to"
      let nextId ← member (some nextBlock) "id"
      if strictEq to_ nextId then
        return some conn
      else findConnection block nextBlock conns
    else findConnection block nextBlock conns

/-- Whether `createArrowElement(connection)` (lines 926-944) completes. -/
def createArrowElement (connection : JVal) : Except String Unit := do
  let label ← member (some connection) "label"
  if truthy label then
    toStr label

/-- The callback of `flow.blocks.forEach` (lines 770-785) over the blocks from the
current one on. -/
def renderBlocks (P : Platform) (flow : JVal) : List JVal → Except String Unit
  | [] => .ok ()
  | block :: rest => do
    createBlockElement P block
    match rest with
    | [] => pure ()
    | nextBlock :: _ =>
      match (← member (some flow) "connections") with
      | some (.arr conns) =>
        match (← findConnection block nextBlock conns) with
        | some connection =>
          if truthy (some connection) then
            createArrowElement connection
        | none => pure ()
      | _ => throw "TypeError"
    renderBlocks P flow rest

/-- Whether `renderFlow(flow)` (lines 751-786) completes on a raw JSON value; an error is
a thrown `TypeError`. -/
def renderFlow (P : Platform) (flow : JVal) : Except String Unit := do
  toStr (← member (some flow) "title")
  let description ← member (some flow) "description"
  if truthy description then
    toStr description
  match (← member (some flow) "blocks") with
  | some (.arr blocks) => renderBlocks P flow blocks
  | _ => throw "TypeError"

/-- The return value of `validateJson()` (lines 435-464); `value` is `jsonInput.value`. -/
def validateJson (P : Platform) (value : String) : Bool :=
  let jsonText := jsTrim value
  if jsonText = "" then false
  else
    match P.jsonParse jsonText with
    | .error _ => false
    | .ok parsed =>
      match member (some parsed) "blocks" with
      | .error _ => false
      | .ok blocks =>
        if !truthy blocks || !isArray blocks then false
        else
          match member (some parsed) "connections" with
          | .error _ => false
          | .ok connections =>
            if !truthy connections || !isArray connections then false
            else true

/-- The handler `loadJsonFromInput()` (lines 472-488); `value` is `jsonInput.value`. -/
def loadJsonFromInput (P : Platform) (s : State JVal) (value : String) : State JVal :=
  if validateJson P value then
    match P.jsonParse value with
    | .error _ => s
    | .ok data =>
      let s1 := { s with currentFlow := data }
      match renderFlow P s1.currentFlow with
      | .error _ => s1
      | .ok _ => if s1.isEditMode then cancelEditMode s1 else s1
  else s

/-- The handler `handleFileUpload()` with the `onload` callback of its reader
(lines 565-586); `file` is the text content of `jsonFileInput.files[0]`, when there is
one. -/
def handleFileUpload (P : Platform) (s : State JVal) (file : Option String) : State JVal :=
  match file with
  | none => s
  | some result =>
    match P.jsonParse result with
    | .error _ => s
    | .ok data =>
      let s1 := { s with currentFlow := data }
      match renderFlow P s1.currentFlow with
      | .error _ => s1
      | .ok _ => if s1.isEditMode then cancelEditMode s1 else s1

/-- The text `dataStr` that `saveFlowToJSON()` offers for download (line 948). -/
def saveFlowToJSON (P : Platform) (s : State JVal) : String :=
  P.jsonStringify s.currentFlow

/-- Whether a parsed value has a member `name` that is an array: the words of the
validation rule of spec section 4.4. -/
def hasArrayMember (v : JVal) (name : String) : Prop :=
  ∃ kvs xs, v = .obj kvs ∧ kvs.lookup name = some (.arr xs)

/-- The validation rule of spec section 4.4 in its own words: the trimmed text is not
empty, it parses as JSON, and the parsed value has a `blocks` array and a `connections`
array. -/
def SpecValid (P : Platform) (value : String) : Prop :=
  jsTrim value ≠ "" ∧
    ∃ parsed, P.jsonParse (jsTrim value) = .ok parsed ∧
      hasArrayMember parsed "blocks" ∧ hasArrayMember parsed "connections"

/-! ## A reference implementation of `JSON.stringify(value, null, 2)` and `JSON.parse` -/

/-- The decimal digit of a number below ten. -/
def digitChar (n : Nat) : Char :=
  Char.ofNat (48 + n)

/-- The decimal digits of `n`, most significant first; `fuel` bounds the number of
digits. -/
def natDigits : Nat → Nat → List Char
  | 0, _ => []
  | fuel + 1, n =>
    if n < 10 then [digitChar n] else natDigits fuel (n / 10) ++ [digitChar (n % 10)]

/-- The text of an integer number: `Number::toString` on an integer below `10 ^ 21` in
absolute value. -/
def stringifyNumber (n : Int) : List Char :=
  match n with
  | .ofNat m => natDigits (m + 1) m
  | .negSucc m => '-' :: natDigits (m + 2) (m + 1)

/-- The hexadecimal digit of a number below sixteen, in lower case. -/
def hexDigit (n : Nat) : Char :=
  if n < 10 then Char.ofNat (48 + n) else Char.ofNat (87 + n)

/-- The text of one character inside a quoted string (`QuoteJSONString`): the quotation
mark, the backslash and the control characters are escaped, every other character stands
for itself. -/
def quoteChar (c : Char) : List Char :=
  if c = '"' then ['\\', '"']
  else if c = '\\' then ['\\', '\\']
  else if c = '\x08' then ['\\', 'b']
  else if c = '\x0c' then ['\\', 'f']
  else if c = '\n' then ['\\', 'n']
  else if c = '\r' then ['\\', 'r']
  else if c = '\t' then ['\\', 't']
  else if c.toNat < 0x20 then
    ['\\', 'u', '0', '0', hexDigit (c.toNat / 16), hexDigit (c.toNat % 16)]
  else [c]

/-- The characters of a string between its quotation marks. -/
def quoteBody : List Char → List Char
  | [] => []
  | c :: cs => quoteChar c ++ quoteBody cs

/-- The text of a string value. -/
def quote (s : String) : List Char :=
  '"' :: (quoteBody s.data ++ ['"'])

/-- The indentation of nesting depth `indent / 2`. -/
def spaces (indent : Nat) : List Char :=
  List.replicate indent ' '

mutual
/-- The text of a value that starts at indentation `indent`. -/
def stringifyValue (indent : Nat) : JVal → List Char
  | .null => ['n', 'u', 'l', 'l']
  | .bool true => ['t', 'r', 'u', 'e']
  | .bool false => ['f', 'a', 'l', 's', 'e']
  | .num n => stringifyNumber n
  | .str s => quote s
  | .arr [] => ['[', ']']
  | .arr (x :: xs) =>
    '[' :: '\n' :: (spaces (indent + 2) ++ (stringifyValue (indent + 2) x
      ++ stringifyElements indent xs))
  | .obj [] => ['\x7b', '\x7d']
  | .obj ((k, x) :: kvs) =>
    '\x7b' :: '\n' :: (spaces (indent + 2) ++ (quote k ++ (':' :: ' ' ::
      (stringifyValue (indent + 2) x ++ stringifyMembers indent kvs))))
/-- The text of an array after one of its elements: the remaining elements, each after a
comma and a line break, and the closing bracket on a line of its own. -/
def stringifyElements (indent : Nat) : List JVal → List Char
  | [] => '\n' :: (spaces indent ++ [']'])
  | x :: xs =>
    ',' :: '\n' :: (spaces (indent + 2) ++ (stringifyValue (indent + 2) x
      ++ stringifyElements indent xs))
/-- The text of an object after one of its members. -/
def stringifyMembers (indent : Nat) : List (String × JVal) → List Char
  | [] => '\n' :: (spaces indent ++ ['\x7d'])
  | (k, x) :: kvs =>
    ',' :: '\n' :: (spaces (indent + 2) ++ (quote k ++ (':' :: ' ' ::
      (stringifyValue (indent + 2) x ++ stringifyMembers indent kvs))))
end

/-- The function `JSON.stringify(value, null, 2)` on a JSON value. -/
def jsonStringify (v : JVal) : String :=
  ⟨stringifyValue 0 v⟩

/-- The white space of the JSON grammar. -/
def isJsonWhitespace (c : Char) : Bool :=
  c = ' ' || c = '\t' || c = '\n' || c = '\r'

/-- The text without its leading white space. -/
def skipWhitespace : List Char → List Char
  | [] => []
  | c :: cs => if isJsonWhitespace c then skipWhitespace cs else c :: cs

/-- The value of a hexadecimal digit. -/
def hexValue (c : Char) : Option Nat :=
  if '0' ≤ c ∧ c ≤ '9' then some (c.toNat - 48)
  else if 'a' ≤ c ∧ c ≤ 'f' then some (c.toNat - 87)
  else if 'A' ≤ c ∧ c ≤ 'F' then some (c.toNat - 55)
  else none

/-- The code unit of the four hexadecimal digits of a `\u` escape. -/
def hexValue4 (a b c d : Char) : Option Nat :=
  match hexValue a, hexValue b, hexValue c, hexValue d with
  | some x, some y, some z, some w => some (((x * 16 + y) * 16 + z) * 16 + w)
  | _, _, _, _ => none

/-- The character of a one-letter escape. -/
def unescape (c : Char) : Option Char :=
  if c = '"' then some '"'
  else if c = '\\' then some '\\'
  else if c = '/' then some '/'
  else if c = 'b' then some '\x08'
  else if c = 'f' then some '\x0c'
  else if c = 'n' then some '\n'
  else if c = 'r' then some '\r'
  else if c = 't' then some '\t'
  else none

/-- What stands at the start of the text inside a string of the JSON grammar: the closing
quotation mark (`none`) or the next character of the string, and the text after it.  A
`\u` escape of a high surrogate followed by one of a low surrogate is one character.  A
`\u` escape of a lone surrogate has no counterpart among the characters of `String`: such
a text is outside the model and is reported as not parsed. -/
def readChar (cs : List Char) : Option (Option Char × List Char) :=
  match cs with
  | [] => none
  | c :: rest =>
    if c = '"' then some (none, rest)
    else if c = '\\' then
      match rest with
      | [] => none
      | e :: rest1 =>
        if e = 'u' then
          match rest1 with
          | a :: b :: c1 :: d :: rest2 =>
            match hexValue4 a b c1 d with
            | none => none
            | some unit =>
              if 0xD800 ≤ unit ∧ unit < 0xDC00 then
                match rest2 with
                | '\\' :: 'u' :: a2 :: b2 :: c2 :: d2 :: rest3 =>
                  match hexValue4 a2 b2 c2 d2 with
                  | none => none
                  | some low =>
                    if 0xDC00 ≤ low ∧ low < 0xE000 then
                      some (some (Char.ofNat
                        (0x10000 + (unit - 0xD800) * 0x400 + (low - 0xDC00))), rest3)
                    else none
                | _ => none
              else if 0xDC00 ≤ unit ∧ unit < 0xE000 then none
              else some (some (Char.ofNat unit), rest2)
          | _ => none
        else
          match unescape e with
          | some ch => some (some ch, rest1)
          | none => none
    else if c.toNat < 0x20 then none
    else some (some c, rest)

/-- A string of the JSON grammar after its opening quotation mark: the string and the
text after the closing quotation mark; `acc` holds the characters read so far, last
first, and `fuel` bounds the number of characters. -/
def parseString : Nat → List Char → List Char → Option (String × List Char)
  | 0, _, _ => none
  | fuel + 1, cs, acc =>
    match readChar cs with
    | none => none
    | some (none, rest) => some (⟨acc.reverse⟩, rest)
    | some (some ch, rest) => parseString fuel rest (ch :: acc)

/-- The digits at the start of the text, read as a decimal number after `acc`, and the
text after them. -/
def parseDigits : List Char → Nat → Nat × List Char
  | [], acc => (acc, [])
  | c :: cs, acc =>
    if c.isDigit then parseDigits cs (acc * 10 + (c.toNat - 48)) else (acc, c :: cs)

/-- A number of the JSON grammar without a fraction and without an exponent: no digit may
follow a leading zero.  A number with a fraction or an exponent has no counterpart among
the values of `JVal`: such a text is outside the model and is reported as not parsed. -/
def parseNumber (cs : List Char) : Option (Int × List Char) :=
  let negative := cs.head? == some '-'
  let digits := if negative then cs.tail else cs
  match digits with
  | [] => none
  | d :: rest =>
    if !d.isDigit then none
    else if d = '0' && (rest.head?.map Char.isDigit).getD false then none
    else
      let r := parseDigits digits 0
      if r.2.head? == some '.' || r.2.head? == some 'e' || r.2.head? == some 'E' then none
      else some (if negative then -(r.1 : Int) else (r.1 : Int), r.2)

/-- The text after the given literal, when the text starts with it. -/
def dropLiteral : List Char → List Char → Option (List Char)
  | [], cs => some cs
  | _ :: _, [] => none
  | l :: ls, c :: cs => if l = c then dropLiteral ls cs else none

/-- The member list of the object that `JSON.parse` builds from the members in the order
of the text: a name that occurs again overwrites the value and keeps the place of its
first occurrence.  Names that are canonical array indices, which JavaScript lists first,
are outside the model. -/
def defineMember (members : List (String × JVal)) (kv : String × JVal) :
    List (String × JVal) :=
  if members.any (fun m => m.1 == kv.1) then
    members.map (fun m => if m.1 == kv.1 then kv else m)
  else members ++ [kv]

mutual
/-- A value of the JSON grammar at the start of the text, after white space: the value and
the text after it.  `fuel` bounds the nesting and the number of elements. -/
def parseValue : Nat → List Char → Option (JVal × List Char)
  | 0, _ => none
  | fuel + 1, cs =>
    match skipWhitespace cs with
    | [] => none
    | c :: rest =>
      if c = '"' then
        match parseString rest.length rest [] with
        | some r => some (.str r.1, r.2)
        | none => none
      else if c = '[' then
        match skipWhitespace rest with
        | [] => none
        | d :: rest1 =>
          if d = ']' then some (.arr [], rest1)
          else
            match parseValue fuel (d :: rest1) with
            | none => none
            | some r =>
              match parseElements fuel r.2 with
              | none => none
              | some r1 => some (.arr (r.1 :: r1.1), r1.2)
      else if c = '\x7b' then
        match skipWhitespace rest with
        | [] => none
        | d :: rest1 =>
          if d = '\x7d' then some (.obj [], rest1)
          else
            match parseMember fuel (d :: rest1) with
            | none => none
            | some r =>
              match parseMembers fuel r.2 with
              | none => none
              | some r1 => some (.obj ((r.1 :: r1.1).foldl defineMember []), r1.2)
      else if c = 'n' then
        match dropLiteral ['u', 'l', 'l'] rest with
        | some rest1 => some (.null, rest1)
        | none => none
      else if c = 't' then
        match dropLiteral ['r', 'u', 'e'] rest with
        | some rest1 => some (.bool true, rest1)
        | none => none
      else if c = 'f' then
        match dropLiteral ['a', 'l', 's', 'e'] rest with
        | some rest1 => some (.bool false, rest1)
        | none => none
      else
        match parseNumber (c :: rest) with
        | some r => some (.num r.1, r.2)
        | none => none
/-- The rest of an array after one of its elements. -/
def parseElements : Nat → List Char → Option (List JVal × List Char)
  | 0, _ => none
  | fuel + 1, cs =>
    match skipWhitespace cs with
    | [] => none
    | c :: rest =>
      if c = ']' then some ([], rest)
      else if c = ',' then
        match parseValue fuel rest with
        | none => none
        | some r =>
          match parseElements fuel r.2 with
          | none => none
          | some r1 => some (r.1 :: r1.1, r1.2)
      else none
/-- A member `"name": value` at the start of the text, after white space. -/
def parseMember : Nat → List Char → Option ((String × JVal) × List Char)
  | 0, _ => none
  | fuel + 1, cs =>
    match skipWhitespace cs with
    | [] => none
    | c :: rest =>
      if c = '"' then
        match parseString rest.length rest [] with
        | none => none
        | some k =>
          match skipWhitespace k.2 with
          | [] => none
          | colon :: rest1 =>
            if colon = ':' then
              match parseValue fuel rest1 with
              | none => none
              | some r => some ((k.1, r.1), r.2)
            else none
      else none
/-- The rest of an object after one of its members. -/
def parseMembers : Nat → List Char → Option (List (String × JVal) × List Char)
  | 0, _ => none
  | fuel + 1, cs =>
    match skipWhitespace cs with
    | [] => none
    | c :: rest =>
      if c = '\x7d' then some ([], rest)
      else if c = ',' then
        match parseMember fuel rest with
        | none => none
        | some r =>
          match parseMembers fuel r.2 with
          | none => none
          | some r1 => some (r.1 :: r1.1, r1.2)
      else none
end

/-- The function `JSON.parse` on a text: the text is one value of the JSON grammar between
white space.  An error stands for the thrown `SyntaxError`.  The length of the text is
fuel enough: every step that uses fuel reads a character. -/
def jsonParse (text : String) : Except String JVal :=
  match parseValue (text.data.length + 1) text.data with
  | none => .error "SyntaxError"
  | some r => if skipWhitespace r.2 = [] then .ok r.1 else .error "SyntaxError"

mutual
/-- The fuel that `parseValue` needs on the text of a value. -/
def fuelOf : JVal → Nat
  | .arr xs => 1 + fuelOfElements xs
  | .obj kvs => 1 + fuelOfMembers kvs
  | _ => 1
/-- The fuel that `parseElements` needs on the text of the remaining elements. -/
def fuelOfElements : List JVal → Nat
  | [] => 1
  | x :: xs => 1 + (fuelOf x + fuelOfElements xs)
/-- The fuel that `parseMembers` needs on the text of the remaining members. -/
def fuelOfMembers : List (String × JVal) → Nat
  | [] => 1
  | (_, x) :: kvs => 2 + (fuelOf x + fuelOfMembers kvs)
end

mutual
/-- No object inside the value has two members of the same name: the value is one that a
JavaScript object graph can hold. -/
def noDupKeys : JVal → Bool
  | .arr xs => noDupKeysElements xs
  | .obj kvs => decide ((kvs.map (fun kv => kv.1)).Nodup) && noDupKeysMembers kvs
  | _ => true
/-- The condition `noDupKeys` on every element. -/
def noDupKeysElements : List JVal → Bool
  | [] => true
  | x :: xs => noDupKeys x && noDupKeysElements xs
/-- The condition `noDupKeys` on the value of every member. -/
def noDupKeysMembers : List (String × JVal) → Bool
  | [] => true
  | (_, x) :: kvs => noDupKeys x && noDupKeysMembers kvs
end

/-- Whether a number that ends where the text starts is complete: the text does not go on
with a digit, a fraction or an exponent. -/
def endsNumber (rest : List Char) : Bool :=
  match rest with
  | [] => true
  | c :: _ => !(c.isDigit || c = '.' || c = 'e' || c = 'E')

/-! ## The comparison `v > 0` on a JSON value -/

mutual
/-- The string that `ToString` gives for a JSON value; `none` when the conversion throws a
`TypeError`.  An array is joined with commas, `null` elements giving the empty string; an
object gives `[object Object]` unless it has an own member `toString`, which is not
callable. -/
def jsToString : JVal → Option String
  | .null => some "null"
  | .bool true => some "true"
  | .bool false => some "false"
  | .num n => some ⟨stringifyNumber n⟩
  | .str s => some s
  | .arr xs => jsJoin xs
  | .obj kvs => if kvs.any (fun kv => kv.1 == "toString") then none else some "[object Object]"
/-- The method `Array.prototype.join` with the separator `,`. -/
def jsJoin : List JVal → Option String
  | [] => some ""
  | x :: xs =>
    match (match x with
           | .null => some ""
           | _ => jsToString x), jsJoin xs with
    | some a, some b => some (if xs.isEmpty then a else a ++ "," ++ b)
    | _, _ => none
end

/-- The value of a list of digits in the given base. -/
def digitsValue (base : Nat) (ds : List Char) : Nat :=
  ds.foldl (fun acc c => acc * base + (hexValue c).getD 0) 0

/-- Whether `StringToNumber` of a text with a prefix `0x`, `0o` or `0b` is greater than
zero; `none` when the text has no such prefix. -/
def nonDecimalGtZero (t : List Char) : Option Bool :=
  match t with
  | '0' :: p :: ds =>
    let base :=
      if p = 'x' ∨ p = 'X' then 16
      else if p = 'o' ∨ p = 'O' then 8
      else if p = 'b' ∨ p = 'B' then 2
      else 0
    if base = 0 then none
    else
      some (!ds.isEmpty && ds.all (fun c =>
          match hexValue c with
          | some d => decide (d < base)
          | none => false)
        && decide (0 < digitsValue base ds))
  | _ => none

/-- Whether the decimal number `m * 10 ^ (e - f)` rounds to a double greater than zero:
everything above half of the smallest subnormal `2 ^ (-1074)` does. -/
def decimalRoundsAboveZero (m : Nat) (e : Int) (f : Nat) : Bool :=
  let scale := e - (f : Int)
  if m = 0 then false
  else if 0 ≤ scale then true
  else decide (10 ^ scale.natAbs < m * 2 ^ 1075)

/-- Whether `StringToNumber` of a text of the grammar `StrDecimalLiteral` is greater than
zero; a text outside the grammar gives `NaN`, which is not. -/
def decimalGtZero (t : List Char) : Bool :=
  let negative := t.head? == some '-'
  let r := if t.head? == some '-' ∨ t.head? == some '+' then t.tail else t
  if r = ['I', 'n', 'f', 'i', 'n', 'i', 't', 'y'] then !negative
  else
    let ip := r.takeWhile Char.isDigit
    let r1 := r.dropWhile Char.isDigit
    let fp := if r1.head? == some '.' then r1.tail.takeWhile Char.isDigit else []
    let r2 := if r1.head? == some '.' then r1.tail.dropWhile Char.isDigit else r1
    if ip.isEmpty && fp.isEmpty then false
    else
      let mantissa := digitsValue 10 (ip ++ fp)
      match r2 with
      | [] => !negative && decimalRoundsAboveZero mantissa 0 fp.length
      | x :: r3 =>
        if x = 'e' ∨ x = 'E' then
          let expNegative := r3.head? == some '-'
          let r4 := if r3.head? == some '-' ∨ r3.head? == some '+' then r3.tail else r3
          if r4.isEmpty || !r4.all Char.isDigit then false
          else
            let exponent : Int :=
              if expNegative then -(digitsValue 10 r4 : Int) else (digitsValue 10 r4 : Int)
            !negative && decimalRoundsAboveZero mantissa exponent fp.length
        else false

/-- Whether `StringToNumber(s) > 0`: white space around the text is ignored, the empty
text is zero. -/
def stringGtZero (s : String) : Bool :=
  let t := (jsTrim s).data
  if t.isEmpty then false
  else
    match nonDecimalGtZero t with
    | some b => b
    | none => decimalGtZero t

/-- The comparison `v > 0` on a JSON value; `none` when the conversion of `v` to a
primitive throws a `TypeError`.  A number compares by its value, `true` is one, `null` is
zero, and a string, an array or an object compares by the number its text denotes. -/
def jsGtZero (v : JVal) : Option Bool :=
  match v with
  | .null => some false
  | .bool b => some b
  | .num n => some (decide (0 < n))
  | .str s => some (stringGtZero s)
  | .arr xs => (jsJoin xs).map stringGtZero
  | .obj kvs => (jsToString (.obj kvs)).map stringGtZero

/-- The built-ins as the reference implementation above. -/
def jsPlatform : Platform :=
  { jsonParse := jsonParse, jsonStringify := jsonStringify, gtZero := jsGtZero }

/-- A platform whose `JSON.parse` knows the texts of a finite table and rejects every
other text, and whose `JSON.stringify` returns the text the table holds for a value; its
comparison `v > 0` is the one of JavaScript. -/
def tablePlatform (table : List (String × JVal)) : Platform :=
  { jsonParse := fun text =>
      match table.lookup text with
      | some v => .ok v
      | none => .error "SyntaxError"
    jsonStringify := fun v =>
      match table.find? (fun entry => entry.2 == v) with
      | some entry => entry.1
      | none => ""
    gtZero := jsGtZero }

end Json

/-! ## Typed documents as JSON values, and concrete documents -/

/-- The JavaScript object of a data sample as a JSON value. -/
def DataSample.toJson (d : DataSample) : JVal :=
  .obj [("title", .str d.title), ("description", .str d.description),
        ("format", .str d.format), ("data", .str d.data)]

/-- The JavaScript object of a block as a JSON value, members in the order of
lines 639-660; an absent `inputData` or `outputData` is an absent member. -/
def Block.toJson (b : Block) : JVal :=
  .obj ([("id", .str b.id), ("title", .str b.title), ("icon", .str b.icon),
         ("description", .str b.description),
         ("details", .obj [("explanation", .str b.details.explanation),
                           ("tasks", .arr (b.details.tasks.map JVal.str))])]
        ++ (match b.inputData with
            | some d => [("inputData", d.toJson)]
            | none => [])
        ++ (match b.outputData with
            | some d => [("outputData", d.toJson)]
            | none => []))

/-- The JavaScript object of a connection as a JSON value. -/
def Connection.toJson (c : Connection) : JVal :=
  .obj [("from", .str c.from_), ("to", .str c.to_), ("label", .str c.label)]

/-- The JavaScript object of a flow as a JSON value, members in the order of lines 2-7. -/
def Flow.toJson (f : Flow) : JVal :=
  .obj [("title", .str f.title), ("description", .str f.description),
        ("blocks", .arr (f.blocks.map Block.toJson)),
        ("connections", .arr (f.connections.map Connection.toJson))]

/-- The module state with its document seen as a JSON value. -/
def State.toJson (s : State Flow) : State JVal :=
  { currentFlow := s.currentFlow.toJson
    isEditMode := s.isEditMode
    editingBlockId := s.editingBlockId }

/-- A block with the given id and title and nothing else filled in. -/
def blockWith (id title : String) : Block :=
  { id := id, title := title, icon := "", description := ""
    details := { explanation := "", tasks := [] }
    inputData := none, outputData := none }

/-- The flow of the scenario of spec section 8: blocks `a` and `b`, one connection from
`a` to `b`. -/
def scenarioState : State Flow :=
  { currentFlow :=
      { title := "", description := ""
        blocks := [blockWith "a" "", blockWith "b" ""]
        connections := [{ from_ := "a", to_ := "b", label := "" }] }
    isEditMode := false
    editingBlockId := none }

/-- A submission of the main form with the given id, every other field left empty. -/
def submitWithId (id : String) : SubmitEvent :=
  { isInlineEdit := false, id := id, title := "", icon := "", description := ""
    explanation := "", tasks := "", inputTitle := "", inputDescription := ""
    inputFormat := "json", inputData := "", outputTitle := "", outputDescription := ""
    outputFormat := "json", outputData := "" }

/-- A flow in which two blocks carry the same id `x`, while the second one is being
edited; such a flow is loaded by any import, which does not check ids. -/
def duplicateIdState : State Flow :=
  { currentFlow :=
      { title := "", description := ""
        blocks := [blockWith "x" "first", blockWith "x" "second"]
        connections := [] }
    isEditMode := true
    editingBlockId := some "x" }

namespace Json

/-- The text `JSON.stringify(currentFlow, null, 2)` of the initial flow. -/
def initialFlowText : String :=
  "\x7b\n  \"title\": \"Новый поток данных\",\n  \"description\": \"Описание потока данных\",\n  \"blocks\": [],\n  \"connections\": []\n\x7d"

/-- The text of a JSON object that has a `blocks` array and no `connections` member. -/
def blocksOnlyText : String := "\x7b\"blocks\":[]\x7d"

/-- A platform that knows the two texts above with the values `JSON.parse` gives them. -/
def examplePlatform : Platform :=
  tablePlatform
    [(initialFlowText, initialFlow.toJson),
     (blocksOnlyText, .obj [("blocks", .arr [])])]

/-- The text of the flow of the scenario of spec section 8, as it can be pasted: two
blocks that have an id and nothing else, and one connection between them. -/
def scenarioText : String :=
  "\x7b\"blocks\":[\x7b\"id\":\"a\"\x7d,\x7b\"id\":\"b\"\x7d],\"connections\":[\x7b\"from\":\"a\",\"to\":\"b\"\x7d]\x7d"

/-- The value that `JSON.parse` gives for `scenarioText`. -/
def scenarioValue : JVal :=
  .obj [("blocks", .arr [.obj [("id", .str "a")], .obj [("id", .str "b")]]),
        ("connections", .arr [.obj [("from", .str "a"), ("to", .str "b")]])]

/-- A state in which block `a` of a one-block document is being edited. -/
def editingState : State JVal :=
  { currentFlow := .obj [("title", .str "t"), ("description", .str ""),
                         ("blocks", .arr [(blockWith "a" "").toJson]),
                         ("connections", .arr [])]
    isEditMode := true
    editingBlockId := some "a" }

end Json


/-! ## Edit mode (lines 113-120, 273-283) -/

/-- The state part of `enterEditMode(blockId)` (lines 113-120): nothing happens when no
block of the current flow has the id. -/
def enterEditMode (s : State Flow) (blockId : String) : State Flow :=
  match s.currentFlow.blocks.find? (fun b => b.id == blockId) with
  | none => s
  | some _ => { s with isEditMode := true, editingBlockId := some blockId }

/-- The state part of `cancelInlineEdit(blockElement)` (lines 280-282). -/
def cancelInlineEdit {F : Type} (s : State F) : State F :=
  { s with isEditMode := false, editingBlockId := none }

/-- The relation between the two edit variables that holds when the script is loaded and
that every handler keeps: outside edit mode the edited id is `null`. -/
def EditFlagsConsistent {F : Type} (s : State F) : Prop :=
  s.isEditMode = false → s.editingBlockId = none

/-! ## Saving to the server (lines 960-991) -/

/-- The synchronous part of `saveFlowToServer()`.  `title` and `description` are what the
two calls of `prompt` return (`none` is `null`, a cancelled prompt); the second prompt is
only shown when the first one returned a non-empty text.  The second component is the
document whose JSON text is the body of the `POST`, when a request is sent. -/
def saveFlowToServer (s : State Flow) (title description : Option String) :
    State Flow × Option Flow :=
  match title with
  | none => (s, none)
  | some title =>
    if title = "" then (s, none)
    else
      let currentFlow :=
        { s.currentFlow with
          title := title
          description := orDefault (description.getD "") "" }
      ({ s with currentFlow := currentFlow }, some currentFlow)

/-- The callbacks of the request of `saveFlowToServer()` (lines 979-990): `response` is
the parsed reply, or the error of a failed request or of an unparseable reply.  The
result is the state afterwards and the text of the alert. -/
def saveFlowToServerSettled (s : State Flow) (response : Except String JVal) :
    State Flow × String :=
  match response with
  | .ok _ => (s, "Поток успешно сохранен на сервере!")
  | .error _ => (s, "Ошибка при сохранении потока на сервере!")

namespace Json

/-- The path that `handleFlowSelection()` fetches (lines 533-547); `none` when the
selected value is `custom` and no request is made. -/
def handleFlowSelection (selectedValue : String) : Option String :=
  if selectedValue = "custom" then none
  else if "/".data.isPrefixOf selectedValue.data then some selectedValue
  else some ("examples/" ++ selectedValue ++ ".json")

/-- The callbacks of the request of `handleFlowSelection()` (lines 548-561), run on the
state at the time the request settles: `response` is the parsed document, or the error of
a failed request or of an unparseable reply. -/
def handleFlowSelectionSettled (P : Platform) (s : State JVal) (response : Except String JVal) :
    State JVal :=
  match response with
  | .error _ => s
  | .ok data =>
    let s1 := { s with currentFlow := data }
    match renderFlow P s1.currentFlow with
    | .error _ => s1
    | .ok _ => if s1.isEditMode then cancelEditMode s1 else s1

end Json

/-! ## Rendering a typed flow (lines 751-944) -/

namespace View

/-- A node of the document tree that `renderFlow` builds.  An element carries its tag,
its `className`, its other attributes in the order they are set, and its children.
Markup assigned through `innerHTML` is kept as the assigned text. -/
inductive Node where
  | element (tag : String) (className : String) (attrs : List (String × String))
      (children : List Node)
  | text (content : String)
  | html (markup : String)
  deriving Repr

mutual
/-- Decidable equality of nodes. -/
def Node.decEq : (a b : Node) → Decidable (a = b)
  | .element t c as ns, .element t' c' as' ns' =>
    if ht : t = t' then
      if hc : c = c' then
        if ha : as = as' then
          match Node.decEqList ns ns' with
          | isTrue hn => isTrue (by rw [ht, hc, ha, hn])
          | isFalse hn => isFalse (by intro e; cases e; exact hn rfl)
        else isFalse (by intro e; cases e; exact ha rfl)
      else isFalse (by intro e; cases e; exact hc rfl)
    else isFalse (by intro e; cases e; exact ht rfl)
  | .text a, .text b =>
    if h : a = b then isTrue (by rw [h]) else isFalse (by intro e; cases e; exact h rfl)
  | .html a, .html b =>
    if h : a = b then isTrue (by rw [h]) else isFalse (by intro e; cases e; exact h rfl)
  | .element _ _ _ _, .text _ | .element _ _ _ _, .html _
  | .text _, .element _ _ _ _ | .text _, .html _
  | .html _, .element _ _ _ _ | .html _, .text _ => isFalse (by intro e; cases e)
/-- Decidable equality of lists of nodes. -/
def Node.decEqList : (a b : List Node) → Decidable (a = b)
  | [], [] => isTrue rfl
  | [], _ :: _ | _ :: _, [] => isFalse (by intro e; cases e)
  | x :: xs, y :: ys =>
    match Node.decEq x y, Node.decEqList xs ys with
    | isTrue h1, isTrue h2 => isTrue (by rw [h1, h2])
    | isFalse h, _ => isFalse (by intro e; cases e; exact h rfl)
    | _, isFalse h => isFalse (by intro e; cases e; exact h rfl)
end

instance : DecidableEq Node := Node.decEq

/-- The `className` of a node; the empty string for a node that is not an element. -/
def Node.classOf : Node → String
  | .element _ c _ _ => c
  | _ => ""

/-- The children an element has after `el.textContent = value`: one text node, none for
the empty string. -/
def textContent (value : String) : List Node :=
  if value = "" then [] else [.text value]

/-- The part of `createBlockElement` for `inputData` and `outputData` (lines 870-893 and
896-919), with the class of the wrapper and the icon of its heading. -/
def createDataElement (className icon : String) (sample : Option DataSample) : List Node :=
  match sample with
  | none => []
  | some d =>
    if d.data = "" then []
    else
      [.element "div" className []
        ([.element "strong" "" [] [.html ("<i class=\"fa-solid " ++ icon ++ "\"></i> " ++ d.title)]]
          ++ (if d.description = "" then []
              else [.element "p" "" [] (textContent d.description)])
          ++ [.element "pre" "" []
                [.element "code" ("language-" ++ d.format) [] (textContent d.data)]])]

/-- The function `createBlockElement(block)` (lines 788-924).  It reads the module
variables `isEditMode` and `editingBlockId` of `s` at line 830. -/
def createBlockElement {F : Type} (s : State F) (block : Block) : Node :=
  let headerElement : Node :=
    .element "div" "block-header" []
      [.element "i" ("fa-solid " ++ block.icon ++ " block-icon") [] [],
       .element "h3" "" [] (textContent block.title)]
  let controlsContainer : Node :=
    .element "div" "block-controls" []
      [.element "div" "edit-block" [("title", "Редактировать блок")]
         [.html "<i class=\"fa-solid fa-pen-to-square\"></i>"],
       .element "div" "delete-block" [("title", "Удалить блок")]
         [.html "<i class=\"fa-solid fa-trash\"></i>"]]
  let className :=
    if s.isEditMode && s.editingBlockId == some block.id then "block interactive being-edited"
    else "block interactive"
  let descElement : Node := .element "p" "" [] (textContent block.description)
  let explanation : List Node :=
    if block.details.explanation = "" then []
    else
      [.element "strong" "" [] (textContent "Подробности:"),
       .element "p" "" [] (textContent block.details.explanation)]
  let tasks : List Node :=
    if block.details.tasks.length > 0 then
      [.element "strong" "" [] (textContent "Задачи:"),
       .element "ul" "" []
         (block.details.tasks.map (fun task => .element "li" "" [] (textContent task)))]
    else []
  let detailsElement : Node :=
    .element "div" "details" []
      (explanation ++ tasks
        ++ createDataElement "received-data" "fa-inbox" block.inputData
        ++ createDataElement "return-value" "fa-paper-plane" block.outputData)
  .element "div" className [("id", block.id)]
    [headerElement, controlsContainer, descElement, detailsElement]

/-- The function `createArrowElement(connection)` (lines 926-944). -/
def createArrowElement (connection : Connection) : Node :=
  .element "div" "arrow-container" []
    [.element "div" "arrow-label" [] (textContent (orDefault connection.label "Переход данных")),
     .element "div" "arrow-line" [] [],
     .element "div" "arrow" [] []]

/-- The callback of `flow.blocks.forEach` (lines 770-785) over the blocks from the
current one on: what it appends to the container. -/
def renderBlocks {F : Type} (s : State F) (connections : List Connection) :
    List Block → List Node
  | [] => []
  | block :: rest =>
    (createBlockElement s block ::
      (match rest with
       | [] => []
       | nextBlock :: _ =>
         match connections.find? (fun conn => conn.from_ == block.id && conn.to_ == nextBlock.id) with
         | some connection => [createArrowElement connection]
         | none => []))
    ++ renderBlocks s connections rest

/-- The function `renderFlow(flow)` (lines 751-786): the children of `diagramContainer`
afterwards.  `container` is what the container held before; line 753 discards it. -/
def renderFlow {F : Type} (s : State F) (container : List Node) (flow : Flow) : List Node :=
  let container : List Node := (fun _ => []) container
  let flowTitle : Node :=
    .element "h2" "" [("style", "margin-bottom: 10px;")] (textContent flow.title)
  let container := container ++ [flowTitle]
  let container :=
    if flow.description = "" then container
    else container ++
      [.element "p" "" [("style", "margin-bottom: 30px;")] (textContent flow.description)]
  container ++ renderBlocks s flow.connections flow.blocks

/-- Whether a node is a block element of the diagram. -/
def Node.isBlock (n : Node) : Bool :=
  n.classOf == "block interactive" || n.classOf == "block interactive being-edited"

/-- Whether a node is an arrow element of the diagram. -/
def Node.isArrow (n : Node) : Bool :=
  n.classOf == "arrow-container"

/-- An arrow element whose label shows the given text. -/
def arrowWithLabel (label : String) : Node :=
  .element "div" "arrow-container" []
    [.element "div" "arrow-label" [] (textContent label),
     .element "div" "arrow-line" [] [],
     .element "div" "arrow" [] []]

/-- The rendering rule of spec section 4.1 for the block at position `i`, in the words of
the claim: the element of the block, followed by one arrow exactly when there is a next
block and some connection leads from this block to the next one; the arrow shows
`label c` for the first such connection `c`. -/
def specBlockAt {F : Type} (s : State F) (flow : Flow) (label : Connection → String)
    (i : Nat) : List Node :=
  match flow.blocks[i]? with
  | none => []
  | some b =>
    createBlockElement s b ::
      (match flow.blocks[i + 1]? with
       | none => []
       | some next =>
         match flow.connections.find? (fun c => c.from_ == b.id && c.to_ == next.id) with
         | some c => [arrowWithLabel (label c)]
         | none => [])

/-- The rendering rule of spec section 4.1 for the whole container: the title, the
description when it is not empty, then the blocks in array order. -/
def specContainer {F : Type} (s : State F) (flow : Flow) (label : Connection → String) :
    List Node :=
  [.element "h2" "" [("style", "margin-bottom: 10px;")] (textContent flow.title)]
    ++ (if flow.description = "" then []
        else [.element "p" "" [("style", "margin-bottom: 30px;")] (textContent flow.description)])
    ++ (List.range flow.blocks.length).flatMap (specBlockAt s flow label)

end View

/-! ## Connections and blocks; traces of the inline editor and of a deletion -/

/-- Every connection of the flow starts and ends at the id of a block of the flow. -/
def NoDangling (f : Flow) : Prop :=
  ∀ c ∈ f.connections,
    c.from_ ∈ f.blocks.map (fun b => b.id) ∧ c.to_ ∈ f.blocks.map (fun b => b.id)

/-- A submission of the inline form shown inside the block element with the given id, with
the given title in its title field and every other field left empty. -/
def inlineSubmit (id title : String) : SubmitEvent :=
  { submitWithId id with isInlineEdit := true, title := title }

/-- The scenario flow after a click on the edit button of block `a` and then on the edit
button of block `b`: `enterEditMode` (lines 113-135) closes no form, so the inline form of
`a` is still displayed, while `editingBlockId` is `b`. -/
def twoFormsState : State Flow :=
  enterEditMode (enterEditMode scenarioState "a") "b"

/-- The element test of `deleteBlock` for a page that shows block `a`. -/
def domWithA (id : String) : Bool :=
  id == "a"

/-- The page after block `a` was added to the initial flow through the main form. -/
def oneBlockState : State Flow :=
  (handleBlockSubmit initialState (submitWithId "a")).1

/-- From `oneBlockState`: the deletion of block `a` is requested, and before the delayed
removal runs the edit button of the block, still on the page, is clicked. -/
def editDuringDeletion : State Flow :=
  enterEditMode (deleteBlock domWithA oneBlockState "a").1 "a"

end FlowEditor

/-!
# File-block simulator (`src/static/js/script.js`)

The module variables of the simulator page and the handlers that change them.  The page
template is not among the sources; the embedding takes from it only that every
`.file-container` element holds one `.file-block` with one `.filename`, so that
`fileBlocks[i]` is the block of `fileContainers[i]`.  Every handler that removes a
container calls `refreshBlocksList()` before it returns, so between two handlers the
lists `fileBlocks` and `fileContainers` are the containers of the page; the state keeps
that one list.  Timers are explicit: the state holds the interval timers that are live,
each with the variable `currentIndex` of the call of `runSimulation` that created it.
-/

namespace Simulator

/-! ## The data-type catalog -/

/-- The object `dataTypes`: its own members in property order.  Every statement of the
module that writes a member writes a list of labels.  The object inherits from
`Object.prototype`; a read of a member sees the inherited properties (`readProp`).  Keys
that are canonical array indices (which JavaScript lists first) and assignments to the key
`__proto__` (which replace the prototype) are outside the model. -/
abbrev Catalog := List (String × List String)

/-- The constant `DEFAULT_DATA_TYPES` (lines 44-50). -/
def DEFAULT_DATA_TYPES : Catalog :=
  [("api.py", ["API Request", "API Response", "Endpoint Data"]),
   ("search_engine.py", ["Search Query", "Search Results", "Index Data"]),
   ("utils.py", ["Utility Data", "Formatted Date", "Validation Result"]),
   ("models.py", ["Data Model", "Schema", "Database Query"]),
   ("config.py", ["Config Data", "Environment Variable", "Setting"])]

/-- The list the catalog holds under `key`, when `key` is one of its own members: what
`Object.entries(catalog)` pairs with `key`. -/
def getProp (catalog : Catalog) (key : String) : Option (List String) :=
  catalog.lookup key

/-- The names of the properties of `Object.prototype`. -/
def objectPrototypeKeys : List String :=
  ["constructor", "__defineGetter__", "__defineSetter__", "hasOwnProperty",
   "__lookupGetter__", "__lookupSetter__", "isPrototypeOf", "propertyIsEnumerable",
   "toString", "valueOf", "__proto__", "toLocaleString"]

/-- The value of a property read on the catalog: the list of an own member, a property
inherited from `Object.prototype` (a function, or the prototype itself for `__proto__`:
truthy, not iterable, without a method `filter`), or `undefined`. -/
inductive Member where
  | list (types : List String)
  | inherited
  | undefined
  deriving DecidableEq, Repr

/-- The property read `catalog[key]`: an own member first, then `Object.prototype`. -/
def readProp (catalog : Catalog) (key : String) : Member :=
  match catalog.lookup key with
  | some types => .list types
  | none => if objectPrototypeKeys.contains key then .inherited else .undefined

/-- JavaScript truthiness of a value read from the catalog: a list and a function are
truthy, `undefined` is not. -/
def Member.truthy : Member → Bool
  | .list _ => true
  | .inherited => true
  | .undefined => false

/-- The assignment `catalog[key] = value`: an existing member keeps its place, a new one
goes last. -/
def setProp (catalog : Catalog) (key : String) (value : List String) : Catalog :=
  if catalog.any (fun kv => kv.1 == key) then
    catalog.map (fun kv => if kv.1 == key then (key, value) else kv)
  else catalog ++ [(key, value)]

/-- The statement `delete catalog[key]`. -/
def deleteProp (catalog : Catalog) (key : String) : Catalog :=
  catalog.filter (fun kv => kv.1 != key)

/-- The call `Object.keys(catalog)`. -/
def keys (catalog : Catalog) : List String :=
  catalog.map (fun kv => kv.1)

/-- The method `String.prototype.endsWith`. -/
def endsWith (s suffix : String) : Bool :=
  suffix.data.isSuffixOf s.data

/-! ## The page and the module variables -/

/-- A `.file-container` element of the page with its `.file-block`: the attribute
`data-id`, the text of `.filename`, the description shown in the info box, whether the
block carries the class `active`, and the labels of the `.pulse` elements inside the
container, oldest first (`none` is a label drawn as `undefined`). -/
structure FileContainer where
  id : String
  filename : String
  description : String
  active : Bool
  pulses : List (Option String)
  deriving DecidableEq, Repr

/-- A live interval timer created by `runSimulation`: the id that `setInterval` returned
and the variable `currentIndex` of its callback. -/
structure Timer where
  id : Nat
  currentIndex : Nat
  deriving DecidableEq, Repr

/-- The module variables (lines 1-2, 39-42, 52), the live timers, the id the next
`setInterval` returns, and the value stored under the key `dataTypes` of the local
storage. -/
structure State where
  fileContainers : List FileContainer
  isSimulating : Bool
  animationInterval : Option Nat
  timers : List Timer
  nextTimerId : Nat
  dataTypes : Catalog
  tempDataTypes : List String
  savedDataTypes : Option Catalog
  deriving DecidableEq, Repr

/-- What the browser guarantees about timer ids: they are positive, and the id of a live
timer is never handed out again. -/
def TimersWellFormed (s : State) : Prop :=
  0 < s.nextTimerId ∧ ∀ t ∈ s.timers, 0 < t.id ∧ t.id < s.nextTimerId

/-! ## The simulation (lines 293-375) -/

/-- The call `clearInterval(animationInterval)`; nothing happens for `undefined`. -/
def clearInterval (timers : List Timer) (animationInterval : Option Nat) : List Timer :=
  match animationInterval with
  | some id => timers.filter (fun t => t.id != id)
  | none => timers

/-- The function `runSimulation()` (lines 307-337) without the body of the callback: the
guard of line 310 clears the timer held in `animationInterval` when that value is truthy,
then a new timer starts with `currentIndex = 0`. -/
def runSimulation (s : State) : State :=
  let timers :=
    match s.animationInterval with
    | some id => if id != 0 then clearInterval s.timers (some id) else s.timers
    | none => s.timers
  { s with
    timers := timers ++ [{ id := s.nextTimerId, currentIndex := 0 }]
    animationInterval := some s.nextTimerId
    nextTimerId := s.nextTimerId + 1 }

/-- The function `stopSimulation()` (lines 339-343). -/
def stopSimulation (s : State) : State :=
  { s with
    timers := clearInterval s.timers s.animationInterval
    fileContainers := s.fileContainers.map (fun c => { c with pulses := [], active := false }) }

/-- The handler `toggleSimulation()` (lines 293-305). -/
def toggleSimulation (s : State) : State :=
  let s := { s with isSimulating := !s.isSimulating }
  if s.isSimulating then runSimulation s else stopSimulation s

/-- The function `findNextContainerIndex(currentIndex)` (lines 373-375).  With an empty
list JavaScript yields `NaN`; the callback returns before it gets there. -/
def findNextContainerIndex (s : State) (currentIndex : Nat) : Nat :=
  (currentIndex + 1) % s.fileContainers.length

/-- The expression of lines 322-325; `none` is `undefined`.  The conditional operator
binds weaker than `||`, so the expression reads `(dataTypes[f] || keys.find(...)) ?
dataTypes[keys.find(...)] : generic`.  The read `dataTypes[f]` sees the properties
inherited from `Object.prototype`; a list and a function are truthy, a key is truthy unless
it is the empty string.  The second read is by a key that `Object.keys` returned, an own
member, or by `undefined`, which reads the member named `undefined`: neither reaches
`Object.prototype`. -/
def possibleData (dataTypes : Catalog) (currentFilename : String) : Option (List String) :=
  let own := readProp dataTypes currentFilename
  let found := (keys dataTypes).find? (fun key => endsWith currentFilename key)
  let condition :=
    own.truthy ||
      (match found with
       | some key => key != ""
       | none => false)
  if condition then getProp dataTypes (found.getD "undefined")
  else some ["Data", "Info", "Message"]

/-- What one run of the timer callback did: the index of the container that received the
pulse, the label of the pulse, and the index of the block that was highlighted. -/
structure Emission where
  container : Nat
  dataType : Option String
  highlighted : Option Nat
  deriving DecidableEq, Repr

/-- One run of the callback of the timer `timerId` (lines 312-336).  `rand n` is the
value of `Math.floor(Math.random() * n)` for the draw of this run.  A timer that was
cleared does not run.  The state is unchanged when the callback returns early or throws
on `possibleData.length`. -/
def tick (rand : Nat → Nat) (s : State) (timerId : Nat) : State × Option Emission :=
  match s.timers.find? (fun t => t.id == timerId) with
  | none => (s, none)
  | some timer =>
    if s.fileContainers.length = 0 then (s, none)
    else
      let currentIndex := timer.currentIndex
      let nextIndex := findNextContainerIndex s currentIndex
      match s.fileContainers[currentIndex]? with
      | none => (s, none)
      | some currentContainer =>
        match possibleData s.dataTypes currentContainer.filename with
        | none => (s, none)
        | some possibleData =>
          let dataType := possibleData[rand possibleData.length]?
          let containers := s.fileContainers.set currentIndex
            { currentContainer with pulses := currentContainer.pulses ++ [dataType] }
          let highlighted := containers[nextIndex]?
          let containers :=
            match highlighted with
            | some block => containers.set nextIndex { block with active := true }
            | none => containers
          let timers := s.timers.map (fun t =>
            if t.id == timerId then { t with currentIndex := nextIndex } else t)
          ({ s with fileContainers := containers, timers := timers },
            some { container := currentIndex, dataType := dataType,
                   highlighted := highlighted.map (fun _ => nextIndex) })

/-- The timeout of `highlightBlock` (lines 368-370) for the block at position `index`. -/
def highlightTimeout (s : State) (index : Nat) : State :=
  match s.fileContainers[index]? with
  | some c => { s with fileContainers := s.fileContainers.set index { c with active := false } }
  | none => s

/-- The `animationend` listener of `createPulse` (lines 361-363) for the pulse at position
`pulse` of the container at position `index`. -/
def animationEnd (s : State) (index pulse : Nat) : State :=
  match s.fileContainers[index]? with
  | some c =>
    { s with fileContainers := s.fileContainers.set index { c with pulses := c.pulses.eraseIdx pulse } }
  | none => s

/-- The events of the simulation. -/
inductive Event where
  | toggle
  | tick (timerId : Nat) (rand : Nat → Nat)
  | highlightTimeout (index : Nat)
  | animationEnd (index pulse : Nat)

/-- The state after one event. -/
def step (s : State) : Event → State
  | .toggle => toggleSimulation s
  | .tick timerId rand => (tick rand s timerId).1
  | .highlightTimeout index => highlightTimeout s index
  | .animationEnd index pulse => animationEnd s index pulse

/-- The state after a sequence of events. -/
def run (s : State) (events : List Event) : State :=
  events.foldl step s

/-- The state after the first `k` runs of the callback of the timer `timerId`, the
`i`-th of them with the draw `rands i`. -/
def ticks (rands : Nat → Nat → Nat) (timerId : Nat) (s : State) : Nat → State
  | 0 => s
  | k + 1 => (tick (rands k) (ticks rands timerId s k) timerId).1

/-! ## Updating a file block (lines 510-564) and the catalog synchronisation (lines 756-789) -/

/-- A block of the list that `GET /api/blocks` returns; `id` is `block.id.toString()`. -/
structure ServerBlock where
  id : String
  filename : String
  description : String
  deriving DecidableEq, Repr

/-- The object `blockData` of `saveBlockData` (lines 476-479). -/
structure BlockData where
  filename : String
  description : String
  deriving DecidableEq, Repr

/-- The first callback of `updateExistingBlock(id, blockData)` (lines 515-534): the value
it gives `oldFilename` and the list whose JSON text it posts. -/
def updateExistingBlockFetched (id : String) (blockData : BlockData) (blocks : List ServerBlock) :
    String × List ServerBlock :=
  let oldFilename :=
    match blocks.find? (fun block => block.id == id) with
    | some oldBlock => oldBlock.filename
    | none => ""
  let updatedBlocks := blocks.map (fun block =>
    if block.id == id then
      { block with filename := blockData.filename, description := blockData.description }
    else block)
  (oldFilename, updatedBlocks)

/-- The default list that the synchronisation seeds for a filename (lines 768-778). -/
def defaultDataTypes (filename : String) : List String :=
  if endsWith filename ".py" then ["Python Data", "Module Info", "Function Result"]
  else if endsWith filename ".js" then ["JavaScript Data", "JSON Object", "Function Result"]
  else if endsWith filename ".html" then ["HTML Content", "DOM Event", "Template Data"]
  else if endsWith filename ".css" then ["Style Property", "Media Query", "Animation Data"]
  else ["Data", "Information", "Result"]

/-- The function `saveDataTypes()` (lines 660-662). -/
def saveDataTypes (s : State) : State :=
  { s with savedDataTypes := some s.dataTypes }

/-- The loop of lines 764-780 over the filenames still to visit, `synced` being the
object built so far; `none` when the loop throws.  For a filename that is no own member of
the catalog but names a property of `Object.prototype`, the test of line 765 succeeds and
the spread of line 766 throws a `TypeError`: the value is not iterable. -/
def syncedDataTypes (dataTypes : Catalog) : List String → Catalog → Option Catalog
  | [], synced => some synced
  | filename :: rest, synced =>
    match readProp dataTypes filename with
    | .list types => syncedDataTypes dataTypes rest (setProp synced filename types)
    | .inherited => none
    | .undefined =>
      syncedDataTypes dataTypes rest (setProp synced filename (defaultDataTypes filename))

/-- The function `syncAnimationDataWithBlocks()` (lines 756-789): the state afterwards
and the returned number, `none` when the function throws.  A throw inside the loop leaves
the module variables and the local storage as they were: the assignment of line 782 and
`saveDataTypes()` are not reached. -/
def syncAnimationDataWithBlocks (s : State) : State × Option Nat :=
  let currentFilenames := s.fileContainers.map (fun c => c.filename)
  match syncedDataTypes s.dataTypes currentFilenames [] with
  | none => (s, none)
  | some synced => (saveDataTypes { s with dataTypes := synced }, some currentFilenames.length)

/-- No filename shown on the page reads a property inherited from `Object.prototype`:
each is an own member of the catalog or reads as `undefined`. -/
def NoInheritedRead (s : State) : Prop :=
  ∀ c ∈ s.fileContainers, readProp s.dataTypes c.filename ≠ .inherited

instance (s : State) : Decidable (NoInheritedRead s) := by
  unfold NoInheritedRead
  infer_instance

/-- The element that `document.querySelector` finds, changed in place: the list with the
first element that satisfies `p` replaced by its image under `f`, or `none` when no
element satisfies `p` (the selector finds `null`). -/
def updateFirst {α : Type} (p : α → Bool) (f : α → α) : List α → Option (List α)
  | [] => none
  | x :: xs => if p x then some (f x :: xs) else (updateFirst p f xs).map (fun l => x :: l)

/-- The last callback of `updateExistingBlock(id, blockData)` (lines 537-559), run on the
state at the time the reply arrives; `status` is `data.status` and `oldFilename` the value
the first callback left.  When no container of the page has the id, line 540 throws
before anything is changed.  When the old filename is no own member of the catalog but
names a property of `Object.prototype`, the spread of line 548 throws after the container
was updated.  A throw of the closing synchronisation is caught like the others: the state
is the one the synchronisation left. -/
def updateExistingBlockSaved (s : State) (id : String) (blockData : BlockData)
    (oldFilename status : String) : State :=
  if status != "success" then s
  else
    match updateFirst (fun c => c.id == id)
        (fun c => { c with filename := blockData.filename, description := blockData.description })
        s.fileContainers with
    | none => s
    | some fileContainers =>
      let s := { s with fileContainers := fileContainers }
      if oldFilename != "" && oldFilename != blockData.filename then
        match readProp s.dataTypes oldFilename with
        | .list types =>
          (syncAnimationDataWithBlocks
            (saveDataTypes
              { s with
                dataTypes := deleteProp (setProp s.dataTypes blockData.filename types) oldFilename })).1
        | .inherited => s
        | .undefined => (syncAnimationDataWithBlocks s).1
      else (syncAnimationDataWithBlocks s).1

/-! ## Concrete pages and the state predicates of the simulation -/

/-- The state `Idle` of spec section 4.6: not simulating, no live timer. -/
def Idle (s : State) : Prop :=
  s.isSimulating = false ∧ s.timers = []

/-- The relation between `isSimulating`, `animationInterval` and the live timers that
holds in an idle state and that every event of the simulation keeps. -/
def SimulationConsistent (s : State) : Prop :=
  0 < s.nextTimerId ∧
  (s.isSimulating = true →
    ∃ t, s.timers = [t] ∧ s.animationInterval = some t.id ∧ 0 < t.id) ∧
  (s.isSimulating = false → s.timers = [])

/-- A container with the given id and filename, not highlighted and with no pulse. -/
def containerWith (id filename : String) : FileContainer :=
  { id := id, filename := filename, description := "", active := false, pulses := [] }

/-- The state of a freshly loaded page that shows the given containers, with the given
catalog. -/
def pageState (fileContainers : List FileContainer) (dataTypes : Catalog) : State :=
  { fileContainers := fileContainers
    isSimulating := false
    animationInterval := none
    timers := []
    nextTimerId := 1
    dataTypes := dataTypes
    tempDataTypes := []
    savedDataTypes := none }

/-- A page with the two files `utils.py` and `test_utils.py`, each with a list of its own
in the catalog. -/
def utilsPage : State :=
  pageState [containerWith "1" "utils.py", containerWith "2" "test_utils.py"]
    [("utils.py", ["Utility Data"]), ("test_utils.py", ["Test Result"])]

/-- A page on which two file blocks carry the filename `utils.py`. -/
def twinPage : State :=
  pageState [containerWith "1" "utils.py", containerWith "2" "utils.py"]
    [("utils.py", ["Utility Data"])]

end Simulator

namespace Simulator

/-! ## The catalog editor (lines 156-199, 697-724) and catalog loading (lines 648-658) -/

/-- The click handler of `addFileType` (lines 180-199); `value` is `newFileType.value`.
A commit needs a name that is not empty after trimming and a scratch list that is not
empty. -/
def addFileTypeClick (s : State) (value : String) : State :=
  let fileType := FlowEditor.jsTrim value
  if fileType != "" && decide (s.tempDataTypes.length > 0) then
    { s with dataTypes := setProp s.dataTypes fileType s.tempDataTypes, tempDataTypes := [] }
  else s

/-- The click handler of a `.delete-btn` (lines 699-706) for the file type of its
attribute `data-file`; `confirmed` is what `confirm` returned. -/
def deleteFileTypeClick (s : State) (fileType : String) (confirmed : Bool) : State :=
  if confirmed then { s with dataTypes := deleteProp s.dataTypes fileType } else s

/-- The click handler of a `.remove-data-type` button (lines 710-722) for the file type
and the label of its attributes `data-file` and `data-type`.  When the file type is not an
own member of the catalog, line 714 throws before anything is changed: neither `undefined`
nor an inherited property has a method `filter`. -/
def removeDataTypeClick (s : State) (fileType dataType : String) : State :=
  match readProp s.dataTypes fileType with
  | .inherited => s
  | .undefined => s
  | .list types =>
    let filtered := types.filter (fun type => type != dataType)
    let dataTypes := setProp s.dataTypes fileType filtered
    let dataTypes := if filtered.length = 0 then deleteProp dataTypes fileType else dataTypes
    { s with dataTypes := dataTypes }

/-- The click handler of `resetAnimationSettings` (lines 156-162); `confirmed` is what
`confirm` returned. -/
def resetAnimationSettingsClick (s : State) (confirmed : Bool) : State :=
  if confirmed then { s with dataTypes := DEFAULT_DATA_TYPES } else s

/-- The click handler of `animationSettingsToggle` (lines 132-142): the state afterwards
and whether the notice about a page without file blocks is shown.  When the
synchronisation throws, the handler ends there. -/
def animationSettingsToggleClick (s : State) : State × Bool :=
  let blockCount := (syncAnimationDataWithBlocks s).2
  ((syncAnimationDataWithBlocks s).1, blockCount == some 0)

/-- A catalog as the JavaScript object it is. -/
def catalogToJson (catalog : Catalog) : FlowEditor.JVal :=
  .obj (catalog.map (fun kv => (kv.1, .arr (kv.2.map FlowEditor.JVal.str))))

/-- The function `loadDataTypes()` (lines 648-658) on the raw value of the variable
`dataTypes`: `savedDataTypes` is what `localStorage.getItem('dataTypes')` returns (`none`
is `null`), and the result is the value of `dataTypes` afterwards.  Whatever
`JSON.parse` returns is assigned as it is. -/
def loadDataTypes (P : FlowEditor.Json.Platform) (dataTypes : FlowEditor.JVal)
    (savedDataTypes : Option String) : FlowEditor.JVal :=
  match savedDataTypes with
  | none => dataTypes
  | some saved =>
    if saved = "" then dataTypes
    else
      match P.jsonParse saved with
      | .ok parsed => parsed
      | .error _ => catalogToJson DEFAULT_DATA_TYPES

/-! ## Deleting a file block (lines 446-467) -/

/-- The list without the element that `document.querySelector` finds, or `none` when no
element satisfies `p` (the selector finds `null`). -/
def removeFirst {α : Type} (p : α → Bool) : List α → Option (List α)
  | [] => none
  | x :: xs => if p x then some xs else (removeFirst p xs).map (fun l => x :: l)

/-- The callback of the request of `deleteBlock(id)` (lines 451-462), run on the state at
the time the reply arrives; `status` is `data.status`.  The container is removed,
`refreshBlocksList()` re-reads the lists, and the catalog is synchronised.  When no
container of the page has the id, line 455 throws before anything is changed. -/
def deleteBlockDeleted (s : State) (id status : String) : State :=
  if status != "success" then s
  else
    match removeFirst (fun c => c.id == id) s.fileContainers with
    | none => s
    | some fileContainers =>
      (syncAnimationDataWithBlocks { s with fileContainers := fileContainers }).1

/-- Every key of the catalog maps to a list that is not empty. -/
def CatalogNonEmpty (catalog : Catalog) : Prop :=
  ∀ kv ∈ catalog, kv.2 ≠ []

/-- A freshly loaded page that shows one file block named `constructor`, with the default
catalog: `loadDataTypes` found nothing stored. -/
def constructorPage : State :=
  pageState [containerWith "1" "constructor"] DEFAULT_DATA_TYPES

/-- A freshly loaded page that shows the file blocks `main.py` and `toString`, with the
default catalog. -/
def toStringPage : State :=
  pageState [containerWith "1" "main.py", containerWith "2" "toString"] DEFAULT_DATA_TYPES

/-- The page `utilsPage` with the simulation started, after the first run of the timer
callback (which leaves `currentIndex = 1`) and the deletion of the second file block. -/
def afterDeletion : State :=
  deleteBlockDeleted (tick (fun _ => 0) (toggleSimulation utilsPage) 1).1 "2" "success"

end Simulator

/-! # Theorems -/

namespace FlowEditor

open Json

/-! ## Lemmas on the array helpers -/

theorem findIndex_eq_none_iff {α : Type} (p : α → Bool) (l : List α) :
    findIndex p l = none ↔ ∀ x ∈ l, p x = false := by
  induction l with
  | nil => simp [findIndex]
  | cons x xs ih =>
    by_cases hx : p x = true
    · simp [findIndex, hx]
    · simp [findIndex, hx, ih]

theorem findIndex_eq_some_iff {α : Type} (p : α → Bool) (l : List α) (i : Nat) :
    findIndex p l = some i ↔
      (∃ x, l[i]? = some x ∧ p x = true) ∧ ∀ j, j < i → ∀ y, l[j]? = some y → p y = false := by
  induction l generalizing i with
  | nil => simp [findIndex]
  | cons x xs ih =>
    by_cases hx : p x = true
    · simp only [findIndex, hx, if_true, Option.some.injEq]
      constructor
      · rintro rfl
        exact ⟨⟨x, by simp, hx⟩, fun j hj => absurd hj (Nat.not_lt_zero j)⟩
      · rintro ⟨_, hmin⟩
        cases i with
        | zero => rfl
        | succ k =>
          have := hmin 0 (Nat.succ_pos k) x (by simp)
          rw [hx] at this
          cases this
    · have hx' : p x = false := by simpa using hx
      simp only [findIndex, hx', Bool.false_eq_true, if_false, Option.map_eq_some']
      constructor
      · rintro ⟨k, hk, rfl⟩
        obtain ⟨⟨y, hy, hpy⟩, hmin⟩ := (ih k).1 hk
        refine ⟨⟨y, by simpa using hy, hpy⟩, ?_⟩
        intro j hj z hz
        cases j with
        | zero =>
          simp at hz
          subst hz
          exact hx'
        | succ m =>
          exact hmin m (by omega) z (by simpa using hz)
      · rintro ⟨⟨y, hy, hpy⟩, hmin⟩
        cases i with
        | zero =>
          simp at hy
          subst hy
          rw [hx'] at hpy
          cases hpy
        | succ k =>
          refine ⟨k, (ih k).2 ⟨⟨y, by simpa using hy, hpy⟩, ?_⟩, rfl⟩
          intro j hj z hz
          exact hmin (j + 1) (by omega) z (by simpa using hz)

/-- With pairwise distinct ids, `findIndex` and `splice` remove exactly the blocks whose
id is `blockId`. -/
theorem splice_eq_filter (blockId : String) (blocks : List Block)
    (hnodup : (blocks.map (fun b => b.id)).Nodup) :
    (match findIndex (fun block => block.id == blockId) blocks with
      | some blockIndex => blocks.eraseIdx blockIndex
      | none => blocks) = blocks.filter (fun b => b.id != blockId) := by
  induction blocks with
  | nil => simp [findIndex]
  | cons x xs ih =>
    simp only [List.map_cons, List.nodup_cons] at hnodup
    obtain ⟨hx, hxs⟩ := hnodup
    by_cases hid : x.id = blockId
    · have hrest : xs.filter (fun b => b.id != blockId) = xs := by
        rw [List.filter_eq_self]
        intro b hb
        have : b.id ≠ x.id := by
          intro h
          exact hx (by rw [← h]; exact List.mem_map_of_mem _ hb)
        simpa [hid] using this
      simp [findIndex, hid, hrest]
    · have ih' := ih hxs
      cases hf : findIndex (fun block => block.id == blockId) xs with
      | none =>
        rw [hf] at ih'
        simp only at ih'
        simp [findIndex, hid, hf, ← ih']
      | some i =>
        rw [hf] at ih'
        simp only at ih'
        simp [findIndex, hid, hf, ← ih']

/-! ## Block handlers -/

/-- C1: with pairwise distinct block ids and `blockId` the id of a block, `deleteBlock`
schedules its callback, and once the callback has run the blocks are the former blocks
without that block, the connections are the former connections with `from` and `to`
different from `blockId`, and their number is the former number minus the number of
former connections that named `blockId`. -/
theorem deleteBlock_removes_block_and_its_connections
    (dom : String → Bool) (s : State Flow) (blockId : String)
    (hnodup : (s.currentFlow.blocks.map (fun b => b.id)).Nodup)
    (hmem : blockId ∈ s.currentFlow.blocks.map (fun b => b.id))
    (hdom : dom blockId = true) :
    (deleteBlock dom s blockId).2 = some blockId ∧
    (deleteBlockTimeout (deleteBlock dom s blockId).1 blockId).currentFlow.blocks
      = s.currentFlow.blocks.filter (fun b => b.id != blockId) ∧
    (∃ before removed after,
      s.currentFlow.blocks = before ++ removed :: after ∧ removed.id = blockId ∧
      (deleteBlockTimeout (deleteBlock dom s blockId).1 blockId).currentFlow.blocks
        = before ++ after) ∧
    (deleteBlockTimeout (deleteBlock dom s blockId).1 blockId).currentFlow.connections
      = s.currentFlow.connections.filter (fun c => c.from_ != blockId && c.to_ != blockId) ∧
    (deleteBlockTimeout (deleteBlock dom s blockId).1 blockId).currentFlow.connections.length
      = s.currentFlow.connections.length
        - s.currentFlow.connections.countP (fun c => c.from_ == blockId || c.to_ == blockId) ∧
    s.currentFlow.connections.countP (fun c => c.from_ == blockId || c.to_ == blockId)
      ≤ s.currentFlow.connections.length := by
  have hflow : (deleteBlock dom s blockId).1.currentFlow = s.currentFlow := by
    unfold deleteBlock
    simp only [hdom, Bool.not_true, Bool.false_eq_true, if_false]
    split <;> rfl
  have hblocks : (deleteBlockTimeout (deleteBlock dom s blockId).1 blockId).currentFlow.blocks
      = s.currentFlow.blocks.filter (fun b => b.id != blockId) := by
    simp only [deleteBlockTimeout, hflow]
    exact splice_eq_filter blockId s.currentFlow.blocks hnodup
  have hconns : (deleteBlockTimeout (deleteBlock dom s blockId).1 blockId).currentFlow.connections
      = s.currentFlow.connections.filter (fun c => c.from_ != blockId && c.to_ != blockId) := by
    simp only [deleteBlockTimeout, hflow]
  refine ⟨by simp [deleteBlock, hdom], hblocks, ?_, hconns, ?_, List.countP_le_length _⟩
  · obtain ⟨b, hb, hbid⟩ := List.mem_map.1 hmem
    obtain ⟨before, after, hsplit⟩ := List.append_of_mem hb
    refine ⟨before, b, after, hsplit, hbid, ?_⟩
    rw [hblocks, hsplit]
    rw [hsplit] at hnodup
    simp only [List.map_append, List.map_cons] at hnodup
    have h1 := List.nodup_append.1 hnodup
    have h2 := List.nodup_cons.1 h1.2.1
    have hbefore : before.filter (fun b => b.id != blockId) = before := by
      rw [List.filter_eq_self]
      intro c hc
      have : c.id ≠ blockId := by
        intro h
        exact h1.2.2 (List.mem_map_of_mem _ hc) (by rw [h, ← hbid]; exact List.mem_cons_self _ _)
      simpa using this
    have hafter : after.filter (fun b => b.id != blockId) = after := by
      rw [List.filter_eq_self]
      intro c hc
      have : c.id ≠ blockId := by
        intro h
        exact h2.1 (by rw [hbid, ← h]; exact List.mem_map_of_mem _ hc)
      simpa using this
    simp [List.filter_append, hbefore, hafter, hbid]
  · rw [hconns]
    have hsum := List.length_eq_countP_add_countP
      (fun c : Connection => c.from_ != blockId && c.to_ != blockId) s.currentFlow.connections
    rw [List.countP_eq_length_filter] at hsum
    have hneg : List.countP (fun c : Connection => decide ¬((c.from_ != blockId && c.to_ != blockId) = true))
        s.currentFlow.connections
        = List.countP (fun c => c.from_ == blockId || c.to_ == blockId) s.currentFlow.connections := by
      apply List.countP_congr
      intro c _
      by_cases h1 : c.from_ = blockId <;> by_cases h2 : c.to_ = blockId <;> simp [h1, h2]
    omega

theorem handleBlockSubmit_duplicate (s : State Flow) (e : SubmitEvent)
    (hmode : s.isEditMode = false)
    (hdup : ∃ b ∈ s.currentFlow.blocks, b.id = e.id) :
    handleBlockSubmit s e =
      (s, { message := "Блок с ID \"" ++ e.id ++ "\" уже существует", type := "error" }) := by
  have hany : s.currentFlow.blocks.any (fun block => block.id == e.id) = true := by
    obtain ⟨b, hb, hid⟩ := hdup
    exact List.any_eq_true.2 ⟨b, hb, by simp [hid]⟩
  simp [handleBlockSubmit, hmode, hany]

/-- C2: outside edit mode, a submission whose id is the id of a block of the flow is
rejected with an error notification and leaves the whole state, hence the blocks, their
number and the connections, unchanged. -/
theorem handleBlockSubmit_rejects_duplicate_id
    (s : State Flow) (e : SubmitEvent)
    (hmode : s.isEditMode = false)
    (hdup : ∃ b ∈ s.currentFlow.blocks, b.id = e.id) :
    (handleBlockSubmit s e).1 = s ∧
    (handleBlockSubmit s e).2.type = "error" ∧
    (handleBlockSubmit s e).1.currentFlow.blocks = s.currentFlow.blocks ∧
    (handleBlockSubmit s e).1.currentFlow.blocks.length = s.currentFlow.blocks.length ∧
    (handleBlockSubmit s e).1.currentFlow.connections = s.currentFlow.connections := by
  rw [handleBlockSubmit_duplicate s e hmode hdup]
  exact ⟨rfl, rfl, rfl, rfl, rfl⟩

theorem addNewBlock_blocks (s : State Flow) (blockData : Block) :
    (addNewBlock s blockData).currentFlow.blocks = s.currentFlow.blocks ++ [blockData] := by
  simp [addNewBlock]

theorem addNewBlock_connections_nil (s : State Flow) (blockData : Block)
    (h : s.currentFlow.blocks = []) :
    (addNewBlock s blockData).currentFlow.connections = s.currentFlow.connections := by
  simp [addNewBlock, h]

theorem addNewBlock_connections_concat (s : State Flow) (blockData : Block)
    (init : List Block) (last : Block) (h : s.currentFlow.blocks = init ++ [last]) :
    (addNewBlock s blockData).currentFlow.connections = s.currentFlow.connections ++
      [{ from_ := last.id, to_ := blockData.id,
         label := "Соединение " ++ last.id ++ " → " ++ blockData.id }] := by
  have hidx : (init ++ [last] ++ [blockData])[(init ++ [last] ++ [blockData]).length - 2]?
      = some last := by
    have hlen : (init ++ [last] ++ [blockData]).length - 2 = init.length := by
      simp
    rw [hlen, List.append_assoc, List.getElem?_append_right (Nat.le_refl _)]
    simp
  simp only [addNewBlock, h, hidx]
  simp

theorem handleBlockSubmit_add_flow (s : State Flow) (e : SubmitEvent)
    (hmode : s.isEditMode = false)
    (hnew : ∀ b ∈ s.currentFlow.blocks, b.id ≠ e.id) :
    (handleBlockSubmit s e).1.currentFlow = (addNewBlock s (blockDataOf e)).currentFlow := by
  have hany : s.currentFlow.blocks.any (fun block => block.id == e.id) = false := by
    rw [List.any_eq_false]
    intro b hb
    simpa using hnew b hb
  simp only [handleBlockSubmit, hmode, hany, Bool.false_eq_true, if_false]
  cases e.isInlineEdit <;> rfl

/-- C3: outside edit mode, submitting a block whose id is not present appends the block
built from the form; if the flow had no block the connections are unchanged, and
otherwise exactly one connection is appended, from the former last block to the new
block, with a label that contains both ids. -/
theorem handleBlockSubmit_appends_block_and_connection
    (s : State Flow) (e : SubmitEvent)
    (hmode : s.isEditMode = false)
    (hnew : ∀ b ∈ s.currentFlow.blocks, b.id ≠ e.id) :
    (handleBlockSubmit s e).1.currentFlow.blocks = s.currentFlow.blocks ++ [blockDataOf e] ∧
    (blockDataOf e).id = e.id ∧
    (s.currentFlow.blocks = [] →
      (handleBlockSubmit s e).1.currentFlow.connections = s.currentFlow.connections) ∧
    (∀ last, s.currentFlow.blocks.getLast? = some last →
      ∃ c, (handleBlockSubmit s e).1.currentFlow.connections = s.currentFlow.connections ++ [c] ∧
        c.from_ = last.id ∧ c.to_ = e.id ∧
        last.id.data <:+: c.label.data ∧ e.id.data <:+: c.label.data) := by
  rw [handleBlockSubmit_add_flow s e hmode hnew]
  refine ⟨addNewBlock_blocks s _, rfl, addNewBlock_connections_nil s _, ?_⟩
  intro last hlast
  obtain ⟨init, hinit⟩ : ∃ init, s.currentFlow.blocks = init ++ [last] := by
    rcases List.eq_nil_or_concat s.currentFlow.blocks with hnil | ⟨init, l, hl⟩
    · rw [hnil] at hlast
      simp at hlast
    · rw [hl] at hlast
      simp at hlast
      exact ⟨init, by rw [hl, hlast, List.concat_eq_append]⟩
  refine ⟨_, addNewBlock_connections_concat s _ init last hinit, rfl, rfl, ?_, ?_⟩
  · refine ⟨"Соединение ".data, (" → " ++ (blockDataOf e).id).data, ?_⟩
    simp [String.data_append]
  · refine ⟨("Соединение " ++ last.id ++ " → ").data, [], ?_⟩
    simp [String.data_append, blockDataOf]

/-- C5: when `editingBlockId` is `null` or is not the id of any block of the flow,
`updateExistingBlock` leaves the whole state, hence blocks and connections, unchanged. -/
theorem updateExistingBlock_noop_when_target_missing
    (s : State Flow) (blockData : Block)
    (hmissing : ∀ b ∈ s.currentFlow.blocks, s.editingBlockId ≠ some b.id) :
    updateExistingBlock s blockData = s ∧
    (updateExistingBlock s blockData).currentFlow.blocks = s.currentFlow.blocks ∧
    (updateExistingBlock s blockData).currentFlow.connections = s.currentFlow.connections := by
  have hstate : updateExistingBlock s blockData = s := by
    unfold updateExistingBlock
    cases hid : s.editingBlockId with
    | none => rfl
    | some editingBlockId =>
      have hnone : findIndex (fun block => block.id == editingBlockId) s.currentFlow.blocks
          = none := by
        rw [findIndex_eq_none_iff]
        intro b hb
        have := hmissing b hb
        rw [hid] at this
        have hne : b.id ≠ editingBlockId := fun h => this (by rw [h])
        simpa using hne
      simp [hnone]
  exact ⟨hstate, by rw [hstate], by rw [hstate]⟩

theorem updateExistingBlock_found (s : State Flow) (blockData : Block) (e : String) (i : Nat)
    (hedit : s.editingBlockId = some e)
    (hidx : findIndex (fun block => block.id == e) s.currentFlow.blocks = some i) :
    updateExistingBlock s blockData =
      { s with currentFlow :=
          { s.currentFlow with
            blocks := s.currentFlow.blocks.set i { blockData with id := e } } } := by
  simp [updateExistingBlock, hedit, hidx]

theorem map_id_set_of_findIndex (e : String) (blockData : Block) (blocks : List Block) (i : Nat)
    (hidx : findIndex (fun block => block.id == e) blocks = some i) :
    (blocks.set i { blockData with id := e }).map (fun b => b.id)
      = blocks.map (fun b => b.id) := by
  obtain ⟨⟨x, hx, hpx⟩, _⟩ := (findIndex_eq_some_iff _ _ _).1 hidx
  have hxid : x.id = e := by simpa using hpx
  apply List.ext_getElem?
  intro j
  rw [List.getElem?_map, List.getElem?_map, List.getElem?_set]
  by_cases hij : i = j
  · subst hij
    have hlt : i < blocks.length := by
      by_contra hge
      rw [List.getElem?_eq_none (by omega)] at hx
      cases hx
    simp [hlt, hx, hxid]
  · simp [hij]

/-- C4, as amended: when `editingBlockId` is `e` and position `i` is the first position
whose block has id `e`, `updateExistingBlock` puts the payload with its id set to `e` at
position `i`, keeps the number of blocks and every block at another position, and leaves
the connections and the edit flags unchanged. -/
theorem updateExistingBlock_replaces_first_block_with_id
    (s : State Flow) (blockData : Block) (e : String) (i : Nat) (b : Block)
    (hedit : s.editingBlockId = some e)
    (hat : s.currentFlow.blocks[i]? = some b) (hid : b.id = e)
    (hfirst : ∀ j, j < i → ∀ b', s.currentFlow.blocks[j]? = some b' → b'.id ≠ e) :
    (updateExistingBlock s blockData).currentFlow.blocks[i]? = some { blockData with id := e } ∧
    (updateExistingBlock s blockData).currentFlow.blocks.length = s.currentFlow.blocks.length ∧
    (∀ j, j ≠ i →
      (updateExistingBlock s blockData).currentFlow.blocks[j]? = s.currentFlow.blocks[j]?) ∧
    (updateExistingBlock s blockData).currentFlow.blocks.map (fun b => b.id)
      = s.currentFlow.blocks.map (fun b => b.id) ∧
    (updateExistingBlock s blockData).currentFlow.connections = s.currentFlow.connections ∧
    (updateExistingBlock s blockData).isEditMode = s.isEditMode ∧
    (updateExistingBlock s blockData).editingBlockId = s.editingBlockId := by
  have hidx : findIndex (fun block => block.id == e) s.currentFlow.blocks = some i := by
    rw [findIndex_eq_some_iff]
    refine ⟨⟨b, hat, by simp [hid]⟩, ?_⟩
    intro j hj b' hb'
    simpa using hfirst j hj b' hb'
  have hlt : i < s.currentFlow.blocks.length := by
    by_contra hge
    rw [List.getElem?_eq_none (by omega)] at hat
    cases hat
  rw [updateExistingBlock_found s blockData e i hedit hidx]
  refine ⟨?_, ?_, ?_, map_id_set_of_findIndex e blockData _ i hidx, rfl, rfl, rfl⟩
  · simp [List.getElem?_set, hlt]
  · simp
  · intro j hj
    simp [List.getElem?_set, Ne.symm hj]

/-- C6: pairwise distinct block ids are preserved by every block submission through
`handleBlockSubmit` (add path and update path), by the synchronous part of `deleteBlock`
and by its delayed removal. -/
theorem block_ids_stay_pairwise_distinct
    (s : State Flow)
    (hnodup : (s.currentFlow.blocks.map (fun b => b.id)).Nodup) :
    (∀ e : SubmitEvent,
      ((handleBlockSubmit s e).1.currentFlow.blocks.map (fun b => b.id)).Nodup) ∧
    (∀ (dom : String → Bool) (blockId : String),
      ((deleteBlock dom s blockId).1.currentFlow.blocks.map (fun b => b.id)).Nodup) ∧
    (∀ blockId : String,
      ((deleteBlockTimeout s blockId).currentFlow.blocks.map (fun b => b.id)).Nodup) := by
  refine ⟨?_, ?_, ?_⟩
  · intro e
    by_cases hmode : s.isEditMode = true
    · have hflow : (handleBlockSubmit s e).1.currentFlow
          = (updateExistingBlock s (blockDataOf e)).currentFlow := by
        simp only [handleBlockSubmit, hmode, if_true]
        cases e.isInlineEdit <;> rfl
      rw [hflow]
      cases hedit : s.editingBlockId with
      | none =>
        have : updateExistingBlock s (blockDataOf e) = s := by
          simp [updateExistingBlock, hedit]
        rw [this]
        exact hnodup
      | some eid =>
        cases hidx : findIndex (fun block => block.id == eid) s.currentFlow.blocks with
        | none =>
          have : updateExistingBlock s (blockDataOf e) = s := by
            simp [updateExistingBlock, hedit, hidx]
          rw [this]
          exact hnodup
        | some i =>
          rw [updateExistingBlock_found s _ eid i hedit hidx]
          simp only
          rw [map_id_set_of_findIndex eid _ _ i hidx]
          exact hnodup
    · have hmode' : s.isEditMode = false := by simpa using hmode
      by_cases hdup : ∃ b ∈ s.currentFlow.blocks, b.id = e.id
      · rw [handleBlockSubmit_duplicate s e hmode' hdup]
        exact hnodup
      · have hnew : ∀ b ∈ s.currentFlow.blocks, b.id ≠ e.id := by
          intro b hb h
          exact hdup ⟨b, hb, h⟩
        rw [handleBlockSubmit_add_flow s e hmode' hnew, addNewBlock_blocks]
        simp only [List.map_append, List.map_cons, List.map_nil]
        rw [List.nodup_append]
        refine ⟨hnodup, List.nodup_singleton _, ?_⟩
        intro x hx hx'
        obtain ⟨b, hb, rfl⟩ := List.mem_map.1 hx
        simp at hx'
        exact hnew b hb hx'
  · intro dom blockId
    have hflow : (deleteBlock dom s blockId).1.currentFlow = s.currentFlow := by
      unfold deleteBlock
      split
      · rfl
      · simp only
        split <;> rfl
    rw [hflow]
    exact hnodup
  · intro blockId
    have hsub : ((deleteBlockTimeout s blockId).currentFlow.blocks).Sublist s.currentFlow.blocks := by
      simp only [deleteBlockTimeout]
      split
      · exact List.eraseIdx_sublist _ _
      · exact List.Sublist.refl _
    exact List.Nodup.sublist (hsub.map _) hnodup

/-! ## Import and export -/

theorem isArray_member_iff (parsed : JVal) (name : String) :
    (∃ v, member (some parsed) name = .ok v ∧ truthy v = true ∧ isArray v = true)
      ↔ hasArrayMember parsed name := by
  constructor
  · rintro ⟨v, hget, -, harr⟩
    cases parsed with
    | null => simp [member] at hget
    | obj kvs =>
      simp only [member, Except.ok.injEq] at hget
      subst hget
      cases hl : kvs.lookup name with
      | none => simp [hl, isArray] at harr
      | some w =>
        cases w with
        | arr xs => exact ⟨kvs, xs, rfl, hl⟩
        | null => simp [hl, isArray] at harr
        | bool _ => simp [hl, isArray] at harr
        | num _ => simp [hl, isArray] at harr
        | str _ => simp [hl, isArray] at harr
        | obj _ => simp [hl, isArray] at harr
    | bool _ => simp only [member, Except.ok.injEq] at hget; subst hget; simp [isArray] at harr
    | num _ => simp only [member, Except.ok.injEq] at hget; subst hget; simp [isArray] at harr
    | str _ => simp only [member, Except.ok.injEq] at hget; subst hget; simp [isArray] at harr
    | arr _ => simp only [member, Except.ok.injEq] at hget; subst hget; simp [isArray] at harr
  · rintro ⟨kvs, xs, rfl, hl⟩
    exact ⟨some (.arr xs), by simp [member, hl], rfl, rfl⟩

theorem validateJson_eq_true_iff (P : Platform) (value : String) :
    validateJson P value = true ↔
      jsTrim value ≠ "" ∧ ∃ parsed, P.jsonParse (jsTrim value) = .ok parsed ∧
        (∃ v, member (some parsed) "blocks" = .ok v ∧ truthy v = true ∧ isArray v = true) ∧
        (∃ v, member (some parsed) "connections" = .ok v ∧ truthy v = true ∧ isArray v = true) := by
  unfold validateJson
  by_cases hempty : jsTrim value = ""
  · simp [hempty]
  · simp only [hempty, if_false, ne_eq, not_false_eq_true, true_and]
    cases hparse : P.jsonParse (jsTrim value) with
    | error msg => simp
    | ok parsed =>
      simp only [Except.ok.injEq, exists_eq_left']
      cases hb : member (some parsed) "blocks" with
      | error msg => simp
      | ok blocks =>
        cases hc : member (some parsed) "connections" with
        | error msg =>
          by_cases h1 : truthy blocks = true <;> by_cases h2 : isArray blocks = true <;>
            simp [h1, h2]
        | ok connections =>
          by_cases h1 : truthy blocks = true <;> by_cases h2 : isArray blocks = true <;>
            by_cases h3 : truthy connections = true <;>
            by_cases h4 : isArray connections = true <;> simp [h1, h2, h3, h4]

/-- C7: `validateJson` returns `true` exactly when the trimmed text is not empty, parses
as JSON, and the parsed value has a `blocks` member that is an array and a `connections`
member that is an array; on every other text it returns `false`. -/
theorem validateJson_true_iff_spec (P : Platform) (value : String) :
    (validateJson P value = true ↔ SpecValid P value) ∧
    (validateJson P value = false ↔ ¬ SpecValid P value) := by
  have hiff : validateJson P value = true ↔ SpecValid P value := by
    rw [validateJson_eq_true_iff]
    unfold SpecValid
    constructor
    · rintro ⟨h1, parsed, hp, hb, hc⟩
      exact ⟨h1, parsed, hp, (isArray_member_iff parsed _).1 hb, (isArray_member_iff parsed _).1 hc⟩
    · rintro ⟨h1, parsed, hp, hb, hc⟩
      exact ⟨h1, parsed, hp, (isArray_member_iff parsed _).2 hb, (isArray_member_iff parsed _).2 hc⟩
  refine ⟨hiff, ?_⟩
  rw [← hiff]
  simp

theorem loadJsonFromInput_of_invalid (P : Platform) (s : State JVal) (value : String)
    (h : validateJson P value = false) : loadJsonFromInput P s value = s := by
  simp [loadJsonFromInput, h]

/-- C8: when validation of the pasted text fails, in particular when the trimmed text
parses to a value without a `connections` array, `loadJsonFromInput` leaves the current
flow, the edit-mode flag and the edited id unchanged. -/
theorem loadJsonFromInput_rejects_invalid_text
    (P : Platform) (s : State JVal) (value : String)
    (hinvalid : validateJson P value = false ∨
      ∃ parsed, P.jsonParse (jsTrim value) = .ok parsed ∧ ¬ hasArrayMember parsed "connections") :
    loadJsonFromInput P s value = s ∧
    (loadJsonFromInput P s value).currentFlow = s.currentFlow ∧
    (loadJsonFromInput P s value).isEditMode = s.isEditMode ∧
    (loadJsonFromInput P s value).editingBlockId = s.editingBlockId := by
  have hfalse : validateJson P value = false := by
    rcases hinvalid with h | ⟨parsed, hp, hno⟩
    · exact h
    · cases hv : validateJson P value with
      | false => rfl
      | true =>
        obtain ⟨-, parsed', hp', -, hc⟩ := (validateJson_eq_true_iff P value).1 hv
        rw [hp] at hp'
        cases hp'
        exact absurd ((isArray_member_iff parsed _).1 hc) hno
  have hstate := loadJsonFromInput_of_invalid P s value hfalse
  exact ⟨hstate, by rw [hstate], by rw [hstate], by rw [hstate]⟩

/-- C9 (the code at the inputs of the claim): `handleFileUpload` assigns whatever
`JSON.parse` returned to `currentFlow` without validating it, so a file whose content
parses to a value without a `blocks` or a `connections` array replaces the current
flow; only a file that does not parse leaves the state unchanged. -/
theorem handleFileUpload_assigns_unvalidated_value
    (P : Platform) (s : State JVal) (result : String) (data : JVal)
    (hparse : P.jsonParse result = .ok data) :
    (handleFileUpload P s (some result)).currentFlow = data := by
  simp only [handleFileUpload, hparse]
  split
  · rfl
  · split <;> rfl

namespace Json

/-! ## `JSON.parse` inverts `JSON.stringify` -/

theorem skipWhitespace_of_not_ws (c : Char) (cs : List Char) (h : isJsonWhitespace c = false) :
    skipWhitespace (c :: cs) = c :: cs := by
  simp [skipWhitespace, h]

theorem skipWhitespace_spaces (n : Nat) (rest : List Char) :
    skipWhitespace (spaces n ++ rest) = skipWhitespace rest := by
  induction n with
  | zero => rfl
  | succ n ih =>
    show skipWhitespace (' ' :: (List.replicate n ' ' ++ rest)) = skipWhitespace rest
    rw [skipWhitespace]
    simp only [isJsonWhitespace, decide_True, Bool.true_or, if_true]
    exact ih

theorem skipWhitespace_newline_spaces (n : Nat) (rest : List Char) :
    skipWhitespace ('\n' :: (spaces n ++ rest)) = skipWhitespace rest := by
  rw [skipWhitespace]
  have h : isJsonWhitespace '\n' = true := by decide
  simp only [h, if_true]
  exact skipWhitespace_spaces n rest

/-! ### Strings -/

theorem readChar_control (n : Nat) (h : n < 32) (rest : List Char) :
    readChar (quoteChar (Char.ofNat n) ++ rest) = some (some (Char.ofNat n), rest) := by
  interval_cases n <;> rfl

theorem quoteChar_of_plain (c : Char) (hlow : ¬ c.toNat < 32) (hq : c ≠ '"')
    (hb : c ≠ '\\') : quoteChar c = [c] := by
  have h1 : c ≠ '\x08' := by
    intro h
    subst h
    exact hlow (by decide)
  have h2 : c ≠ '\x0c' := by
    intro h
    subst h
    exact hlow (by decide)
  have h3 : c ≠ '\n' := by
    intro h
    subst h
    exact hlow (by decide)
  have h4 : c ≠ '\r' := by
    intro h
    subst h
    exact hlow (by decide)
  have h5 : c ≠ '\t' := by
    intro h
    subst h
    exact hlow (by decide)
  simp [quoteChar, hq, hb, h1, h2, h3, h4, h5, hlow]

theorem readChar_quoteChar (c : Char) (rest : List Char) :
    readChar (quoteChar c ++ rest) = some (some c, rest) := by
  by_cases hlow : c.toNat < 32
  · have hc : c = Char.ofNat c.toNat := (Char.ofNat_toNat c).symm
    rw [hc]
    exact readChar_control c.toNat hlow rest
  · by_cases hq : c = '"'
    · subst hq
      rfl
    · by_cases hb : c = '\\'
      · subst hb
        rfl
      · rw [quoteChar_of_plain c hlow hq hb]
        show readChar (c :: rest) = some (some c, rest)
        simp [readChar, hq, hb, hlow]

theorem quoteChar_length_pos (c : Char) : 1 ≤ (quoteChar c).length := by
  unfold quoteChar
  repeat' split
  all_goals simp

theorem length_le_quoteBody (cs : List Char) : cs.length ≤ (quoteBody cs).length := by
  induction cs with
  | nil => simp [quoteBody]
  | cons c cs ih =>
    have h := quoteChar_length_pos c
    simp only [quoteBody, List.length_cons, List.length_append]
    omega

theorem parseString_quoteBody (fuel : Nat) (cs rest acc : List Char) (hfuel : cs.length < fuel) :
    parseString fuel (quoteBody cs ++ ('"' :: rest)) acc
      = some (⟨acc.reverse ++ cs⟩, rest) := by
  induction cs generalizing acc fuel with
  | nil =>
    cases fuel with
    | zero => cases hfuel
    | succ fuel =>
      show parseString (fuel + 1) ('"' :: rest) acc = _
      simp [parseString, readChar]
  | cons c cs ih =>
    cases fuel with
    | zero => cases hfuel
    | succ fuel =>
      show parseString (fuel + 1) ((quoteChar c ++ quoteBody cs) ++ ('"' :: rest)) acc = _
      rw [List.append_assoc, parseString, readChar_quoteChar]
      simp only
      rw [ih fuel (c :: acc) (by simpa using hfuel)]
      simp

/-- A quoted string is read back as the string. -/
theorem parseString_quote (s : String) (rest : List Char) :
    ∃ body, quote s ++ rest = '"' :: body ∧
      parseString body.length body [] = some (s, rest) := by
  refine ⟨quoteBody s.data ++ ('"' :: rest), ?_, ?_⟩
  · simp [quote]
  · rw [parseString_quoteBody]
    · simp
    · have h := length_le_quoteBody s.data
      simp only [List.length_append, List.length_cons]
      omega

/-! ### Numbers -/

theorem digitChar_isDigit (n : Nat) (h : n < 10) :
    (digitChar n).isDigit = true ∧ (digitChar n).toNat - 48 = n ∧
      (n ≠ 0 → digitChar n ≠ '0') := by
  interval_cases n <;> decide

theorem natDigits_spec (fuel n : Nat) (h : n < fuel) :
    (∀ c ∈ natDigits fuel n, c.isDigit = true) ∧
    (natDigits fuel n).foldl (fun acc c => acc * 10 + (c.toNat - 48)) 0 = n ∧
    (∃ d ds, natDigits fuel n = d :: ds ∧ (n ≠ 0 → d ≠ '0') ∧
      (n = 0 → ds = [])) := by
  induction fuel generalizing n with
  | zero => omega
  | succ fuel ih =>
    rw [natDigits]
    by_cases hn : n < 10
    · simp only [hn, if_true]
      obtain ⟨h1, h2, h3⟩ := digitChar_isDigit n hn
      refine ⟨?_, ?_, digitChar n, [], rfl, h3, fun _ => rfl⟩
      · intro c hc
        rw [List.mem_singleton] at hc
        rw [hc]
        exact h1
      · simp [h2]
    · simp only [hn, if_false]
      have hdiv : n / 10 < fuel := by omega
      obtain ⟨i1, i2, d, ds, i3, i4, -⟩ := ih (n / 10) hdiv
      obtain ⟨h1, h2, -⟩ := digitChar_isDigit (n % 10) (Nat.mod_lt _ (by decide))
      refine ⟨?_, ?_, d, ds ++ [digitChar (n % 10)], ?_, ?_, ?_⟩
      · intro c hc
        rw [List.mem_append, List.mem_singleton] at hc
        rcases hc with hc | hc
        · exact i1 c hc
        · rw [hc]
          exact h1
      · rw [List.foldl_append, i2]
        simp only [List.foldl_cons, List.foldl_nil, h2]
        omega
      · rw [i3]
        rfl
      · intro _
        apply i4
        omega
      · intro h0
        omega

theorem parseDigits_append (ds rest : List Char) (acc : Nat)
    (hds : ∀ c ∈ ds, c.isDigit = true) (hrest : endsNumber rest = true) :
    parseDigits (ds ++ rest) acc
      = (ds.foldl (fun acc c => acc * 10 + (c.toNat - 48)) acc, rest) := by
  induction ds generalizing acc with
  | nil =>
    cases rest with
    | nil => rfl
    | cons c cs =>
      have hc : c.isDigit = false := by
        simp only [endsNumber, Bool.not_eq_true', Bool.or_eq_false_iff] at hrest
        exact hrest.1.1.1
      simp [parseDigits, hc]
  | cons d ds ih =>
    have hd := hds d (List.mem_cons_self _ _)
    show parseDigits (d :: (ds ++ rest)) acc = _
    rw [parseDigits]
    simp only [hd, if_true, List.foldl_cons]
    exact ih _ (fun c hc => hds c (List.mem_cons_of_mem _ hc))

theorem endsNumber_head (rest : List Char) (h : endsNumber rest = true) :
    (rest.head?.map Char.isDigit).getD false = false ∧
    (rest.head? == some '.') = false ∧ (rest.head? == some 'e') = false ∧
    (rest.head? == some 'E') = false := by
  cases rest with
  | nil => exact ⟨rfl, rfl, rfl, rfl⟩
  | cons c cs =>
    simp only [endsNumber, Bool.not_eq_true', Bool.or_eq_false_iff, decide_eq_false_iff_not]
      at h
    obtain ⟨⟨⟨h1, h2⟩, h3⟩, h4⟩ := h
    refine ⟨by simp [h1], ?_, ?_, ?_⟩
    · simpa using h2
    · simpa using h3
    · simpa using h4

theorem parseNumber_digits (n fuel : Nat) (hfuel : n < fuel) (rest : List Char)
    (hrest : endsNumber rest = true) :
    (natDigits fuel n ++ rest).head? ≠ some '-' ∧
    (match natDigits fuel n ++ rest with
      | [] => (none : Option (Nat × List Char))
      | d :: r =>
        if !d.isDigit then none
        else if d = '0' && (r.head?.map Char.isDigit).getD false then none
        else
          let p := parseDigits (natDigits fuel n ++ rest) 0
          if p.2.head? == some '.' || p.2.head? == some 'e' || p.2.head? == some 'E' then none
          else some (p.1, p.2)) = some (n, rest) := by
  obtain ⟨hall, hval, d, ds, hds, hnz, hz⟩ := natDigits_spec fuel n hfuel
  obtain ⟨e1, e2, e3, e4⟩ := endsNumber_head rest hrest
  have hparse := parseDigits_append (natDigits fuel n) rest 0 hall hrest
  rw [hval] at hparse
  have hd : d.isDigit = true := hall d (by rw [hds]; exact List.mem_cons_self _ _)
  constructor
  · rw [hds]
    intro h
    simp only [List.cons_append, List.head?_cons, Option.some.injEq] at h
    rw [h] at hd
    exact absurd hd (by decide)
  · rw [hparse]
    rw [hds]
    simp only [List.cons_append, hd, Bool.not_true, Bool.false_eq_true, if_false, e2, e3, e4,
      Bool.or_self]
    by_cases h0 : n = 0
    · rw [hz h0]
      simp [e1]
    · have hd0 : d ≠ '0' := hnz h0
      simp [hd0]

theorem parseNumber_stringifyNumber (n : Int) (rest : List Char)
    (hrest : endsNumber rest = true) :
    parseNumber (stringifyNumber n ++ rest) = some (n, rest) := by
  cases n with
  | ofNat m =>
    obtain ⟨hneg, hmatch⟩ := parseNumber_digits m (m + 1) (by omega) rest hrest
    have hnegb : ((natDigits (m + 1) m ++ rest).head? == some '-') = false := by
      simpa using hneg
    unfold parseNumber stringifyNumber
    simp only [hnegb, Bool.false_eq_true, if_false]
    revert hmatch
    cases natDigits (m + 1) m ++ rest with
    | nil => intro h; cases h
    | cons d r =>
      simp only
      intro h
      split at h
      · cases h
      · split at h
        · cases h
        · split at h
          · cases h
          · simp_all
  | negSucc m =>
    obtain ⟨-, hmatch⟩ := parseNumber_digits (m + 1) (m + 2) (by omega) rest hrest
    unfold parseNumber stringifyNumber
    simp only [List.cons_append, List.head?_cons, beq_self_eq_true, if_true, List.tail_cons]
    revert hmatch
    cases natDigits (m + 2) (m + 1) ++ rest with
    | nil => intro h; cases h
    | cons d r =>
      simp only
      intro h
      split at h
      · cases h
      · split at h
        · cases h
        · split at h
          · cases h
          · simp_all
            rw [Int.negSucc_eq]
            omega

/-! ### Values -/

theorem isDigit_not_special (c : Char) (h : c.isDigit = true) :
    isJsonWhitespace c = false ∧ c ≠ ']' ∧ c ≠ '"' ∧ c ≠ '[' ∧ c ≠ '\x7b' ∧ c ≠ 'n' ∧
      c ≠ 't' ∧ c ≠ 'f' ∧ c ≠ '-' := by
  refine ⟨?_, ?_, ?_, ?_, ?_, ?_, ?_, ?_, ?_⟩
  · cases hws : isJsonWhitespace c with
    | false => rfl
    | true =>
      simp only [isJsonWhitespace, Bool.or_eq_true, decide_eq_true_eq] at hws
      rcases hws with ((rfl | rfl) | rfl) | rfl <;> exact absurd h (by decide)
  all_goals
    intro hc
    subst hc
    exact absurd h (by decide)

/-- The text of a number starts with a minus sign or a digit. -/
theorem stringifyNumber_head (n : Int) :
    ∃ c tl, stringifyNumber n = c :: tl ∧ (c = '-' ∨ c.isDigit = true) := by
  cases n with
  | ofNat m =>
    obtain ⟨hall, -, d, ds, hds, -, -⟩ := natDigits_spec (m + 1) m (by omega)
    exact ⟨d, ds, hds, Or.inr (hall d (by rw [hds]; exact List.mem_cons_self _ _))⟩
  | negSucc m => exact ⟨'-', _, rfl, Or.inl rfl⟩

/-- The text of a value starts with a character that is no white space and no closing
bracket. -/
theorem stringifyValue_head (indent : Nat) (v : JVal) :
    ∃ c tl, stringifyValue indent v = c :: tl ∧ isJsonWhitespace c = false ∧ c ≠ ']' := by
  cases v with
  | null => exact ⟨'n', _, rfl, by decide, by decide⟩
  | bool b =>
    cases b with
    | true => exact ⟨'t', _, rfl, by decide, by decide⟩
    | false => exact ⟨'f', _, rfl, by decide, by decide⟩
  | num n =>
    obtain ⟨c, tl, h, hc⟩ := stringifyNumber_head n
    refine ⟨c, tl, by rw [stringifyValue]; exact h, ?_⟩
    rcases hc with rfl | hc
    · exact ⟨by decide, by decide⟩
    · exact ⟨(isDigit_not_special c hc).1, (isDigit_not_special c hc).2.1⟩
  | str s => exact ⟨'"', _, rfl, by decide, by decide⟩
  | arr xs =>
    cases xs with
    | nil => exact ⟨'[', _, rfl, by decide, by decide⟩
    | cons x xs => exact ⟨'[', _, by rw [stringifyValue], by decide, by decide⟩
  | obj kvs =>
    cases kvs with
    | nil => exact ⟨'\x7b', _, rfl, by decide, by decide⟩
    | cons kv kvs =>
      obtain ⟨k, x⟩ := kv
      exact ⟨'\x7b', _, by rw [stringifyValue], by decide, by decide⟩

theorem skipWhitespace_skipWhitespace (cs : List Char) :
    skipWhitespace (skipWhitespace cs) = skipWhitespace cs := by
  induction cs with
  | nil => rfl
  | cons c cs ih =>
    by_cases h : isJsonWhitespace c = true
    · simp only [skipWhitespace, h, if_true, ih]
    · have h' : isJsonWhitespace c = false := by simpa using h
      simp only [skipWhitespace, h', Bool.false_eq_true, if_false]

theorem parseValue_skipWhitespace (fuel : Nat) (cs : List Char) :
    parseValue fuel (skipWhitespace cs) = parseValue fuel cs := by
  cases fuel with
  | zero => simp [parseValue]
  | succ fuel => rw [parseValue, parseValue, skipWhitespace_skipWhitespace]

theorem parseMember_skipWhitespace (fuel : Nat) (cs : List Char) :
    parseMember fuel (skipWhitespace cs) = parseMember fuel cs := by
  cases fuel with
  | zero => simp [parseMember]
  | succ fuel => rw [parseMember, parseMember, skipWhitespace_skipWhitespace]

theorem skipWhitespace_value (indent : Nat) (v : JVal) (rest : List Char) :
    skipWhitespace (stringifyValue indent v ++ rest) = stringifyValue indent v ++ rest := by
  obtain ⟨c, tl, h, hws, -⟩ := stringifyValue_head indent v
  rw [h]
  exact skipWhitespace_of_not_ws c _ hws

theorem skipWhitespace_quote (k : String) (rest : List Char) :
    skipWhitespace (quote k ++ rest) = quote k ++ rest := by
  exact skipWhitespace_of_not_ws '"' _ (by decide)

/-- Reading a member back, given that its value is read back. -/
theorem parseMember_of_value (k : String) (x : JVal) (indent fuel : Nat) (rest : List Char)
    (hx : parseValue fuel (stringifyValue indent x ++ rest) = some (x, rest)) :
    parseMember (fuel + 1) (quote k ++ (':' :: ' ' :: (stringifyValue indent x ++ rest)))
      = some ((k, x), rest) := by
  obtain ⟨body, hbody, hparse⟩ := parseString_quote k
    (':' :: ' ' :: (stringifyValue indent x ++ rest))
  rw [parseMember, skipWhitespace_quote, hbody]
  simp only [if_true, hparse]
  rw [skipWhitespace_of_not_ws ':' _ (by decide)]
  simp only [if_true]
  have hskip : parseValue fuel (' ' :: (stringifyValue indent x ++ rest))
      = parseValue fuel (stringifyValue indent x ++ rest) := by
    rw [← parseValue_skipWhitespace fuel (' ' :: _)]
    have hsp : skipWhitespace (' ' :: (stringifyValue indent x ++ rest))
        = skipWhitespace (stringifyValue indent x ++ rest) := by
      rw [skipWhitespace]
      simp [isJsonWhitespace]
    rw [hsp, parseValue_skipWhitespace]
  rw [hskip, hx]

theorem endsNumber_stringifyElements (indent : Nat) (xs : List JVal) (rest : List Char) :
    endsNumber (stringifyElements indent xs ++ rest) = true := by
  cases xs with
  | nil => rfl
  | cons x xs =>
    rw [stringifyElements]
    rfl

theorem endsNumber_stringifyMembers (indent : Nat) (kvs : List (String × JVal))
    (rest : List Char) :
    endsNumber (stringifyMembers indent kvs ++ rest) = true := by
  cases kvs with
  | nil => rfl
  | cons kv kvs =>
    obtain ⟨k, x⟩ := kv
    rw [stringifyMembers]
    rfl

/-- Reading a non-empty array back, given that its first element and the rest are read
back. -/
theorem parseValue_arr_cons (x : JVal) (xs : List JVal) (indent fuel : Nat)
    (rest : List Char)
    (hx : parseValue fuel (stringifyValue (indent + 2) x ++ (stringifyElements indent xs ++ rest))
      = some (x, stringifyElements indent xs ++ rest))
    (hxs : parseElements fuel (stringifyElements indent xs ++ rest) = some (xs, rest)) :
    parseValue (fuel + 1) (stringifyValue indent (.arr (x :: xs)) ++ rest)
      = some (.arr (x :: xs), rest) := by
  obtain ⟨c, tl, hhead, hws, hclose⟩ := stringifyValue_head (indent + 2) x
  have htext : stringifyValue indent (.arr (x :: xs)) ++ rest
      = '[' :: '\n' :: (spaces (indent + 2) ++ (stringifyValue (indent + 2) x
          ++ (stringifyElements indent xs ++ rest))) := by
    rw [stringifyValue]
    simp
  rw [htext, parseValue, skipWhitespace_of_not_ws '[' _ (by decide)]
  simp only [show ('[' : Char) ≠ '"' by decide, if_false, if_true]
  rw [skipWhitespace_newline_spaces, skipWhitespace_value]
  rw [hhead] at hx ⊢
  simp only [List.cons_append, hclose, if_false] at hx ⊢
  rw [hx]
  simp only [hxs]

/-- Reading the rest of an array back. -/
theorem parseElements_nil (indent fuel : Nat) (rest : List Char) :
    parseElements (fuel + 1) (stringifyElements indent [] ++ rest) = some ([], rest) := by
  have htext : stringifyElements indent [] ++ rest = '\n' :: (spaces indent ++ (']' :: rest)) := by
    rw [stringifyElements]
    simp
  rw [htext, parseElements, skipWhitespace_newline_spaces,
    skipWhitespace_of_not_ws ']' _ (by decide)]
  simp

theorem parseElements_cons (x : JVal) (xs : List JVal) (indent fuel : Nat)
    (rest : List Char)
    (hx : parseValue fuel (stringifyValue (indent + 2) x ++ (stringifyElements indent xs ++ rest))
      = some (x, stringifyElements indent xs ++ rest))
    (hxs : parseElements fuel (stringifyElements indent xs ++ rest) = some (xs, rest)) :
    parseElements (fuel + 1) (stringifyElements indent (x :: xs) ++ rest)
      = some (x :: xs, rest) := by
  have htext : stringifyElements indent (x :: xs) ++ rest
      = ',' :: '\n' :: (spaces (indent + 2) ++ (stringifyValue (indent + 2) x
          ++ (stringifyElements indent xs ++ rest))) := by
    rw [stringifyElements]
    simp
  rw [htext, parseElements, skipWhitespace_of_not_ws ',' _ (by decide)]
  simp only [show (',' : Char) ≠ ']' by decide, if_false, if_true]
  rw [← parseValue_skipWhitespace, skipWhitespace_newline_spaces, parseValue_skipWhitespace, hx]
  simp only [hxs]

/-- The member list that `JSON.parse` builds from members with pairwise distinct names is
the list of the members. -/
theorem foldl_defineMember (kvs acc : List (String × JVal))
    (hnodup : ((acc ++ kvs).map (fun kv => kv.1)).Nodup) :
    kvs.foldl defineMember acc = acc ++ kvs := by
  induction kvs generalizing acc with
  | nil => simp
  | cons kv kvs ih =>
    have hnew : acc.any (fun m => m.1 == kv.1) = false := by
      rw [List.any_eq_false]
      intro m hm
      simp only [beq_iff_eq]
      intro heq
      rw [List.map_append, List.map_cons, List.nodup_append] at hnodup
      exact hnodup.2.2 (List.mem_map.2 ⟨m, hm, rfl⟩) (by rw [heq]; exact List.mem_cons_self _ _)
    rw [List.foldl_cons, defineMember]
    simp only [hnew, Bool.false_eq_true, if_false]
    rw [ih (acc ++ [kv]) (by simpa using hnodup)]
    simp

theorem parseValue_obj_cons (k : String) (x : JVal) (kvs : List (String × JVal))
    (indent fuel : Nat) (rest : List Char)
    (hnodup : (((k, x) :: kvs).map (fun kv => kv.1)).Nodup)
    (hx : parseValue fuel (stringifyValue (indent + 2) x ++ (stringifyMembers indent kvs ++ rest))
      = some (x, stringifyMembers indent kvs ++ rest))
    (hkvs : parseMembers (fuel + 1) (stringifyMembers indent kvs ++ rest) = some (kvs, rest)) :
    parseValue (fuel + 2) (stringifyValue indent (.obj ((k, x) :: kvs)) ++ rest)
      = some (.obj ((k, x) :: kvs), rest) := by
  have htext : stringifyValue indent (.obj ((k, x) :: kvs)) ++ rest
      = '\x7b' :: '\n' :: (spaces (indent + 2) ++ (quote k ++ (':' :: ' ' ::
          (stringifyValue (indent + 2) x ++ (stringifyMembers indent kvs ++ rest))))) := by
    rw [stringifyValue]
    simp
  have hmember := parseMember_of_value k x (indent + 2) fuel _ hx
  rw [htext, parseValue, skipWhitespace_of_not_ws '\x7b' _ (by decide)]
  simp only [show ('\x7b' : Char) ≠ '"' by decide, show ('\x7b' : Char) ≠ '[' by decide,
    if_false, if_true]
  rw [skipWhitespace_newline_spaces, skipWhitespace_quote]
  have hq : quote k ++ (':' :: ' ' ::
      (stringifyValue (indent + 2) x ++ (stringifyMembers indent kvs ++ rest)))
      = '"' :: (quoteBody k.data ++ ('"' :: (':' :: ' ' ::
          (stringifyValue (indent + 2) x ++ (stringifyMembers indent kvs ++ rest))))) := by
    simp [quote]
  rw [hq] at hmember ⊢
  simp only [show ('"' : Char) ≠ '\x7d' by decide, if_false]
  rw [hmember]
  simp only [hkvs]
  rw [foldl_defineMember _ [] (by simpa using hnodup)]
  rfl

theorem parseMembers_nil (indent fuel : Nat) (rest : List Char) :
    parseMembers (fuel + 1) (stringifyMembers indent [] ++ rest) = some ([], rest) := by
  have htext : stringifyMembers indent [] ++ rest
      = '\n' :: (spaces indent ++ ('\x7d' :: rest)) := by
    rw [stringifyMembers]
    simp
  rw [htext, parseMembers, skipWhitespace_newline_spaces,
    skipWhitespace_of_not_ws '\x7d' _ (by decide)]
  simp

theorem parseMembers_cons (k : String) (x : JVal) (kvs : List (String × JVal))
    (indent fuel : Nat) (rest : List Char)
    (hx : parseValue fuel (stringifyValue (indent + 2) x ++ (stringifyMembers indent kvs ++ rest))
      = some (x, stringifyMembers indent kvs ++ rest))
    (hkvs : parseMembers (fuel + 1) (stringifyMembers indent kvs ++ rest) = some (kvs, rest)) :
    parseMembers (fuel + 2) (stringifyMembers indent ((k, x) :: kvs) ++ rest)
      = some ((k, x) :: kvs, rest) := by
  have htext : stringifyMembers indent ((k, x) :: kvs) ++ rest
      = ',' :: '\n' :: (spaces (indent + 2) ++ (quote k ++ (':' :: ' ' ::
          (stringifyValue (indent + 2) x ++ (stringifyMembers indent kvs ++ rest))))) := by
    rw [stringifyMembers]
    simp
  have hmember := parseMember_of_value k x (indent + 2) fuel _ hx
  rw [htext, parseMembers, skipWhitespace_of_not_ws ',' _ (by decide)]
  simp only [show (',' : Char) ≠ '\x7d' by decide, if_false, if_true]
  rw [← parseMember_skipWhitespace, skipWhitespace_newline_spaces, parseMember_skipWhitespace,
    hmember]
  simp only [hkvs]

theorem fuelOfElements_pos (xs : List JVal) : 1 ≤ fuelOfElements xs := by
  cases xs with
  | nil => simp [fuelOfElements]
  | cons x xs =>
    rw [fuelOfElements]
    omega

theorem fuelOfMembers_pos (kvs : List (String × JVal)) : 1 ≤ fuelOfMembers kvs := by
  cases kvs with
  | nil => simp [fuelOfMembers]
  | cons kv kvs =>
    obtain ⟨k, x⟩ := kv
    rw [fuelOfMembers]
    omega

theorem parseValue_leaf (fuel : Nat) (rest : List Char) :
    parseValue (fuel + 1) (stringifyValue 0 .null ++ rest) = some (.null, rest) ∧
    parseValue (fuel + 1) (stringifyValue 0 (.bool true) ++ rest) = some (.bool true, rest) ∧
    parseValue (fuel + 1) (stringifyValue 0 (.bool false) ++ rest) = some (.bool false, rest) ∧
    parseValue (fuel + 1) (stringifyValue 0 (.arr []) ++ rest) = some (.arr [], rest) ∧
    parseValue (fuel + 1) (stringifyValue 0 (.obj []) ++ rest) = some (.obj [], rest) := by
  refine ⟨?_, ?_, ?_, ?_, ?_⟩ <;>
    simp [parseValue, stringifyValue, skipWhitespace, isJsonWhitespace, dropLiteral]

theorem parseValue_str (s : String) (indent fuel : Nat) (rest : List Char) :
    parseValue (fuel + 1) (stringifyValue indent (.str s) ++ rest) = some (.str s, rest) := by
  obtain ⟨body, hbody, hparse⟩ := parseString_quote s rest
  rw [stringifyValue, hbody, parseValue, skipWhitespace_of_not_ws '"' _ (by decide)]
  simp only [if_true, hparse]

theorem parseValue_num (n : Int) (indent fuel : Nat) (rest : List Char)
    (hrest : endsNumber rest = true) :
    parseValue (fuel + 1) (stringifyValue indent (.num n) ++ rest) = some (.num n, rest) := by
  obtain ⟨c, tl, hhead, hc⟩ := stringifyNumber_head n
  have hparse := parseNumber_stringifyNumber n rest hrest
  rw [stringifyValue]
  rw [hhead] at hparse ⊢
  have hspecial : isJsonWhitespace c = false ∧ c ≠ '"' ∧ c ≠ '[' ∧ c ≠ '\x7b' ∧ c ≠ 'n' ∧
      c ≠ 't' ∧ c ≠ 'f' := by
    rcases hc with rfl | hc
    · decide
    · obtain ⟨h1, -, h3, h4, h5, h6, h7, h8, -⟩ := isDigit_not_special c hc
      exact ⟨h1, h3, h4, h5, h6, h7, h8⟩
  obtain ⟨h1, h3, h4, h5, h6, h7, h8⟩ := hspecial
  rw [List.cons_append] at hparse ⊢
  rw [parseValue, skipWhitespace_of_not_ws c _ h1]
  simp only [h3, h4, h5, h6, h7, h8, if_false, hparse]

mutual
/-- Every value without a repeated member name is read back from its text, with enough
fuel. -/
theorem parseValue_stringifyValue : (v : JVal) → (indent fuel : Nat) → (rest : List Char) →
    noDupKeys v = true → fuelOf v ≤ fuel → endsNumber rest = true →
    parseValue fuel (stringifyValue indent v ++ rest) = some (v, rest)
  | .null, _, fuel, rest, _, hfuel, _ => by
    obtain ⟨f, rfl⟩ : ∃ f, fuel = f + 1 := ⟨fuel - 1, by simp [fuelOf] at hfuel; omega⟩
    exact (parseValue_leaf f rest).1
  | .bool true, _, fuel, rest, _, hfuel, _ => by
    obtain ⟨f, rfl⟩ : ∃ f, fuel = f + 1 := ⟨fuel - 1, by simp [fuelOf] at hfuel; omega⟩
    exact (parseValue_leaf f rest).2.1
  | .bool false, _, fuel, rest, _, hfuel, _ => by
    obtain ⟨f, rfl⟩ : ∃ f, fuel = f + 1 := ⟨fuel - 1, by simp [fuelOf] at hfuel; omega⟩
    exact (parseValue_leaf f rest).2.2.1
  | .num n, indent, fuel, rest, _, hfuel, hrest => by
    obtain ⟨f, rfl⟩ : ∃ f, fuel = f + 1 := ⟨fuel - 1, by simp [fuelOf] at hfuel; omega⟩
    exact parseValue_num n indent f rest hrest
  | .str s, indent, fuel, rest, _, hfuel, _ => by
    obtain ⟨f, rfl⟩ : ∃ f, fuel = f + 1 := ⟨fuel - 1, by simp [fuelOf] at hfuel; omega⟩
    exact parseValue_str s indent f rest
  | .arr [], _, fuel, rest, _, hfuel, _ => by
    obtain ⟨f, rfl⟩ : ∃ f, fuel = f + 1 :=
      ⟨fuel - 1, by simp [fuelOf, fuelOfElements] at hfuel; omega⟩
    exact (parseValue_leaf f rest).2.2.2.1
  | .arr (x :: xs), indent, fuel, rest, hkeys, hfuel, hrest => by
    have hpos := fuelOfElements_pos xs
    simp only [fuelOf, fuelOfElements] at hfuel
    simp only [noDupKeys, noDupKeysElements, Bool.and_eq_true] at hkeys
    obtain ⟨f, rfl⟩ : ∃ f, fuel = f + 1 := ⟨fuel - 1, by omega⟩
    exact parseValue_arr_cons x xs indent f rest
      (parseValue_stringifyValue x (indent + 2) f _ hkeys.1 (by omega)
        (endsNumber_stringifyElements indent xs rest))
      (parseElements_stringifyElements xs indent f rest hkeys.2 (by omega))
  | .obj [], _, fuel, rest, _, hfuel, _ => by
    obtain ⟨f, rfl⟩ : ∃ f, fuel = f + 1 :=
      ⟨fuel - 1, by simp [fuelOf, fuelOfMembers] at hfuel; omega⟩
    exact (parseValue_leaf f rest).2.2.2.2
  | .obj ((k, x) :: kvs), indent, fuel, rest, hkeys, hfuel, hrest => by
    have hpos := fuelOfMembers_pos kvs
    simp only [fuelOf, fuelOfMembers] at hfuel
    simp only [noDupKeys, noDupKeysMembers, Bool.and_eq_true, decide_eq_true_eq] at hkeys
    obtain ⟨f, rfl⟩ : ∃ f, fuel = f + 2 := ⟨fuel - 2, by omega⟩
    exact parseValue_obj_cons k x kvs indent f rest hkeys.1
      (parseValue_stringifyValue x (indent + 2) f _ hkeys.2.1 (by omega)
        (endsNumber_stringifyMembers indent kvs rest))
      (parseMembers_stringifyMembers kvs indent (f + 1) rest hkeys.2.2 (by omega))
/-- The rest of an array is read back from its text. -/
theorem parseElements_stringifyElements : (xs : List JVal) → (indent fuel : Nat) →
    (rest : List Char) → noDupKeysElements xs = true → fuelOfElements xs ≤ fuel →
    parseElements fuel (stringifyElements indent xs ++ rest) = some (xs, rest)
  | [], indent, fuel, rest, _, hfuel => by
    obtain ⟨f, rfl⟩ : ∃ f, fuel = f + 1 :=
      ⟨fuel - 1, by simp [fuelOfElements] at hfuel; omega⟩
    exact parseElements_nil indent f rest
  | x :: xs, indent, fuel, rest, hkeys, hfuel => by
    have hpos := fuelOfElements_pos xs
    simp only [fuelOfElements] at hfuel
    simp only [noDupKeysElements, Bool.and_eq_true] at hkeys
    obtain ⟨f, rfl⟩ : ∃ f, fuel = f + 1 := ⟨fuel - 1, by omega⟩
    exact parseElements_cons x xs indent f rest
      (parseValue_stringifyValue x (indent + 2) f _ hkeys.1 (by omega)
        (endsNumber_stringifyElements indent xs rest))
      (parseElements_stringifyElements xs indent f rest hkeys.2 (by omega))
/-- The rest of an object is read back from its text. -/
theorem parseMembers_stringifyMembers : (kvs : List (String × JVal)) → (indent fuel : Nat) →
    (rest : List Char) → noDupKeysMembers kvs = true → fuelOfMembers kvs ≤ fuel →
    parseMembers fuel (stringifyMembers indent kvs ++ rest) = some (kvs, rest)
  | [], indent, fuel, rest, _, hfuel => by
    obtain ⟨f, rfl⟩ : ∃ f, fuel = f + 1 :=
      ⟨fuel - 1, by simp [fuelOfMembers] at hfuel; omega⟩
    exact parseMembers_nil indent f rest
  | (k, x) :: kvs, indent, fuel, rest, hkeys, hfuel => by
    have hpos := fuelOfMembers_pos kvs
    simp only [fuelOfMembers] at hfuel
    simp only [noDupKeysMembers, Bool.and_eq_true] at hkeys
    obtain ⟨f, rfl⟩ : ∃ f, fuel = f + 2 := ⟨fuel - 2, by omega⟩
    exact parseMembers_cons k x kvs indent f rest
      (parseValue_stringifyValue x (indent + 2) f _ hkeys.1 (by omega)
        (endsNumber_stringifyMembers indent kvs rest))
      (parseMembers_stringifyMembers kvs indent (f + 1) rest hkeys.2 (by omega))
end

mutual
theorem fuelOf_le_length : (v : JVal) → (indent : Nat) →
    fuelOf v ≤ (stringifyValue indent v).length
  | .null, _ => by simp [fuelOf, stringifyValue]
  | .bool true, _ => by simp [fuelOf, stringifyValue]
  | .bool false, _ => by simp [fuelOf, stringifyValue]
  | .num n, _ => by
    obtain ⟨c, tl, h, -⟩ := stringifyNumber_head n
    simp [fuelOf, stringifyValue, h]
  | .str s, _ => by simp [fuelOf, stringifyValue, quote]
  | .arr [], _ => by simp [fuelOf, fuelOfElements, stringifyValue]
  | .arr (x :: xs), indent => by
    have h1 := fuelOf_le_length x (indent + 2)
    have h2 := fuelOfElements_le_length xs indent
    simp only [fuelOf, fuelOfElements, stringifyValue, List.length_cons, List.length_append]
    omega
  | .obj [], _ => by simp [fuelOf, fuelOfMembers, stringifyValue]
  | .obj ((k, x) :: kvs), indent => by
    have h1 := fuelOf_le_length x (indent + 2)
    have h2 := fuelOfMembers_le_length kvs indent
    simp only [fuelOf, fuelOfMembers, stringifyValue, List.length_cons, List.length_append]
    omega
theorem fuelOfElements_le_length : (xs : List JVal) → (indent : Nat) →
    fuelOfElements xs ≤ (stringifyElements indent xs).length
  | [], _ => by simp [fuelOfElements, stringifyElements]
  | x :: xs, indent => by
    have h1 := fuelOf_le_length x (indent + 2)
    have h2 := fuelOfElements_le_length xs indent
    simp only [fuelOfElements, stringifyElements, List.length_cons, List.length_append]
    omega
theorem fuelOfMembers_le_length : (kvs : List (String × JVal)) → (indent : Nat) →
    fuelOfMembers kvs ≤ (stringifyMembers indent kvs).length
  | [], _ => by simp [fuelOfMembers, stringifyMembers]
  | (k, x) :: kvs, indent => by
    have h1 := fuelOf_le_length x (indent + 2)
    have h2 := fuelOfMembers_le_length kvs indent
    simp only [fuelOfMembers, stringifyMembers, List.length_cons, List.length_append, quote]
    omega
end

/-- The function `JSON.parse` inverts `JSON.stringify(value, null, 2)` on every value in
which no object has two members of the same name. -/
theorem jsonParse_jsonStringify (v : JVal) (hkeys : noDupKeys v = true) :
    jsonParse (jsonStringify v) = .ok v := by
  have h := parseValue_stringifyValue v 0 ((stringifyValue 0 v).length + 1) [] hkeys
    (Nat.le_succ_of_le (fuelOf_le_length v 0)) rfl
  rw [List.append_nil] at h
  simp [jsonParse, jsonStringify, h, skipWhitespace]

/-- The text of an object starts with an opening brace and ends with a closing brace. -/
theorem stringifyMembers_last (indent : Nat) (kvs : List (String × JVal)) :
    ∃ init, stringifyMembers indent kvs = init ++ ['\x7d'] := by
  induction kvs with
  | nil => exact ⟨'\n' :: spaces indent, by simp [stringifyMembers]⟩
  | cons kv kvs ih =>
    obtain ⟨k, x⟩ := kv
    obtain ⟨init, hinit⟩ := ih
    refine ⟨',' :: '\n' :: (spaces (indent + 2) ++ (quote k ++ (':' :: ' ' ::
      (stringifyValue (indent + 2) x ++ init)))), ?_⟩
    rw [stringifyMembers, hinit]
    simp

theorem stringifyValue_obj_shape (kvs : List (String × JVal)) :
    ∃ mid, stringifyValue 0 (.obj kvs) = '\x7b' :: (mid ++ ['\x7d']) := by
  cases kvs with
  | nil => exact ⟨[], rfl⟩
  | cons kv kvs =>
    obtain ⟨k, x⟩ := kv
    obtain ⟨init, hinit⟩ := stringifyMembers_last 0 kvs
    refine ⟨'\n' :: (spaces 2 ++ (quote k ++ (':' :: ' ' ::
      (stringifyValue 2 x ++ init)))), ?_⟩
    rw [stringifyValue, hinit]
    simp

theorem jsTrim_of_shape (c d : Char) (mid : List Char) (hc : isJsWhitespace c = false)
    (hd : isJsWhitespace d = false) :
    jsTrim ⟨c :: (mid ++ [d])⟩ = ⟨c :: (mid ++ [d])⟩ := by
  unfold jsTrim
  congr 1
  have h1 : (c :: (mid ++ [d])).dropWhile isJsWhitespace = c :: (mid ++ [d]) := by
    simp [List.dropWhile, hc]
  rw [h1]
  have h2 : (c :: (mid ++ [d])).reverse = d :: (mid.reverse ++ [c]) := by
    simp
  rw [h2]
  have h3 : (d :: (mid.reverse ++ [c])).dropWhile isJsWhitespace = d :: (mid.reverse ++ [c]) := by
    simp [List.dropWhile, hd]
  rw [h3]
  simp

/-- Trimming leaves the text of an object as it is, and that text is not empty. -/
theorem jsTrim_jsonStringify_obj (kvs : List (String × JVal)) :
    jsTrim (jsonStringify (.obj kvs)) = jsonStringify (.obj kvs) ∧
    jsonStringify (.obj kvs) ≠ "" := by
  obtain ⟨mid, hmid⟩ := stringifyValue_obj_shape kvs
  unfold jsonStringify
  rw [hmid]
  refine ⟨jsTrim_of_shape '\x7b' '\x7d' mid (by decide) (by decide), ?_⟩
  intro h
  have := congrArg String.data h
  simp at this


theorem noDupKeys_of_strings (xs : List String) :
    noDupKeysElements (xs.map JVal.str) = true := by
  induction xs with
  | nil => rfl
  | cons x xs ih =>
    simp only [List.map_cons, noDupKeysElements, noDupKeys, Bool.true_and]
    exact ih

end Json

/-- The comparison `v > 0` at some values: a string compares by the number it denotes. -/
theorem jsGtZero_examples :
    jsGtZero (.str "5") = some true ∧
    jsGtZero (.str " 0x1F ") = some true ∧
    jsGtZero (.str "") = some false ∧
    jsGtZero (.str "-5") = some false ∧
    jsGtZero (.str "five") = some false ∧
    jsGtZero (.arr [.str "5"]) = some true ∧
    jsGtZero (.arr [.num 1, .num 2]) = some false ∧
    jsGtZero (.obj [("toString", .num 1)]) = none ∧
    lengthGtZero (tablePlatform []) (some (.obj [("length", .str "5")])) = .ok true ∧
    lengthGtZero jsPlatform (some (.obj [("length", .str "5")])) = .ok true := by
  decide

theorem noDupKeys_blockToJson (b : Block) : noDupKeys b.toJson = true := by
  have htasks := noDupKeys_of_strings b.details.tasks
  unfold Block.toJson DataSample.toJson
  cases b.inputData <;> cases b.outputData <;>
    simp [noDupKeys, noDupKeysMembers, htasks]

/-- Every document of the data model is a value without a repeated member name. -/
theorem noDupKeys_flowToJson (f : Flow) : noDupKeys f.toJson = true := by
  have hblocks : noDupKeysElements (f.blocks.map Block.toJson) = true := by
    induction f.blocks with
    | nil => rfl
    | cons b rest ih =>
      simp only [List.map_cons, noDupKeysElements, noDupKeys_blockToJson, Bool.true_and]
      exact ih
  have hconns : noDupKeysElements (f.connections.map Connection.toJson) = true := by
    induction f.connections with
    | nil => rfl
    | cons c rest ih =>
      simp only [List.map_cons, noDupKeysElements, Bool.and_eq_true]
      exact ⟨by simp [Connection.toJson, noDupKeys, noDupKeysMembers], ih⟩
  simp [Flow.toJson, noDupKeys, noDupKeysMembers, hblocks, hconns]

/-- C10: with `JSON.stringify` and `JSON.parse` as the reference implementation, for every
flow with a `blocks` array and a `connections` array (a value in which no object has two
members of the same name, as every JavaScript object and every document of the data model
is), the text that `saveFlowToJSON` exports is the text of the whole flow with two-space
indentation, it passes `validateJson`, and `loadJsonFromInput` on it, from any state,
makes that flow the current flow, with the same blocks and the same connections in the
same order. -/
theorem export_then_import_round_trip
    (s s' : State JVal) (blocks connections : List JVal)
    (hkeys : noDupKeys s.currentFlow = true)
    (hblocks : member (some s.currentFlow) "blocks" = .ok (some (.arr blocks)))
    (hconns : member (some s.currentFlow) "connections" = .ok (some (.arr connections))) :
    saveFlowToJSON jsPlatform s = ⟨stringifyValue 0 s.currentFlow⟩ ∧
    validateJson jsPlatform (saveFlowToJSON jsPlatform s) = true ∧
    (loadJsonFromInput jsPlatform s' (saveFlowToJSON jsPlatform s)).currentFlow
      = s.currentFlow ∧
    member (some (loadJsonFromInput jsPlatform s' (saveFlowToJSON jsPlatform s)).currentFlow)
      "blocks" = .ok (some (.arr blocks)) ∧
    member (some (loadJsonFromInput jsPlatform s' (saveFlowToJSON jsPlatform s)).currentFlow)
      "connections" = .ok (some (.arr connections)) := by
  have hexport : saveFlowToJSON jsPlatform s = jsonStringify s.currentFlow := rfl
  have hparse : jsPlatform.jsonParse (saveFlowToJSON jsPlatform s) = .ok s.currentFlow := by
    rw [hexport]
    exact jsonParse_jsonStringify s.currentFlow hkeys
  obtain ⟨kvs, hobj⟩ : ∃ kvs, s.currentFlow = .obj kvs := by
    cases hflow : s.currentFlow with
    | obj kvs => exact ⟨kvs, rfl⟩
    | null => rw [hflow] at hblocks; cases hblocks
    | bool b => rw [hflow] at hblocks; cases hblocks
    | num n => rw [hflow] at hblocks; cases hblocks
    | str t => rw [hflow] at hblocks; cases hblocks
    | arr xs => rw [hflow] at hblocks; cases hblocks
  have htrim : jsTrim (saveFlowToJSON jsPlatform s) = saveFlowToJSON jsPlatform s := by
    rw [hexport, hobj]
    exact (jsTrim_jsonStringify_obj kvs).1
  have hnonempty : saveFlowToJSON jsPlatform s ≠ "" := by
    rw [hexport, hobj]
    exact (jsTrim_jsonStringify_obj kvs).2
  have hvalid : validateJson jsPlatform (saveFlowToJSON jsPlatform s) = true := by
    rw [validateJson_eq_true_iff, htrim]
    exact ⟨hnonempty, s.currentFlow, hparse, ⟨_, hblocks, rfl, rfl⟩, ⟨_, hconns, rfl, rfl⟩⟩
  have hflow : (loadJsonFromInput jsPlatform s' (saveFlowToJSON jsPlatform s)).currentFlow
      = s.currentFlow := by
    simp only [loadJsonFromInput, hvalid, if_true, hparse]
    split
    · rfl
    · split <;> rfl
  exact ⟨rfl, hvalid, hflow, by rw [hflow]; exact hblocks, by rw [hflow]; exact hconns⟩

/-! ## The theorems at concrete documents -/

theorem deleteBlock_removes_block_and_its_connections_witness :
    (scenarioState.currentFlow.blocks.map (fun b => b.id)).Nodup ∧
    "a" ∈ scenarioState.currentFlow.blocks.map (fun b => b.id) ∧
    (deleteBlockTimeout (deleteBlock (fun _ => true) scenarioState "a").1 "a").currentFlow.blocks
      = [blockWith "b" ""] ∧
    (deleteBlockTimeout (deleteBlock (fun _ => true) scenarioState "a").1 "a").currentFlow.connections
      = [] :=
  have h := deleteBlock_removes_block_and_its_connections (fun _ => true) scenarioState "a"
    (by decide) (by decide) rfl
  ⟨by decide, by decide, h.2.1.trans (by decide), h.2.2.2.1.trans (by decide)⟩

theorem handleBlockSubmit_rejects_duplicate_id_witness :
    scenarioState.isEditMode = false ∧
    (∃ b ∈ scenarioState.currentFlow.blocks, b.id = (submitWithId "b").id) ∧
    (handleBlockSubmit scenarioState (submitWithId "b")).1 = scenarioState ∧
    (handleBlockSubmit scenarioState (submitWithId "b")).1.currentFlow.blocks.length = 2 :=
  have h := handleBlockSubmit_rejects_duplicate_id scenarioState (submitWithId "b") rfl
    ⟨blockWith "b" "", by decide, rfl⟩
  ⟨rfl, ⟨blockWith "b" "", by decide, rfl⟩, h.1, h.2.2.2.1.trans (by decide)⟩

theorem handleBlockSubmit_appends_block_and_connection_witness :
    scenarioState.isEditMode = false ∧
    (∀ b ∈ scenarioState.currentFlow.blocks, b.id ≠ (submitWithId "c").id) ∧
    (handleBlockSubmit scenarioState (submitWithId "c")).1.currentFlow.blocks
      = scenarioState.currentFlow.blocks ++ [blockDataOf (submitWithId "c")] ∧
    (∃ c, (handleBlockSubmit scenarioState (submitWithId "c")).1.currentFlow.connections
        = scenarioState.currentFlow.connections ++ [c] ∧
      c.from_ = "b" ∧ c.to_ = "c" ∧
      "b".data <:+: c.label.data ∧ "c".data <:+: c.label.data) :=
  have h := handleBlockSubmit_appends_block_and_connection scenarioState (submitWithId "c") rfl
    (by decide)
  ⟨rfl, by decide, h.1, h.2.2.2 (blockWith "b" "") rfl⟩

theorem updateExistingBlock_replaces_first_block_with_id_witness :
    duplicateIdState.editingBlockId = some "x" ∧
    duplicateIdState.currentFlow.blocks[0]? = some (blockWith "x" "first") ∧
    (updateExistingBlock duplicateIdState (blockWith "y" "edited")).currentFlow.blocks
      = [blockWith "x" "edited", blockWith "x" "second"] :=
  have h := updateExistingBlock_replaces_first_block_with_id duplicateIdState
    (blockWith "y" "edited") "x" 0 (blockWith "x" "first") rfl rfl rfl
    (fun j hj => absurd hj (Nat.not_lt_zero j))
  ⟨rfl, rfl, by
    have h0 := h.1
    have h1 := h.2.2.1 1 (by decide)
    have hlen := h.2.1
    apply List.ext_getElem?
    intro j
    match j with
    | 0 => rw [h0]; rfl
    | 1 => rw [h1]; rfl
    | (k + 2) =>
      rw [List.getElem?_eq_none (by rw [hlen]; simp [duplicateIdState])]
      rfl⟩

/-- C4, as stated, fails: in a flow whose blocks at positions 0 and 1 both have id `x`,
with `x` the edited id, position 1 holds a block with the edited id, yet after
`updateExistingBlock` position 1 still holds the former block and not the payload, and
the block at position 0 has been replaced. -/
theorem updateExistingBlock_second_block_with_id_not_replaced :
    duplicateIdState.editingBlockId = some "x" ∧
    duplicateIdState.currentFlow.blocks[1]? = some (blockWith "x" "second") ∧
    (blockWith "x" "second").id = "x" ∧
    (updateExistingBlock duplicateIdState (blockWith "y" "edited")).currentFlow.blocks[1]?
      = some (blockWith "x" "second") ∧
    (updateExistingBlock duplicateIdState (blockWith "y" "edited")).currentFlow.blocks[1]?
      ≠ some { blockWith "y" "edited" with id := "x" } ∧
    (updateExistingBlock duplicateIdState (blockWith "y" "edited")).currentFlow.blocks[0]?
      ≠ duplicateIdState.currentFlow.blocks[0]? := by
  decide

theorem updateExistingBlock_noop_when_target_missing_witness :
    (∀ b ∈ scenarioState.currentFlow.blocks, scenarioState.editingBlockId ≠ some b.id) ∧
    (∀ b ∈ ({ scenarioState with editingBlockId := some "zz" } : State Flow).currentFlow.blocks,
      ({ scenarioState with editingBlockId := some "zz" } : State Flow).editingBlockId
        ≠ some b.id) ∧
    updateExistingBlock scenarioState (blockWith "a" "edited") = scenarioState ∧
    updateExistingBlock { scenarioState with editingBlockId := some "zz" } (blockWith "a" "edited")
      = { scenarioState with editingBlockId := some "zz" } :=
  ⟨by decide, by decide,
    (updateExistingBlock_noop_when_target_missing scenarioState (blockWith "a" "edited")
      (by decide)).1,
    (updateExistingBlock_noop_when_target_missing
      { scenarioState with editingBlockId := some "zz" } (blockWith "a" "edited")
      (by decide)).1⟩

theorem block_ids_stay_pairwise_distinct_witness :
    (scenarioState.currentFlow.blocks.map (fun b => b.id)).Nodup ∧
    ((handleBlockSubmit scenarioState (submitWithId "c")).1.currentFlow.blocks.map
      (fun b => b.id)).Nodup ∧
    ((handleBlockSubmit scenarioState (submitWithId "c")).1.currentFlow.blocks.map
      (fun b => b.id)) = ["a", "b", "c"] ∧
    ((deleteBlockTimeout scenarioState "a").currentFlow.blocks.map (fun b => b.id)).Nodup :=
  have h := block_ids_stay_pairwise_distinct scenarioState (by decide)
  ⟨by decide, h.1 (submitWithId "c"), by decide, h.2.2 "a"⟩

theorem loadJsonFromInput_rejects_invalid_text_witness :
    (validateJson examplePlatform blocksOnlyText = false ∨
      ∃ parsed, examplePlatform.jsonParse (jsTrim blocksOnlyText) = .ok parsed ∧
        ¬ hasArrayMember parsed "connections") ∧
    loadJsonFromInput examplePlatform editingState blocksOnlyText = editingState :=
  have hyp : validateJson examplePlatform blocksOnlyText = false ∨
      ∃ parsed, examplePlatform.jsonParse (jsTrim blocksOnlyText) = .ok parsed ∧
        ¬ hasArrayMember parsed "connections" :=
    Or.inr ⟨.obj [("blocks", .arr [])], by decide, by
      rintro ⟨kvs, xs, hobj, hlookup⟩
      cases hobj
      have hnone : List.lookup "connections" [("blocks", JVal.arr [])] = none := by decide
      rw [hnone] at hlookup
      cases hlookup⟩
  ⟨hyp, (loadJsonFromInput_rejects_invalid_text examplePlatform editingState blocksOnlyText hyp).1⟩

theorem handleFileUpload_assigns_unvalidated_value_witness :
    examplePlatform.jsonParse blocksOnlyText = .ok (.obj [("blocks", .arr [])]) ∧
    ¬ hasArrayMember (.obj [("blocks", .arr [])]) "connections" ∧
    (handleFileUpload examplePlatform initialState.toJson (some blocksOnlyText)).currentFlow
      = .obj [("blocks", .arr [])] ∧
    (handleFileUpload examplePlatform initialState.toJson (some blocksOnlyText)).currentFlow
      ≠ initialState.toJson.currentFlow ∧
    loadJsonFromInput examplePlatform initialState.toJson blocksOnlyText = initialState.toJson :=
  have h := handleFileUpload_assigns_unvalidated_value examplePlatform initialState.toJson
    blocksOnlyText (.obj [("blocks", .arr [])]) (by decide)
  have hlacks : ¬ hasArrayMember (.obj [("blocks", .arr [])]) "connections" := by
    rintro ⟨kvs, xs, hobj, hlookup⟩
    cases hobj
    have hnone : List.lookup "connections" [("blocks", JVal.arr [])] = none := by decide
    rw [hnone] at hlookup
    cases hlookup
  ⟨by decide, hlacks, h, by rw [h]; decide, by decide⟩

/-- The round trip for the documents of the data model: the exported text of every typed
flow passes `validateJson`, and loading it makes that flow the current flow. -/
theorem export_then_import_typed_flow (f : Flow) (s' : State JVal) :
    validateJson jsPlatform (jsonStringify f.toJson) = true ∧
    (loadJsonFromInput jsPlatform s' (jsonStringify f.toJson)).currentFlow = f.toJson := by
  have hparse : jsPlatform.jsonParse (jsonStringify f.toJson) = .ok f.toJson :=
    jsonParse_jsonStringify f.toJson (noDupKeys_flowToJson f)
  have htrim := jsTrim_jsonStringify_obj
    [("title", .str f.title), ("description", .str f.description),
     ("blocks", .arr (f.blocks.map Block.toJson)),
     ("connections", .arr (f.connections.map Connection.toJson))]
  have hvalid : validateJson jsPlatform (jsonStringify f.toJson) = true := by
    rw [validateJson_eq_true_iff]
    refine ⟨?_, f.toJson, ?_, ⟨_, rfl, rfl, rfl⟩, ⟨_, rfl, rfl, rfl⟩⟩
    · rw [show f.toJson = JVal.obj _ from rfl, htrim.1]
      exact htrim.2
    · rw [show f.toJson = JVal.obj _ from rfl, htrim.1]
      exact hparse
  refine ⟨hvalid, ?_⟩
  simp only [loadJsonFromInput, hvalid, if_true, hparse]
  split
  · rfl
  · split <;> rfl

theorem export_then_import_round_trip_witness :
    noDupKeys scenarioState.toJson.currentFlow = true ∧
    member (some scenarioState.toJson.currentFlow) "blocks"
      = .ok (some (.arr [(blockWith "a" "").toJson, (blockWith "b" "").toJson])) ∧
    member (some scenarioState.toJson.currentFlow) "connections"
      = .ok (some (.arr [({ from_ := "a", to_ := "b", label := "" } : Connection).toJson])) ∧
    saveFlowToJSON jsPlatform initialState.toJson = initialFlowText ∧
    validateJson jsPlatform (saveFlowToJSON jsPlatform scenarioState.toJson) = true ∧
    (loadJsonFromInput jsPlatform editingState
      (saveFlowToJSON jsPlatform scenarioState.toJson)).currentFlow
      = scenarioState.toJson.currentFlow ∧
    member (some (loadJsonFromInput jsPlatform editingState
      (saveFlowToJSON jsPlatform scenarioState.toJson)).currentFlow) "blocks"
      = .ok (some (.arr [(blockWith "a" "").toJson, (blockWith "b" "").toJson])) :=
  have h := export_then_import_round_trip scenarioState.toJson editingState
    [(blockWith "a" "").toJson, (blockWith "b" "").toJson]
    [({ from_ := "a", to_ := "b", label := "" } : Connection).toJson]
    (by decide) (by decide) (by decide)
  ⟨by decide, by decide, by decide, by decide, h.2.1, h.2.2.1, h.2.2.2.1⟩


/-! ## Rendering a document of the data model never throws -/

theorem toStr_str (s : String) : toStr (some (.str s)) = .ok () := by
  simp [toStr, toStringThrows]

theorem toStrAll_str (l : List String) : toStrAll (l.map JVal.str) = .ok () := by
  induction l with
  | nil => rfl
  | cons x xs ih =>
    simp only [List.map_cons, toStrAll, toStr_str, bind, Except.bind]
    exact ih

theorem createDataElement_toJson (d : Option DataSample) :
    createDataElement (d.map DataSample.toJson) = .ok () := by
  cases d with
  | none => simp [createDataElement, truthy, pure, Except.pure]
  | some d =>
    simp only [Option.map_some', createDataElement, DataSample.toJson, truthy, member,
      List.lookup, bind, Except.bind, if_true]
    by_cases hdata : d.data = ""
    · simp [hdata, truthy, pure, Except.pure]
    · by_cases hdesc : d.description = ""
      · simp [hdata, hdesc, truthy, toStr, toStringThrows, pure, Except.pure]
      · simp [hdata, hdesc, truthy, toStr, toStringThrows]

theorem member_block_inputData (b : Block) :
    member (some b.toJson) "inputData" = .ok (b.inputData.map DataSample.toJson) := by
  cases hi : b.inputData <;> cases ho : b.outputData <;>
    simp [member, Block.toJson, List.lookup, hi, ho]

theorem member_block_outputData (b : Block) :
    member (some b.toJson) "outputData" = .ok (b.outputData.map DataSample.toJson) := by
  cases hi : b.inputData <;> cases ho : b.outputData <;>
    simp [member, Block.toJson, List.lookup, hi, ho]

theorem member_block_id (b : Block) : member (some b.toJson) "id" = .ok (some (.str b.id)) := by
  simp [member, Block.toJson, List.lookup]

theorem createBlockElement_toJson (P : Platform) (b : Block) :
    createBlockElement P b.toJson = .ok () := by
  have hicon : member (some b.toJson) "icon" = .ok (some (.str b.icon)) := by
    simp [member, Block.toJson, List.lookup]
  have htitle : member (some b.toJson) "title" = .ok (some (.str b.title)) := by
    simp [member, Block.toJson, List.lookup]
  have hdesc : member (some b.toJson) "description" = .ok (some (.str b.description)) := by
    simp [member, Block.toJson, List.lookup]
  have hdetails : member (some b.toJson) "details"
      = .ok (some (.obj [("explanation", .str b.details.explanation),
                         ("tasks", .arr (b.details.tasks.map JVal.str))])) := by
    simp [member, Block.toJson, List.lookup]
  have hexpl : member (some (.obj [("explanation", .str b.details.explanation),
      ("tasks", .arr (b.details.tasks.map JVal.str))])) "explanation"
      = .ok (some (.str b.details.explanation)) := by
    simp [member, List.lookup]
  have htasksm : member (some (.obj [("explanation", .str b.details.explanation),
      ("tasks", .arr (b.details.tasks.map JVal.str))])) "tasks"
      = .ok (some (.arr (b.details.tasks.map JVal.str))) := by
    simp [member, List.lookup]
  have htruthy : truthy (some (.arr (b.details.tasks.map JVal.str))) = true := rfl
  simp only [createBlockElement, member_block_id, hicon, htitle, hdesc, hdetails, hexpl,
    htasksm, htruthy, member_block_inputData, member_block_outputData,
    createDataElement_toJson, toStr_str, bind, Except.bind, if_true, lengthGtZero]
  by_cases hexp : truthy (some (.str b.details.explanation)) = true
  · by_cases htasks : b.details.tasks = []
    · simp [hexp, htasks, pure, Except.pure]
    · have hlen : 0 < b.details.tasks.length := List.length_pos.2 htasks
      simp [hexp, pure, Except.pure, hlen, toStrAll_str]
  · by_cases htasks : b.details.tasks = []
    · simp [hexp, htasks, pure, Except.pure]
    · have hlen : 0 < b.details.tasks.length := List.length_pos.2 htasks
      simp [hexp, pure, Except.pure, hlen, toStrAll_str]

theorem findConnection_toJson (b nb : Block) (conns : List Connection) :
    findConnection b.toJson nb.toJson (conns.map Connection.toJson) = .ok none ∨
    ∃ c, findConnection b.toJson nb.toJson (conns.map Connection.toJson)
      = .ok (some (Connection.toJson c)) := by
  induction conns with
  | nil => exact Or.inl rfl
  | cons c cs ih =>
    have hfrom : member (some c.toJson) "from" = .ok (some (.str c.from_)) := by
      simp [member, Connection.toJson, List.lookup]
    have hto : member (some c.toJson) "to" = .ok (some (.str c.to_)) := by
      simp [member, Connection.toJson, List.lookup]
    simp only [List.map_cons, findConnection, hfrom, hto, member_block_id, bind, Except.bind,
      strictEq]
    by_cases h1 : (c.from_ == b.id) = true
    · by_cases h2 : (c.to_ == nb.id) = true
      · right
        exact ⟨c, by simp [h1, h2, pure, Except.pure]⟩
      · simp only [h1, h2, if_true, Bool.false_eq_true, if_false]
        exact ih
    · simp only [h1, Bool.false_eq_true, if_false]
      exact ih

theorem createArrowElement_toJson (c : Connection) : createArrowElement c.toJson = .ok () := by
  have hlabel : member (some c.toJson) "label" = .ok (some (.str c.label)) := by
    simp [member, Connection.toJson, List.lookup]
  simp only [createArrowElement, hlabel, bind, Except.bind]
  by_cases h : c.label = ""
  · simp [h, truthy, pure, Except.pure]
  · simp [h, truthy, toStr, toStringThrows]

theorem renderBlocks_toJson (P : Platform) (f : Flow) (blocks : List Block) :
    renderBlocks P f.toJson (blocks.map Block.toJson) = .ok () := by
  induction blocks with
  | nil => rfl
  | cons b rest ih =>
    cases rest with
    | nil =>
      simp only [List.map_cons, List.map_nil]
      rw [renderBlocks]
      simp only [createBlockElement_toJson, bind, Except.bind, pure, Except.pure]
      rfl
    | cons nb rest' =>
      have hconns : member (some f.toJson) "connections"
          = .ok (some (.arr (f.connections.map Connection.toJson))) := by
        simp [member, Flow.toJson, List.lookup]
      simp only [List.map_cons] at ih ⊢
      rw [renderBlocks]
      simp only [createBlockElement_toJson, hconns, bind, Except.bind]
      rcases findConnection_toJson b nb f.connections with h | ⟨c, h⟩
      · simp only [h, pure, Except.pure]
        exact ih
      · have htruthy : truthy (some c.toJson) = true := rfl
        simp only [h, htruthy, if_true, createArrowElement_toJson]
        exact ih

theorem renderFlow_toJson (P : Platform) (f : Flow) : renderFlow P f.toJson = .ok () := by
  have htitle : member (some f.toJson) "title" = .ok (some (.str f.title)) := by
    simp [member, Flow.toJson, List.lookup]
  have hdesc : member (some f.toJson) "description" = .ok (some (.str f.description)) := by
    simp [member, Flow.toJson, List.lookup]
  have hblocks : member (some f.toJson) "blocks"
      = .ok (some (.arr (f.blocks.map Block.toJson))) := by
    simp [member, Flow.toJson, List.lookup]
  simp only [renderFlow, htitle, hdesc, hblocks, toStr_str, bind, Except.bind]
  by_cases h : f.description = ""
  · simp only [h, truthy, bne_self_eq_false, Bool.false_eq_true, if_false, pure, Except.pure]
    exact renderBlocks_toJson P f f.blocks
  · have ht : truthy (some (.str f.description)) = true := by simp [truthy, h]
    simp only [ht, if_true, toStr_str]
    exact renderBlocks_toJson P f f.blocks

/-! ## Loading cancels editing -/

theorem editFlagsConsistent_initial :
    EditFlagsConsistent initialState ∧ EditFlagsConsistent initialState.toJson :=
  ⟨fun _ => rfl, fun _ => rfl⟩

theorem editFlagsConsistent_toJson (s : State Flow) (h : EditFlagsConsistent s) :
    EditFlagsConsistent s.toJson := h

/-- Every handler of the block editor keeps `EditFlagsConsistent`. -/
theorem editFlagsConsistent_block_handlers (s : State Flow) (h : EditFlagsConsistent s) :
    (∀ blockId, EditFlagsConsistent (enterEditMode s blockId)) ∧
    EditFlagsConsistent (cancelEditMode s) ∧
    EditFlagsConsistent (cancelInlineEdit s) ∧
    (∀ e, EditFlagsConsistent (handleBlockSubmit s e).1) ∧
    (∀ dom blockId, EditFlagsConsistent (deleteBlock dom s blockId).1) ∧
    (∀ blockId, EditFlagsConsistent (deleteBlockTimeout s blockId)) ∧
    (∀ title description, EditFlagsConsistent (saveFlowToServer s title description).1) ∧
    (∀ response, EditFlagsConsistent (saveFlowToServerSettled s response).1) := by
  refine ⟨?_, fun _ => rfl, fun _ => rfl, ?_, ?_, fun _ => h, ?_, ?_⟩
  · intro blockId
    unfold enterEditMode
    split
    · exact h
    · intro hmode
      simp at hmode
  · intro e
    unfold handleBlockSubmit
    simp only
    split
    · exact fun _ => rfl
    · split
      · exact h
      · exact fun _ => rfl
  · intro dom blockId
    unfold deleteBlock
    split
    · exact h
    · simp only
      split
      · exact fun _ => rfl
      · exact h
  · intro title description
    unfold saveFlowToServer
    split
    · exact h
    · split
      · exact h
      · exact h
  · intro response
    unfold saveFlowToServerSettled
    split <;> exact h

theorem load_flags (s : State JVal) (data : JVal) (h : EditFlagsConsistent s) :
    (if ({ s with currentFlow := data } : State JVal).isEditMode = true
      then cancelEditMode { s with currentFlow := data }
      else { s with currentFlow := data })
      = { currentFlow := data, isEditMode := false, editingBlockId := none } := by
  cases hmode : s.isEditMode with
  | true => simp [cancelEditMode, hmode]
  | false => simp [hmode, h hmode]

/-- Every load handler keeps `EditFlagsConsistent`, whether the load goes through or not. -/
theorem editFlagsConsistent_load_handlers (P : Platform) (s : State JVal)
    (h : EditFlagsConsistent s) :
    (∀ value, EditFlagsConsistent (loadJsonFromInput P s value)) ∧
    (∀ file, EditFlagsConsistent (handleFileUpload P s file)) ∧
    (∀ response, EditFlagsConsistent (handleFlowSelectionSettled P s response)) := by
  have key : ∀ data : JVal, EditFlagsConsistent
      (match renderFlow P ({ s with currentFlow := data } : State JVal).currentFlow with
        | .error _ => ({ s with currentFlow := data } : State JVal)
        | .ok _ =>
          if ({ s with currentFlow := data } : State JVal).isEditMode = true
            then cancelEditMode { s with currentFlow := data }
            else { s with currentFlow := data }) := by
    intro data
    split
    · exact h
    · split
      · exact fun _ => rfl
      · exact h
  refine ⟨?_, ?_, ?_⟩
  · intro value
    unfold loadJsonFromInput
    split
    · split
      · exact h
      · exact key _
    · exact h
  · intro file
    unfold handleFileUpload
    split
    · exact h
    · split
      · exact h
      · exact key _
  · intro response
    unfold handleFlowSelectionSettled
    split
    · exact h
    · exact key _

/-- A load whose rendering completes: from every state in which the edit variables are
consistent (the initial state is, and every handler keeps them so, hence every reachable
state), when the text or reply parsed to `data` and `renderFlow(data)` completed, each of
the three paths leaves `isEditMode` false and `editingBlockId` null, with `data` the
current flow.  Rendering completes for every document of the data model. -/
theorem successful_load_cancels_editing
    (P : Platform) (s : State JVal) (data : JVal)
    (hflags : EditFlagsConsistent s)
    (hrender : renderFlow P data = .ok ()) :
    (∀ value, validateJson P value = true → P.jsonParse value = .ok data →
      loadJsonFromInput P s value
        = { currentFlow := data, isEditMode := false, editingBlockId := none }) ∧
    (∀ result, P.jsonParse result = .ok data →
      handleFileUpload P s (some result)
        = { currentFlow := data, isEditMode := false, editingBlockId := none }) ∧
    handleFlowSelectionSettled P s (.ok data)
      = { currentFlow := data, isEditMode := false, editingBlockId := none } ∧
    (∀ f : Flow, renderFlow P f.toJson = .ok ()) := by
  refine ⟨?_, ?_, ?_, renderFlow_toJson P⟩
  · intro value hvalid hparse
    simp only [loadJsonFromInput, hvalid, if_true, hparse, hrender]
    exact load_flags s data hflags
  · intro result hparse
    simp only [handleFileUpload, hparse, hrender]
    exact load_flags s data hflags
  · simp only [handleFlowSelectionSettled, hrender]
    exact load_flags s data hflags

theorem successful_load_cancels_editing_witness :
    EditFlagsConsistent editingState ∧
    renderFlow examplePlatform initialFlow.toJson = .ok () ∧
    validateJson examplePlatform initialFlowText = true ∧
    examplePlatform.jsonParse initialFlowText = .ok initialFlow.toJson ∧
    loadJsonFromInput examplePlatform editingState initialFlowText
      = { currentFlow := initialFlow.toJson, isEditMode := false, editingBlockId := none } ∧
    handleFileUpload examplePlatform editingState (some initialFlowText)
      = { currentFlow := initialFlow.toJson, isEditMode := false, editingBlockId := none } ∧
    handleFlowSelectionSettled examplePlatform editingState (.ok initialFlow.toJson)
      = { currentFlow := initialFlow.toJson, isEditMode := false, editingBlockId := none } :=
  have hflags : EditFlagsConsistent editingState := fun h => absurd h (by decide)
  have h := successful_load_cancels_editing examplePlatform editingState initialFlow.toJson
    hflags (by decide)
  ⟨hflags, by decide, by decide, by decide, h.1 initialFlowText (by decide) (by decide),
    h.2.1 initialFlowText (by decide), h.2.2.1⟩

/-- C11 (the code at a failing input): when the loaded value is one on which `renderFlow`
throws, each of the three load paths has already assigned it to `currentFlow` (lines 476,
550, 573) and the `catch` is entered before the statement that cancels edit mode (lines
481, 554, 577): the flow is replaced and `isEditMode` and `editingBlockId` are left as
they were.  The text of the scenario of spec section 8 is such a value: it passes
`validateJson`, and rendering its first block throws at line 844 on `block.details`. -/
theorem load_with_failing_render_keeps_editing
    (P : Platform) (s : State JVal) (data : JVal) (err : String)
    (hrender : renderFlow P data = .error err) :
    (∀ value, validateJson P value = true → P.jsonParse value = .ok data →
      loadJsonFromInput P s value = { s with currentFlow := data }) ∧
    (∀ result, P.jsonParse result = .ok data →
      handleFileUpload P s (some result) = { s with currentFlow := data }) ∧
    handleFlowSelectionSettled P s (.ok data) = { s with currentFlow := data } := by
  refine ⟨?_, ?_, ?_⟩
  · intro value hvalid hparse
    simp only [loadJsonFromInput, hvalid, if_true, hparse, hrender]
  · intro result hparse
    simp only [handleFileUpload, hparse, hrender]
  · simp only [handleFlowSelectionSettled, hrender]

theorem load_with_failing_render_keeps_editing_witness :
    editingState.isEditMode = true ∧
    editingState.editingBlockId = some "a" ∧
    jsPlatform.jsonParse scenarioText = .ok scenarioValue ∧
    validateJson jsPlatform scenarioText = true ∧
    renderFlow jsPlatform scenarioValue = .error "TypeError" ∧
    loadJsonFromInput jsPlatform editingState scenarioText
      = { currentFlow := scenarioValue, isEditMode := true, editingBlockId := some "a" } ∧
    handleFileUpload jsPlatform editingState (some scenarioText)
      = { currentFlow := scenarioValue, isEditMode := true, editingBlockId := some "a" } ∧
    handleFlowSelectionSettled jsPlatform editingState (.ok scenarioValue)
      = { currentFlow := scenarioValue, isEditMode := true, editingBlockId := some "a" } ∧
    (loadJsonFromInput jsPlatform editingState scenarioText).isEditMode ≠ false :=
  have h := load_with_failing_render_keeps_editing jsPlatform editingState scenarioValue
    "TypeError" (by decide)
  ⟨by decide, by decide, by decide, by decide, by decide,
    h.1 scenarioText (by decide) (by decide), h.2.1 scenarioText (by decide), h.2.2,
    by rw [h.1 scenarioText (by decide) (by decide)]; decide⟩

/-! ## The renderer -/

theorem createArrowElement_eq (c : Connection) :
    View.createArrowElement c = View.arrowWithLabel (orDefault c.label "Переход данных") := rfl

theorem createBlockElement_isBlock {F : Type} (s : State F) (b : Block) :
    (View.createBlockElement s b).isBlock = true ∧ (View.createBlockElement s b).isArrow = false := by
  unfold View.createBlockElement View.Node.isBlock View.Node.isArrow View.Node.classOf
  by_cases h : (s.isEditMode && s.editingBlockId == some b.id) = true
  · simp only [h, if_true]
    decide
  · simp only [h, Bool.false_eq_true, if_false]
    decide

theorem createArrowElement_isArrow (c : Connection) :
    (View.createArrowElement c).isBlock = false ∧ (View.createArrowElement c).isArrow = true := by
  constructor <;> rfl

theorem renderBlocks_cons {F : Type} (s : State F) (conns : List Connection) (b : Block)
    (rest : List Block) :
    View.renderBlocks s conns (b :: rest)
      = (View.createBlockElement s b ::
          (match rest with
           | [] => []
           | nextBlock :: _ =>
             match conns.find? (fun conn => conn.from_ == b.id && conn.to_ == nextBlock.id) with
             | some connection => [View.createArrowElement connection]
             | none => []))
        ++ View.renderBlocks s conns rest := rfl

theorem specBlockAt_cons {F : Type} (s : State F) (title description : String)
    (conns : List Connection) (b : Block) (rest : List Block) (label : Connection → String)
    (i : Nat) :
    View.specBlockAt s ⟨title, description, b :: rest, conns⟩ label (i + 1)
      = View.specBlockAt s ⟨title, description, rest, conns⟩ label i := by
  simp [View.specBlockAt]

theorem renderBlocks_eq_spec {F : Type} (s : State F) (title description : String)
    (conns : List Connection) (blocks : List Block) :
    View.renderBlocks s conns blocks
      = (List.range blocks.length).flatMap
          (View.specBlockAt s ⟨title, description, blocks, conns⟩
            (fun c => orDefault c.label "Переход данных")) := by
  induction blocks with
  | nil => rfl
  | cons b rest ih =>
    rw [List.length_cons, List.range_succ_eq_map, List.flatMap_cons, List.flatMap_map]
    have hshift : ∀ i, View.specBlockAt s ⟨title, description, b :: rest, conns⟩
        (fun c => orDefault c.label "Переход данных") (Nat.succ i)
        = View.specBlockAt s ⟨title, description, rest, conns⟩
          (fun c => orDefault c.label "Переход данных") i :=
      fun i => specBlockAt_cons s title description conns b rest _ i
    simp only [hshift]
    rw [← ih, renderBlocks_cons]
    congr 1
    cases rest with
    | nil => simp [View.specBlockAt]
    | cons nb rest' =>
      simp only [View.specBlockAt, List.getElem?_cons_zero, List.getElem?_cons_succ]
      cases conns.find? (fun c => c.from_ == b.id && c.to_ == nb.id) with
      | none => rfl
      | some c => rfl

theorem countP_isBlock_renderBlocks {F : Type} (s : State F) (conns : List Connection)
    (blocks : List Block) :
    (View.renderBlocks s conns blocks).countP View.Node.isBlock = blocks.length := by
  induction blocks with
  | nil => rfl
  | cons b rest ih =>
    rw [renderBlocks_cons, List.countP_append, ih, List.countP_cons_of_pos _ _
      (createBlockElement_isBlock s b).1, List.length_cons]
    cases rest with
    | nil => simp
    | cons nb rest' =>
      simp only
      cases conns.find? (fun conn => conn.from_ == b.id && conn.to_ == nb.id) with
      | none => simp; omega
      | some c =>
        simp only [List.countP_cons_of_neg _ _
          (by simp [(createArrowElement_isArrow c).1] :
            ¬ (View.createArrowElement c).isBlock = true), List.countP_nil]
        omega

theorem countP_isArrow_renderBlocks {F : Type} (s : State F) (conns : List Connection)
    (blocks : List Block) :
    (View.renderBlocks s conns blocks).countP View.Node.isArrow ≤ blocks.length - 1 := by
  induction blocks with
  | nil => simp [View.renderBlocks]
  | cons b rest ih =>
    rw [renderBlocks_cons, List.countP_append, List.countP_cons_of_neg _ _
      (by simp [(createBlockElement_isBlock s b).2])]
    cases rest with
    | nil => simp [View.renderBlocks]
    | cons nb rest' =>
      have harrow : List.countP View.Node.isArrow
          (match conns.find? (fun conn => conn.from_ == b.id && conn.to_ == nb.id) with
            | some connection => [View.createArrowElement connection]
            | none => []) ≤ 1 := by
        cases conns.find? (fun conn => conn.from_ == b.id && conn.to_ == nb.id) with
        | none => simp
        | some c => simp [List.countP_cons, (createArrowElement_isArrow c).2]
      simp only [List.length_cons] at ih ⊢
      simp only at harrow
      omega

/-- C12, as amended: the container that `renderFlow` builds holds the title element, the
description element exactly when the description is not empty, and then for each
position in array order the element of the block, followed by one arrow exactly when
there is a next block and some connection leads from the block to the next one.  The
arrow shows the label of the first such connection, or the text `Переход данных` when
that label is empty.  There are as many block elements as blocks and at most one arrow
less. -/
theorem renderFlow_follows_rendering_rule {F : Type}
    (s : State F) (container : List View.Node) (flow : Flow) :
    View.renderFlow s container flow
      = View.specContainer s flow (fun c => orDefault c.label "Переход данных") ∧
    (View.renderFlow s container flow).countP View.Node.isBlock = flow.blocks.length ∧
    (View.renderFlow s container flow).countP View.Node.isArrow ≤ flow.blocks.length - 1 := by
  obtain ⟨title, description, blocks, connections⟩ := flow
  have hblocks := renderBlocks_eq_spec s title description connections blocks
  have hb := countP_isBlock_renderBlocks s connections blocks
  have ha := countP_isArrow_renderBlocks s connections blocks
  simp only at hblocks hb ha ⊢
  refine ⟨?_, ?_, ?_⟩
  · unfold View.renderFlow View.specContainer
    rw [hblocks]
    by_cases hdesc : description = "" <;> simp [hdesc]
  · unfold View.renderFlow
    by_cases hdesc : description = ""
    · simp only [hdesc, if_true, List.nil_append, List.countP_append, hb]
      simp [List.countP_cons, View.Node.isBlock, View.Node.classOf]
    · simp only [hdesc, if_false, List.nil_append, List.countP_append, hb]
      simp [List.countP_cons, View.Node.isBlock, View.Node.classOf]
  · unfold View.renderFlow
    by_cases hdesc : description = ""
    · simp only [hdesc, if_true, List.nil_append, List.countP_append]
      have h0 : List.countP View.Node.isArrow
          [View.Node.element "h2" "" [("style", "margin-bottom: 10px;")]
            (View.textContent title)] = 0 := by
        simp [List.countP_cons, View.Node.isArrow, View.Node.classOf]
      omega
    · simp only [hdesc, if_false, List.nil_append, List.countP_append]
      have h0 : List.countP View.Node.isArrow
          [View.Node.element "h2" "" [("style", "margin-bottom: 10px;")]
            (View.textContent title)] = 0 := by
        simp [List.countP_cons, View.Node.isArrow, View.Node.classOf]
      have h1 : List.countP View.Node.isArrow
          [View.Node.element "p" "" [("style", "margin-bottom: 30px;")]
            (View.textContent description)] = 0 := by
        simp [List.countP_cons, View.Node.isArrow, View.Node.classOf]
      omega

/-- C12, as stated, fails: in the flow with blocks `a` and `b` and one connection from
`a` to `b` whose label is empty, the arrow that `renderFlow` puts between the two block
elements does not carry that label; it shows the text `Переход данных`. -/
theorem renderFlow_arrow_of_empty_label_shows_default :
    scenarioState.currentFlow.connections.find? (fun c => c.from_ == "a" && c.to_ == "b")
      = some { from_ := "a", to_ := "b", label := "" } ∧
    (View.renderFlow scenarioState [] scenarioState.currentFlow)[2]?
      = some (View.arrowWithLabel "Переход данных") ∧
    (View.renderFlow scenarioState [] scenarioState.currentFlow)[2]?
      ≠ some (View.arrowWithLabel "") ∧
    View.renderFlow scenarioState [] scenarioState.currentFlow
      ≠ View.specContainer scenarioState scenarioState.currentFlow (fun c => c.label) := by
  decide

theorem createBlockElement_classOf {F : Type} (s : State F) (b : Block) :
    (View.createBlockElement s b).classOf
      = if s.isEditMode && s.editingBlockId == some b.id then "block interactive being-edited"
        else "block interactive" := rfl

theorem filter_isBlock_renderBlocks {F : Type} (s : State F) (conns : List Connection)
    (blocks : List Block) :
    (View.renderBlocks s conns blocks).filter View.Node.isBlock
      = blocks.map (View.createBlockElement s) := by
  induction blocks with
  | nil => rfl
  | cons b rest ih =>
    rw [renderBlocks_cons, List.filter_append, ih, List.filter_cons_of_pos
      (createBlockElement_isBlock s b).1, List.map_cons]
    cases rest with
    | nil => simp
    | cons nb rest' =>
      simp only
      cases conns.find? (fun conn => conn.from_ == b.id && conn.to_ == nb.id) with
      | none => simp
      | some c =>
        simp only [List.filter_cons_of_neg
          (by simp [(createArrowElement_isArrow c).1] :
            ¬ (View.createArrowElement c).isBlock = true), List.filter_nil]
        simp

/-- The block elements of the output of `renderFlow`, in order: one per block of the flow,
built by `createBlockElement`. -/
theorem filter_isBlock_renderFlow {F : Type} (s : State F) (container : List View.Node)
    (flow : Flow) :
    (View.renderFlow s container flow).filter View.Node.isBlock
      = flow.blocks.map (View.createBlockElement s) := by
  unfold View.renderFlow
  simp only [List.filter_append, filter_isBlock_renderBlocks]
  split <;> simp [View.Node.isBlock, View.Node.classOf]

/-- C13, as amended: the output of `renderFlow` depends on the flow and on which block
of it is being edited, and on nothing else: for any two module states that agree, for
every block of the flow, on whether that block is the edited one, and for any two previous
contents of the container, rendering the flow gives the same nodes.  The block elements of
the output are one per block of the flow, in order, and the class list of the element of a
block is `block interactive being-edited` when that block is the one being edited
(`isEditMode` is true and `editingBlockId` is its id) and `block interactive` otherwise. -/
theorem renderFlow_depends_on_flow_and_edit_flags_only {F G : Type}
    (s1 : State F) (s2 : State G) (container1 container2 : List View.Node) (flow : Flow)
    (hflags : ∀ b ∈ flow.blocks,
      (s1.isEditMode && s1.editingBlockId == some b.id)
        = (s2.isEditMode && s2.editingBlockId == some b.id)) :
    View.renderFlow s1 container1 flow = View.renderFlow s2 container2 flow ∧
    ((View.renderFlow s1 container1 flow).filter View.Node.isBlock).map View.Node.classOf
      = flow.blocks.map (fun b =>
          if s1.isEditMode && s1.editingBlockId == some b.id
          then "block interactive being-edited" else "block interactive") ∧
    ((View.renderFlow s2 container2 flow).filter View.Node.isBlock).map View.Node.classOf
      = flow.blocks.map (fun b =>
          if s1.isEditMode && s1.editingBlockId == some b.id
          then "block interactive being-edited" else "block interactive") := by
  have hblock : ∀ b ∈ flow.blocks,
      View.createBlockElement s1 b = View.createBlockElement s2 b := by
    intro b hb
    simp only [View.createBlockElement, hflags b hb]
  have hblocks : ∀ blocks : List Block, (∀ b ∈ blocks, b ∈ flow.blocks) →
      View.renderBlocks s1 flow.connections blocks
        = View.renderBlocks s2 flow.connections blocks := by
    intro blocks
    induction blocks with
    | nil => intro _; rfl
    | cons b rest ih =>
      intro hsub
      rw [renderBlocks_cons, renderBlocks_cons, hblock b (hsub b (List.mem_cons_self _ _)),
        ih (fun x hx => hsub x (List.mem_cons_of_mem _ hx))]
  have heq : View.renderFlow s1 container1 flow = View.renderFlow s2 container2 flow := by
    unfold View.renderFlow
    rw [hblocks flow.blocks (fun _ h => h)]
  have hclass : ((View.renderFlow s1 container1 flow).filter View.Node.isBlock).map
      View.Node.classOf
      = flow.blocks.map (fun b =>
          if s1.isEditMode && s1.editingBlockId == some b.id
          then "block interactive being-edited" else "block interactive") := by
    rw [filter_isBlock_renderFlow, List.map_map]
    apply List.map_congr_left
    intro b _
    exact createBlockElement_classOf s1 b
  exact ⟨heq, hclass, by rw [← heq]; exact hclass⟩

theorem renderFlow_depends_on_flow_and_edit_flags_only_witness :
    (∀ b ∈ scenarioState.currentFlow.blocks,
      ((enterEditMode scenarioState "b").isEditMode
          && (enterEditMode scenarioState "b").editingBlockId == some b.id)
        = (({ currentFlow := (), isEditMode := true, editingBlockId := some "b" } :
              State Unit).isEditMode
            && ({ currentFlow := (), isEditMode := true, editingBlockId := some "b" } :
              State Unit).editingBlockId == some b.id)) ∧
    View.renderFlow (enterEditMode scenarioState "b") [.text "old"] scenarioState.currentFlow
      = View.renderFlow
          ({ currentFlow := (), isEditMode := true, editingBlockId := some "b" } : State Unit)
          [] scenarioState.currentFlow ∧
    ((View.renderFlow (enterEditMode scenarioState "b") [.text "old"]
        scenarioState.currentFlow).filter View.Node.isBlock).map View.Node.classOf
      = ["block interactive", "block interactive being-edited"] :=
  have h := renderFlow_depends_on_flow_and_edit_flags_only (enterEditMode scenarioState "b")
    ({ currentFlow := (), isEditMode := true, editingBlockId := some "b" } : State Unit)
    [.text "old"] [] scenarioState.currentFlow (by decide)
  ⟨by decide, h.1, h.2.1.trans (by decide)⟩

/-- C13, as stated, fails: the same flow rendered in a state that is not editing and in a
state that is editing block `a` gives two different outputs; the element of block `a` has
the class `block interactive` in the first and `block interactive being-edited` in the
second. -/
theorem renderFlow_output_depends_on_edit_flags :
    View.renderFlow scenarioState [] scenarioState.currentFlow
      ≠ View.renderFlow (enterEditMode scenarioState "a") [] scenarioState.currentFlow ∧
    ((View.renderFlow scenarioState [] scenarioState.currentFlow)[1]?.map View.Node.classOf)
      = some "block interactive" ∧
    ((View.renderFlow (enterEditMode scenarioState "a") [] scenarioState.currentFlow)[1]?.map
        View.Node.classOf)
      = some "block interactive being-edited" := by
  decide

/-! ## Saving to the server -/

/-- C14, as amended: when the request of `saveFlowToServer` fails, the blocks, the
connections and the edit variables are what they were before the call, while the title is
the entered title and the description is the entered description (the empty string when
the second prompt was cancelled): the metadata written before the request is kept. -/
theorem saveFlowToServer_failure_keeps_blocks_and_new_metadata
    (s : State Flow) (title : String) (description : Option String) (error : String)
    (htitle : title ≠ "") :
    (saveFlowToServer s (some title) description).2
      = some (saveFlowToServer s (some title) description).1.currentFlow ∧
    (saveFlowToServerSettled (saveFlowToServer s (some title) description).1
        (.error error)).1.currentFlow
      = { s.currentFlow with title := title, description := description.getD "" } ∧
    (saveFlowToServerSettled (saveFlowToServer s (some title) description).1
        (.error error)).1.currentFlow.blocks = s.currentFlow.blocks ∧
    (saveFlowToServerSettled (saveFlowToServer s (some title) description).1
        (.error error)).1.currentFlow.connections = s.currentFlow.connections ∧
    (saveFlowToServerSettled (saveFlowToServer s (some title) description).1
        (.error error)).1.isEditMode = s.isEditMode ∧
    (saveFlowToServerSettled (saveFlowToServer s (some title) description).1
        (.error error)).1.editingBlockId = s.editingBlockId := by
  have hdesc : orDefault (description.getD "") "" = description.getD "" := by
    unfold orDefault
    split
    · next h => exact h.symm
    · rfl
  simp [saveFlowToServer, saveFlowToServerSettled, htitle, hdesc]

theorem saveFlowToServer_failure_keeps_blocks_and_new_metadata_witness :
    "Saved" ≠ "" ∧
    (saveFlowToServerSettled (saveFlowToServer scenarioState (some "Saved") none).1
        (.error "Failed to fetch")).1.currentFlow
      = { scenarioState.currentFlow with title := "Saved", description := "" } :=
  ⟨by decide,
    (saveFlowToServer_failure_keeps_blocks_and_new_metadata scenarioState "Saved" none
      "Failed to fetch" (by decide)).2.1⟩

/-- C14, as stated, fails: from the initial flow, entering the title `Saved` and the
description `text` and then having the request fail leaves a flow whose title and
description are the entered ones and not those before the call. -/
theorem saveFlowToServer_failure_changes_title_and_description :
    (saveFlowToServerSettled (saveFlowToServer initialState (some "Saved") (some "text")).1
        (.error "Failed to fetch")).1.currentFlow.title = "Saved" ∧
    (saveFlowToServerSettled (saveFlowToServer initialState (some "Saved") (some "text")).1
        (.error "Failed to fetch")).1.currentFlow.title ≠ initialState.currentFlow.title ∧
    (saveFlowToServerSettled (saveFlowToServer initialState (some "Saved") (some "text")).1
        (.error "Failed to fetch")).1.currentFlow.description
      ≠ initialState.currentFlow.description ∧
    (saveFlowToServerSettled (saveFlowToServer initialState (some "Saved") (some "text")).1
        (.error "Failed to fetch")).1 ≠ initialState := by
  decide

/-- C15: when the title prompt is cancelled or returns the empty string,
`saveFlowToServer` sends no request and leaves the whole state, hence the title, the
description, the blocks and the connections of the flow, unchanged. -/
theorem saveFlowToServer_aborts_without_title
    (s : State Flow) (title description : Option String)
    (htitle : title = none ∨ title = some "") :
    (saveFlowToServer s title description).2 = none ∧
    (saveFlowToServer s title description).1 = s ∧
    (saveFlowToServer s title description).1.currentFlow.title = s.currentFlow.title ∧
    (saveFlowToServer s title description).1.currentFlow.description
      = s.currentFlow.description ∧
    (saveFlowToServer s title description).1.currentFlow.blocks = s.currentFlow.blocks ∧
    (saveFlowToServer s title description).1.currentFlow.connections
      = s.currentFlow.connections := by
  rcases htitle with h | h <;> simp [saveFlowToServer, h]

theorem saveFlowToServer_aborts_without_title_witness :
    ((none : Option String) = none ∨ (none : Option String) = some "") ∧
    ((some "" : Option String) = none ∨ (some "" : Option String) = some "") ∧
    saveFlowToServer scenarioState none none = (scenarioState, none) ∧
    saveFlowToServer scenarioState (some "") (some "text") = (scenarioState, none) :=
  have h1 := saveFlowToServer_aborts_without_title scenarioState none none (Or.inl rfl)
  have h2 := saveFlowToServer_aborts_without_title scenarioState (some "") (some "text")
    (Or.inr rfl)
  ⟨Or.inl rfl, Or.inr rfl, Prod.ext h1.2.1 h1.1, Prod.ext h2.2.1 h2.1⟩

/-! ## The inline editor saves into the block named by `editingBlockId` -/

/-- C26: in edit mode `handleBlockSubmit` writes the submitted fields into the first block
whose id is `editingBlockId`, whatever block the submitted form belongs to: the id read
from the form (line 601) is overwritten at line 708.  After the edit button of `a` and then
the one of `b` were clicked, saving the form of `a` leaves block `a` as it was and replaces
block `b` by the fields submitted for `a`. -/
theorem handleBlockSubmit_saves_into_editingBlockId
    (s : State Flow) (e : SubmitEvent) (editing : String) (i : Nat)
    (hmode : s.isEditMode = true)
    (hedit : s.editingBlockId = some editing)
    (hidx : findIndex (fun block => block.id == editing) s.currentFlow.blocks = some i) :
    (handleBlockSubmit s e).1.currentFlow.blocks
      = s.currentFlow.blocks.set i { blockDataOf e with id := editing } := by
  have hupd := updateExistingBlock_found s (blockDataOf e) editing i hedit hidx
  simp only [handleBlockSubmit, hmode, if_true]
  rw [hupd]
  cases e.isInlineEdit <;> rfl

theorem handleBlockSubmit_saves_into_editingBlockId_witness :
    twoFormsState.isEditMode = true ∧
    twoFormsState.editingBlockId = some "b" ∧
    twoFormsState.currentFlow.blocks = [blockWith "a" "", blockWith "b" ""] ∧
    (inlineSubmit "a" "new title").id = "a" ∧
    (handleBlockSubmit twoFormsState (inlineSubmit "a" "new title")).1.currentFlow.blocks
      = [blockWith "a" "", { blockDataOf (inlineSubmit "a" "new title") with id := "b" }] ∧
    (handleBlockSubmit twoFormsState (inlineSubmit "a" "new title")).1.currentFlow.blocks[0]?
      = some (blockWith "a" "") ∧
    ((handleBlockSubmit twoFormsState (inlineSubmit "a" "new title")).1.currentFlow.blocks[1]?).map
        (fun b => (b.id, b.title)) = some ("b", "new title") :=
  have h := handleBlockSubmit_saves_into_editingBlockId twoFormsState
    (inlineSubmit "a" "new title") "b" 1 (by decide) (by decide) (by decide)
  ⟨by decide, by decide, by decide, by decide, h, by rw [h]; decide, by rw [h]; decide⟩

/-! ## An edit session that outlives its block -/

/-- C27: from the initial state, add block `a`, request its deletion, click its edit
button before the delayed removal runs, then let the removal run: the edit-mode flag is
true and the edited id is `a`, but the flow has no block.  The check of lines 388-390 is
made when the deletion is requested, not when the block is removed. -/
theorem edit_session_survives_delayed_removal :
    initialState.isEditMode = false ∧
    oneBlockState.currentFlow.blocks.map (fun b => b.id) = ["a"] ∧
    deleteBlock domWithA oneBlockState "a" = (oneBlockState, some "a") ∧
    editDuringDeletion.isEditMode = true ∧
    (deleteBlockTimeout editDuringDeletion "a").isEditMode = true ∧
    (deleteBlockTimeout editDuringDeletion "a").editingBlockId = some "a" ∧
    (deleteBlockTimeout editDuringDeletion "a").currentFlow.blocks = [] ∧
    ¬ ∃ b ∈ (deleteBlockTimeout editDuringDeletion "a").currentFlow.blocks,
      some b.id = (deleteBlockTimeout editDuringDeletion "a").editingBlockId := by
  refine ⟨by decide, by decide, by decide, by decide, by decide, by decide, by decide, ?_⟩
  have hblocks : (deleteBlockTimeout editDuringDeletion "a").currentFlow.blocks = [] := by
    decide
  rw [hblocks]
  simp

/-! ## Connections never dangle under block operations -/

theorem noDangling_updateExistingBlock (s : State Flow) (h : NoDangling s.currentFlow)
    (blockData : Block) : NoDangling (updateExistingBlock s blockData).currentFlow := by
  cases hedit : s.editingBlockId with
  | none =>
    have hs : updateExistingBlock s blockData = s := by
      simp [updateExistingBlock, hedit]
    rw [hs]
    exact h
  | some editing =>
    cases hidx : findIndex (fun block => block.id == editing) s.currentFlow.blocks with
    | none =>
      have hs : updateExistingBlock s blockData = s := by
        simp [updateExistingBlock, hedit, hidx]
      rw [hs]
      exact h
    | some i =>
      rw [updateExistingBlock_found s blockData editing i hedit hidx]
      intro c hc
      show c.from_ ∈ (s.currentFlow.blocks.set i { blockData with id := editing }).map
          (fun b => b.id) ∧
        c.to_ ∈ (s.currentFlow.blocks.set i { blockData with id := editing }).map
          (fun b => b.id)
      rw [map_id_set_of_findIndex editing blockData s.currentFlow.blocks i hidx]
      exact h c hc

theorem noDangling_addNewBlock (s : State Flow) (h : NoDangling s.currentFlow)
    (blockData : Block) : NoDangling (addNewBlock s blockData).currentFlow := by
  intro c hc
  rw [addNewBlock_blocks, List.map_append, List.mem_append, List.mem_append]
  rcases List.eq_nil_or_concat s.currentFlow.blocks with hnil | ⟨init, last, hconcat⟩
  · rw [addNewBlock_connections_nil s blockData hnil] at hc
    exact ⟨Or.inl (h c hc).1, Or.inl (h c hc).2⟩
  · rw [List.concat_eq_append] at hconcat
    rw [addNewBlock_connections_concat s blockData init last hconcat, List.mem_append] at hc
    rcases hc with hc | hc
    · exact ⟨Or.inl (h c hc).1, Or.inl (h c hc).2⟩
    · rw [List.mem_singleton] at hc
      subst hc
      refine ⟨Or.inl ?_, Or.inr ?_⟩
      · rw [hconcat]
        simp
      · simp

theorem mem_ids_eraseIdx_of_findIndex (blockId : String) (blocks : List Block) (i : Nat)
    (hidx : findIndex (fun block => block.id == blockId) blocks = some i)
    (id : String) (hne : id ≠ blockId) (hmem : id ∈ blocks.map (fun b => b.id)) :
    id ∈ (blocks.eraseIdx i).map (fun b => b.id) := by
  induction blocks generalizing i with
  | nil => cases hmem
  | cons x rest ih =>
    simp only [findIndex] at hidx
    by_cases hx : (x.id == blockId) = true
    · rw [if_pos hx] at hidx
      cases hidx
      have hxid : x.id = blockId := by simpa using hx
      rw [List.map_cons, List.mem_cons] at hmem
      rcases hmem with hmem | hmem
      · exact absurd (hmem.trans hxid) hne
      · simpa using hmem
    · rw [if_neg hx] at hidx
      cases hrest : findIndex (fun block => block.id == blockId) rest with
      | none =>
        rw [hrest] at hidx
        cases hidx
      | some j =>
        rw [hrest] at hidx
        simp only [Option.map_some', Option.some.injEq] at hidx
        subst hidx
        rw [List.eraseIdx_cons_succ, List.map_cons, List.mem_cons]
        rw [List.map_cons, List.mem_cons] at hmem
        rcases hmem with hmem | hmem
        · exact Or.inl hmem
        · exact Or.inr (ih j hrest hmem)

theorem noDangling_deleteBlockTimeout (s : State Flow) (h : NoDangling s.currentFlow)
    (blockId : String) : NoDangling (deleteBlockTimeout s blockId).currentFlow := by
  intro c hc
  have hc' : c ∈ s.currentFlow.connections.filter
      (fun conn => conn.from_ != blockId && conn.to_ != blockId) := hc
  obtain ⟨hmem, hkeep⟩ := List.mem_filter.1 hc'
  have hfrom : c.from_ ≠ blockId := by
    intro heq
    simp [heq] at hkeep
  have hto : c.to_ ≠ blockId := by
    intro heq
    simp [heq] at hkeep
  show c.from_ ∈ List.map (fun (b : Block) => b.id)
      (match findIndex (fun (block : Block) => block.id == blockId) s.currentFlow.blocks with
      | some blockIndex => s.currentFlow.blocks.eraseIdx blockIndex
      | none => s.currentFlow.blocks) ∧
    c.to_ ∈ List.map (fun (b : Block) => b.id)
      (match findIndex (fun (block : Block) => block.id == blockId) s.currentFlow.blocks with
      | some blockIndex => s.currentFlow.blocks.eraseIdx blockIndex
      | none => s.currentFlow.blocks)
  cases hidx : findIndex (fun block => block.id == blockId) s.currentFlow.blocks with
  | none => exact h c hmem
  | some i =>
    exact ⟨mem_ids_eraseIdx_of_findIndex blockId _ i hidx _ hfrom (h c hmem).1,
      mem_ids_eraseIdx_of_findIndex blockId _ i hidx _ hto (h c hmem).2⟩

theorem deleteBlock_currentFlow (dom : String → Bool) (s : State Flow) (blockId : String) :
    (deleteBlock dom s blockId).1.currentFlow = s.currentFlow := by
  unfold deleteBlock
  split
  · rfl
  · simp only
    split <;> rfl

theorem handleBlockSubmit_currentFlow (s : State Flow) (e : SubmitEvent) :
    (handleBlockSubmit s e).1.currentFlow = s.currentFlow ∨
    (handleBlockSubmit s e).1.currentFlow = (updateExistingBlock s (blockDataOf e)).currentFlow ∨
    (handleBlockSubmit s e).1.currentFlow = (addNewBlock s (blockDataOf e)).currentFlow := by
  unfold handleBlockSubmit
  simp only
  split
  · right
    left
    cases e.isInlineEdit <;> rfl
  · split
    · left
      rfl
    · right
      right
      cases e.isInlineEdit <;> rfl

/-- C28: if every connection of the current flow starts and ends at the id of a block of
the flow, the same holds after `handleBlockSubmit` (an update, an add, or a refused
duplicate), after `updateExistingBlock`, after `addNewBlock`, and after a deletion through
`deleteBlock`, both after the request and after its delayed removal. -/
theorem block_operations_keep_connections_attached
    (s : State Flow) (h : NoDangling s.currentFlow) :
    (∀ e, NoDangling (handleBlockSubmit s e).1.currentFlow) ∧
    (∀ blockData, NoDangling (updateExistingBlock s blockData).currentFlow) ∧
    (∀ blockData, NoDangling (addNewBlock s blockData).currentFlow) ∧
    (∀ dom blockId, NoDangling (deleteBlock dom s blockId).1.currentFlow) ∧
    (∀ dom blockId,
      NoDangling (deleteBlockTimeout (deleteBlock dom s blockId).1 blockId).currentFlow) := by
  refine ⟨?_, noDangling_updateExistingBlock s h, noDangling_addNewBlock s h, ?_, ?_⟩
  · intro e
    rcases handleBlockSubmit_currentFlow s e with hflow | hflow | hflow
    · rw [hflow]
      exact h
    · rw [hflow]
      exact noDangling_updateExistingBlock s h _
    · rw [hflow]
      exact noDangling_addNewBlock s h _
  · intro dom blockId
    rw [deleteBlock_currentFlow]
    exact h
  · intro dom blockId
    apply noDangling_deleteBlockTimeout
    rw [deleteBlock_currentFlow]
    exact h

theorem block_operations_keep_connections_attached_witness :
    NoDangling scenarioState.currentFlow ∧
    NoDangling (handleBlockSubmit scenarioState (submitWithId "c")).1.currentFlow ∧
    (handleBlockSubmit scenarioState (submitWithId "c")).1.currentFlow.connections
      = [{ from_ := "a", to_ := "b", label := "" },
         { from_ := "b", to_ := "c", label := "Соединение b → c" }] ∧
    NoDangling (deleteBlockTimeout (deleteBlock (fun _ => true) scenarioState "a").1
      "a").currentFlow ∧
    (deleteBlockTimeout (deleteBlock (fun _ => true) scenarioState "a").1 "a").currentFlow
      = { title := "", description := "", blocks := [blockWith "b" ""], connections := [] } :=
  have hscenario : NoDangling scenarioState.currentFlow := by
    unfold NoDangling
    decide
  have h := block_operations_keep_connections_attached scenarioState hscenario
  ⟨hscenario, h.1 (submitWithId "c"), by decide, h.2.2.2.2 (fun _ => true) "a", by decide⟩

end FlowEditor

namespace Simulator

/-! ## Timers -/

theorem runSimulation_timers (s : State)
    (hstart : s.timers = [] ∨
      ∃ t, s.timers = [t] ∧ s.animationInterval = some t.id ∧ 0 < t.id) :
    (runSimulation s).timers = [{ id := s.nextTimerId, currentIndex := 0 }] ∧
    (runSimulation s).animationInterval = some s.nextTimerId ∧
    (runSimulation s).nextTimerId = s.nextTimerId + 1 ∧
    (runSimulation s).fileContainers = s.fileContainers ∧
    (runSimulation s).isSimulating = s.isSimulating ∧
    (runSimulation s).dataTypes = s.dataTypes := by
  refine ⟨?_, rfl, rfl, rfl, rfl, rfl⟩
  rcases hstart with h | ⟨t, ht, hint, hpos⟩
  · simp only [runSimulation, h, clearInterval, List.filter_nil]
    cases s.animationInterval with
    | none => rfl
    | some id => by_cases hid : (id != 0) = true <;> simp [hid]
  · have hne : (t.id != 0) = true := by simpa using Nat.pos_iff_ne_zero.1 hpos
    simp [runSimulation, ht, hint, clearInterval, hne]

/-- C16: from a state with no live timer, or with one live timer held in
`animationInterval`, two calls of `runSimulation` in a row leave exactly one live timer,
the one the second call created; the callback of any other timer id does not run. -/
theorem runSimulation_twice_leaves_one_timer
    (s : State) (hwf : TimersWellFormed s)
    (hstart : s.timers = [] ∨ ∃ t, s.timers = [t] ∧ s.animationInterval = some t.id) :
    (runSimulation (runSimulation s)).timers.length = 1 ∧
    (runSimulation (runSimulation s)).timers
      = [{ id := s.nextTimerId + 1, currentIndex := 0 }] ∧
    (runSimulation (runSimulation s)).animationInterval = some (s.nextTimerId + 1) ∧
    (∀ rand timerId, timerId ≠ s.nextTimerId + 1 →
      tick rand (runSimulation (runSimulation s)) timerId
        = (runSimulation (runSimulation s), none)) := by
  have hstart' : s.timers = [] ∨
      ∃ t, s.timers = [t] ∧ s.animationInterval = some t.id ∧ 0 < t.id := by
    rcases hstart with h | ⟨t, ht, hint⟩
    · exact Or.inl h
    · exact Or.inr ⟨t, ht, hint, (hwf.2 t (by simp [ht])).1⟩
  obtain ⟨h1, h2, h3, -⟩ := runSimulation_timers s hstart'
  have hsecond := runSimulation_timers (runSimulation s)
    (Or.inr ⟨_, h1, h2, hwf.1⟩)
  rw [h3] at hsecond
  obtain ⟨k1, k2, -⟩ := hsecond
  refine ⟨by rw [k1]; rfl, k1, k2, ?_⟩
  intro rand timerId hne
  have hfind : (runSimulation (runSimulation s)).timers.find? (fun t => t.id == timerId)
      = none := by
    rw [k1]
    have hbeq : (s.nextTimerId + 1 == timerId) = false := by simpa using Ne.symm hne
    simp [List.find?, hbeq]
  simp only [tick, hfind]

theorem runSimulation_twice_leaves_one_timer_witness :
    TimersWellFormed (runSimulation utilsPage) ∧
    (∃ t, (runSimulation utilsPage).timers = [t] ∧
      (runSimulation utilsPage).animationInterval = some t.id) ∧
    (runSimulation (runSimulation (runSimulation utilsPage))).timers
      = [{ id := 3, currentIndex := 0 }] :=
  have hwf : TimersWellFormed (runSimulation utilsPage) :=
    ⟨by decide, by decide⟩
  have hstart : ∃ t, (runSimulation utilsPage).timers = [t] ∧
      (runSimulation utilsPage).animationInterval = some t.id :=
    ⟨{ id := 1, currentIndex := 0 }, by decide, by decide⟩
  ⟨hwf, hstart,
    (runSimulation_twice_leaves_one_timer (runSimulation utilsPage) hwf (Or.inr hstart)).2.1⟩

/-! ## The state machine of the simulation -/

theorem simulationConsistent_toggle (s : State) (h : SimulationConsistent s) :
    SimulationConsistent (toggleSimulation s) := by
  obtain ⟨hpos, hrun, hidle⟩ := h
  cases hsim : s.isSimulating with
  | false =>
    have hstart := runSimulation_timers { s with isSimulating := true } (Or.inl (hidle hsim))
    have heq : toggleSimulation s = runSimulation { s with isSimulating := true } := by
      simp [toggleSimulation, hsim]
    rw [heq]
    obtain ⟨k1, k2, k3, -, k5, -⟩ := hstart
    refine ⟨by rw [k3]; exact Nat.succ_pos _, ?_, ?_⟩
    · intro _
      exact ⟨_, k1, k2, hpos⟩
    · intro hfalse
      rw [k5] at hfalse
      simp at hfalse
  | true =>
    obtain ⟨t, ht, hint, htpos⟩ := hrun hsim
    have heq : toggleSimulation s = stopSimulation { s with isSimulating := false } := by
      simp [toggleSimulation, hsim]
    rw [heq]
    refine ⟨hpos, ?_, ?_⟩
    · intro htrue
      simp [stopSimulation] at htrue
    · intro _
      simp [stopSimulation, clearInterval, ht, hint]

theorem tick_eq (rand : Nat → Nat) (s : State) (timerId : Nat) (timer : Timer)
    (c : FileContainer) (data : List String)
    (hfind : s.timers.find? (fun t => t.id == timerId) = some timer)
    (hlen : s.fileContainers.length ≠ 0)
    (hc : s.fileContainers[timer.currentIndex]? = some c)
    (hdata : possibleData s.dataTypes c.filename = some data) :
    tick rand s timerId =
      ({ s with
          fileContainers :=
            (match (s.fileContainers.set timer.currentIndex
                { c with pulses := c.pulses ++ [data[rand data.length]?] })[
                  findNextContainerIndex s timer.currentIndex]? with
              | some block =>
                (s.fileContainers.set timer.currentIndex
                  { c with pulses := c.pulses ++ [data[rand data.length]?] }).set
                  (findNextContainerIndex s timer.currentIndex) { block with active := true }
              | none =>
                s.fileContainers.set timer.currentIndex
                  { c with pulses := c.pulses ++ [data[rand data.length]?] })
          timers := s.timers.map (fun t =>
            if t.id == timerId then
              { t with currentIndex := findNextContainerIndex s timer.currentIndex }
            else t) },
        some { container := timer.currentIndex, dataType := data[rand data.length]?,
               highlighted :=
                 ((s.fileContainers.set timer.currentIndex
                    { c with pulses := c.pulses ++ [data[rand data.length]?] })[
                      findNextContainerIndex s timer.currentIndex]?).map
                   (fun _ => findNextContainerIndex s timer.currentIndex) }) := by
  simp only [tick, hfind, hlen, if_false, hc, hdata]

theorem tick_timers (rand : Nat → Nat) (s : State) (timerId : Nat) :
    (tick rand s timerId).1.isSimulating = s.isSimulating ∧
    (tick rand s timerId).1.animationInterval = s.animationInterval ∧
    (tick rand s timerId).1.nextTimerId = s.nextTimerId ∧
    (tick rand s timerId).1.timers.map (fun t => t.id) = s.timers.map (fun t => t.id) ∧
    (tick rand s timerId).1.fileContainers.length = s.fileContainers.length ∧
    (tick rand s timerId).1.dataTypes = s.dataTypes := by
  cases hfind : s.timers.find? (fun t => t.id == timerId) with
  | none => simp [tick, hfind]
  | some timer =>
    by_cases hlen : s.fileContainers.length = 0
    · simp [tick, hfind, hlen]
    · cases hc : s.fileContainers[timer.currentIndex]? with
      | none => simp [tick, hfind, hlen, hc]
      | some c =>
        cases hdata : possibleData s.dataTypes c.filename with
        | none => simp [tick, hfind, hlen, hc, hdata]
        | some data =>
          rw [tick_eq rand s timerId timer c data hfind hlen hc hdata]
          refine ⟨rfl, rfl, rfl, ?_, ?_, rfl⟩
          · simp only [List.map_map]
            apply List.map_congr_left
            intro t _
            simp only [Function.comp]
            split <;> rfl
          · simp only
            split <;> simp

theorem simulationConsistent_step (s : State) (e : Event) (h : SimulationConsistent s) :
    SimulationConsistent (step s e) := by
  cases e with
  | toggle => exact simulationConsistent_toggle s h
  | tick timerId rand =>
    obtain ⟨hpos, hrun, hidle⟩ := h
    obtain ⟨k1, k2, k3, k4, -⟩ := tick_timers rand s timerId
    simp only [step]
    refine ⟨by rw [k3]; exact hpos, ?_, ?_⟩
    · intro hsim
      rw [k1] at hsim
      obtain ⟨t, ht, hint, htpos⟩ := hrun hsim
      rw [ht] at k4
      cases htm : (tick rand s timerId).1.timers with
      | nil => rw [htm] at k4; simp at k4
      | cons t' rest =>
        rw [htm] at k4
        simp only [List.map_cons, List.map_nil, List.cons.injEq, List.map_eq_nil_iff] at k4
        obtain ⟨hid, hrest⟩ := k4
        exact ⟨t', by rw [hrest], by rw [k2, hint, hid], by rw [hid]; exact htpos⟩
    · intro hsim
      rw [k1] at hsim
      have := hidle hsim
      rw [this] at k4
      simpa using k4
  | highlightTimeout index =>
    simp only [step, highlightTimeout]
    split <;> exact h
  | animationEnd index pulse =>
    simp only [step, animationEnd]
    split <;> exact h

theorem simulationConsistent_run (events : List Event) (s : State) (h : SimulationConsistent s) :
    SimulationConsistent (run s events) := by
  induction events generalizing s with
  | nil => exact h
  | cons e es ih => exact ih (step s e) (simulationConsistent_step s e h)

/-- C17: starting from `Idle`, after every finite sequence of toggles, timer callbacks,
highlight timeouts and ended pulse animations, `isSimulating` is true exactly when one
timer is live and false exactly when none is; a toggle that stops the simulation leaves
no live timer, no pulse element and no active file block, and a toggle that starts it
leaves one live timer. -/
theorem toggleSimulation_keeps_state_machine
    (s0 : State) (events : List Event)
    (hidle : Idle s0) (hids : 0 < s0.nextTimerId) :
    ((run s0 events).isSimulating = true ↔ (run s0 events).timers.length = 1) ∧
    ((run s0 events).isSimulating = false ↔ (run s0 events).timers = []) ∧
    ((run s0 events).isSimulating = true →
      (toggleSimulation (run s0 events)).isSimulating = false ∧
      (toggleSimulation (run s0 events)).timers = [] ∧
      ∀ c ∈ (toggleSimulation (run s0 events)).fileContainers,
        c.pulses = [] ∧ c.active = false) ∧
    ((run s0 events).isSimulating = false →
      (toggleSimulation (run s0 events)).isSimulating = true ∧
      (toggleSimulation (run s0 events)).timers.length = 1) := by
  have h0 : SimulationConsistent s0 :=
    ⟨hids, fun h => by rw [hidle.1] at h; simp at h, fun _ => hidle.2⟩
  have h := simulationConsistent_run events s0 h0
  have ht := simulationConsistent_toggle _ h
  obtain ⟨-, hrun, hstop⟩ := h
  obtain ⟨-, hrun', hstop'⟩ := ht
  refine ⟨?_, ?_, ?_, ?_⟩
  · constructor
    · intro hsim
      obtain ⟨t, ht, -⟩ := hrun hsim
      rw [ht]
      rfl
    · intro hlen
      cases hsim : (run s0 events).isSimulating with
      | true => rfl
      | false =>
        rw [hstop hsim] at hlen
        simp at hlen
  · constructor
    · exact hstop
    · intro hnil
      cases hsim : (run s0 events).isSimulating with
      | false => rfl
      | true =>
        obtain ⟨t, ht, -⟩ := hrun hsim
        rw [ht] at hnil
        simp at hnil
  · intro hsim
    have hflag : (toggleSimulation (run s0 events)).isSimulating = false := by
      simp [toggleSimulation, hsim, stopSimulation]
    refine ⟨hflag, hstop' hflag, ?_⟩
    intro c hc
    simp only [toggleSimulation, hsim, Bool.not_true, Bool.false_eq_true, if_false,
      stopSimulation, List.mem_map] at hc
    obtain ⟨c', -, rfl⟩ := hc
    exact ⟨rfl, rfl⟩
  · intro hsim
    have hflag : (toggleSimulation (run s0 events)).isSimulating = true := by
      simp [toggleSimulation, hsim, runSimulation]
    obtain ⟨t, ht, -⟩ := hrun' hflag
    exact ⟨hflag, by rw [ht]; rfl⟩

theorem toggleSimulation_keeps_state_machine_witness :
    Idle utilsPage ∧ 0 < utilsPage.nextTimerId ∧
    (run utilsPage [.toggle, .tick 1 (fun _ => 0), .tick 1 (fun _ => 0)]).isSimulating = true ∧
    (run utilsPage [.toggle, .tick 1 (fun _ => 0), .tick 1 (fun _ => 0)]).fileContainers
      = [{ id := "1", filename := "utils.py", description := "", active := true,
           pulses := [some "Utility Data"] },
         { id := "2", filename := "test_utils.py", description := "", active := true,
           pulses := [some "Utility Data"] }] ∧
    (toggleSimulation
      (run utilsPage [.toggle, .tick 1 (fun _ => 0), .tick 1 (fun _ => 0)])).timers = [] ∧
    (∀ c ∈ (toggleSimulation
        (run utilsPage [.toggle, .tick 1 (fun _ => 0), .tick 1 (fun _ => 0)])).fileContainers,
      c.pulses = [] ∧ c.active = false) :=
  have h := toggleSimulation_keeps_state_machine utilsPage
    [.toggle, .tick 1 (fun _ => 0), .tick 1 (fun _ => 0)] ⟨rfl, rfl⟩ (by decide)
  ⟨⟨rfl, rfl⟩, by decide, by decide, by decide, (h.2.2.1 (by decide)).2.1,
    (h.2.2.1 (by decide)).2.2⟩

/-! ## The list a tick draws from -/

/-- C18 (the code at a failing input): with the catalog that has the key `utils.py`
before the key `test_utils.py`, each with a list of its own, the list a tick draws from
for the filename `test_utils.py` is the list of `utils.py`, the first key that is a
suffix of the filename, and not the list of the filename itself; for `utils.py` the own
list is used, and a filename that no key ends gets the generic list. -/
theorem possibleData_prefers_first_suffix_key_over_own_entry :
    getProp utilsPage.dataTypes "test_utils.py" = some ["Test Result"] ∧
    possibleData utilsPage.dataTypes "test_utils.py" = some ["Utility Data"] ∧
    possibleData utilsPage.dataTypes "test_utils.py"
      ≠ getProp utilsPage.dataTypes "test_utils.py" ∧
    possibleData utilsPage.dataTypes "utils.py" = some ["Utility Data"] ∧
    possibleData utilsPage.dataTypes "notes.txt" = some ["Data", "Info", "Message"] ∧
    (tick (fun _ => 0) (runSimulation utilsPage) 1).2
      = some { container := 0, dataType := some "Utility Data", highlighted := some 1 } ∧
    (tick (fun _ => 0) (tick (fun _ => 0) (runSimulation utilsPage) 1).1 1).2
      = some { container := 1, dataType := some "Utility Data", highlighted := some 0 } := by
  decide

end Simulator

namespace Simulator

/-! ## The cyclic order of the ticks -/

theorem getProp_isSome_of_mem_keys (catalog : Catalog) (key : String)
    (h : key ∈ keys catalog) : ∃ types, getProp catalog key = some types := by
  induction catalog with
  | nil => simp [keys] at h
  | cons kv rest ih =>
    obtain ⟨a, b⟩ := kv
    by_cases hk : key = a
    · subst hk
      exact ⟨b, by simp [getProp]⟩
    · have hmem : key ∈ keys rest := by
        simp only [keys, List.map_cons, List.mem_cons] at h
        rcases h with h | h
        · exact absurd h hk
        · exact h
      obtain ⟨types, ht⟩ := ih hmem
      refine ⟨types, ?_⟩
      have hbeq : (key == a) = false := by simpa using hk
      simpa [getProp, List.lookup_cons, hbeq] using ht

theorem mem_keys_of_getProp (catalog : Catalog) (key : String) (types : List String)
    (h : getProp catalog key = some types) : key ∈ keys catalog := by
  induction catalog with
  | nil => simp [getProp] at h
  | cons kv rest ih =>
    obtain ⟨a, b⟩ := kv
    by_cases hk : key = a
    · simp [keys, hk]
    · have hbeq : (key == a) = false := by simpa using hk
      simp only [getProp, List.lookup_cons, hbeq] at h
      simp only [keys, List.map_cons, List.mem_cons]
      exact Or.inr (ih h)

theorem endsWith_self (s : String) : endsWith s s = true := by
  simp [endsWith]

theorem readProp_eq_list_iff (catalog : Catalog) (key : String) (types : List String) :
    readProp catalog key = .list types ↔ getProp catalog key = some types := by
  unfold readProp getProp
  cases catalog.lookup key with
  | some found => simp
  | none =>
    simp only
    split <;> simp

theorem readProp_of_getProp_some (catalog : Catalog) (key : String) (types : List String)
    (h : getProp catalog key = some types) : readProp catalog key = .list types :=
  (readProp_eq_list_iff catalog key types).2 h

theorem readProp_of_getProp_none (catalog : Catalog) (key : String)
    (h : getProp catalog key = none) :
    readProp catalog key
      = if objectPrototypeKeys.contains key then Member.inherited else Member.undefined := by
  unfold getProp at h
  simp only [readProp, h]

theorem readProp_eq_inherited_iff (catalog : Catalog) (key : String) :
    readProp catalog key = .inherited
      ↔ getProp catalog key = none ∧ key ∈ objectPrototypeKeys := by
  unfold readProp getProp
  cases catalog.lookup key with
  | some found => simp
  | none =>
    by_cases h : key ∈ objectPrototypeKeys
    · simp [h]
    · simp [h]

theorem readProp_cases (catalog : Catalog) (key : String)
    (h : readProp catalog key ≠ .inherited) :
    (∃ types, getProp catalog key = some types ∧ readProp catalog key = .list types) ∨
    (getProp catalog key = none ∧ readProp catalog key = .undefined) := by
  cases hget : getProp catalog key with
  | some types => exact Or.inl ⟨types, rfl, readProp_of_getProp_some catalog key types hget⟩
  | none =>
    refine Or.inr ⟨rfl, ?_⟩
    have hread := readProp_of_getProp_none catalog key hget
    by_cases hproto : objectPrototypeKeys.contains key = true
    · rw [hproto, if_pos rfl] at hread
      exact absurd hread h
    · simp only [hproto, Bool.false_eq_true, if_false] at hread
      exact hread

/-- The second read of the expression of lines 322-325 never reaches `Object.prototype`:
its key is a key that `Object.keys` returned, or the name `undefined`. -/
theorem readProp_of_found_key (dataTypes : Catalog) (currentFilename : String) :
    readProp dataTypes
        (((keys dataTypes).find? (fun key => endsWith currentFilename key)).getD "undefined")
      = match getProp dataTypes
          (((keys dataTypes).find? (fun key => endsWith currentFilename key)).getD "undefined")
          with
        | some types => .list types
        | none => .undefined := by
  cases hfound : (keys dataTypes).find? (fun key => endsWith currentFilename key) with
  | some key =>
    obtain ⟨types, htypes⟩ := getProp_isSome_of_mem_keys dataTypes key
      (List.mem_of_find?_eq_some hfound)
    simp only [Option.getD_some, htypes]
    exact readProp_of_getProp_some dataTypes key types htypes
  | none =>
    simp only [Option.getD_none]
    cases hget : getProp dataTypes "undefined" with
    | some types => exact readProp_of_getProp_some dataTypes "undefined" types hget
    | none =>
      rw [readProp_of_getProp_none dataTypes "undefined" hget]
      rfl

/-- The expression of lines 322-325 yields a list unless the read `dataTypes[f]` finds a
property inherited from `Object.prototype`. -/
theorem possibleData_isSome (dataTypes : Catalog) (currentFilename : String)
    (hown : readProp dataTypes currentFilename ≠ .inherited) :
    ∃ data, possibleData dataTypes currentFilename = some data := by
  unfold possibleData
  simp only
  split
  · next hcond =>
    have hfound : ∃ key, (keys dataTypes).find? (fun key => endsWith currentFilename key)
        = some key := by
      cases hf : (keys dataTypes).find? (fun key => endsWith currentFilename key) with
      | some key => exact ⟨key, rfl⟩
      | none =>
        rw [hf] at hcond
        simp only [Bool.or_false] at hcond
        rcases readProp_cases dataTypes currentFilename hown with ⟨types, ht, -⟩ | ⟨-, hundef⟩
        · have hmem := mem_keys_of_getProp dataTypes currentFilename types ht
          rw [List.find?_eq_none] at hf
          exact absurd (endsWith_self currentFilename) (hf currentFilename hmem)
        · rw [hundef] at hcond
          cases hcond
    obtain ⟨key, hkey⟩ := hfound
    rw [hkey]
    exact getProp_isSome_of_mem_keys dataTypes key (List.mem_of_find?_eq_some hkey)
  · exact ⟨_, rfl⟩

/-- The expression of lines 322-325 is `undefined` when the filename is no own member of
the catalog, names a property of `Object.prototype`, no key of the catalog is a suffix of
it, and the catalog has no member named `undefined`. -/
theorem possibleData_undefined (dataTypes : Catalog) (currentFilename : String)
    (hread : readProp dataTypes currentFilename = .inherited)
    (hfound : (keys dataTypes).find? (fun key => endsWith currentFilename key) = none)
    (hundef : getProp dataTypes "undefined" = none) :
    possibleData dataTypes currentFilename = none := by
  simp [possibleData, hread, hfound, hundef, Member.truthy]

theorem map_set_of_eq {α β : Type} (f : α → β) (l : List α) (i : Nat) (x y : α)
    (h : l[i]? = some y) (hf : f x = f y) : (l.set i x).map f = l.map f := by
  induction l generalizing i with
  | nil => rfl
  | cons a rest ih =>
    cases i with
    | zero =>
      simp only [List.getElem?_cons_zero, Option.some.injEq] at h
      subst h
      simp [hf]
    | succ j =>
      simp only [List.getElem?_cons_succ] at h
      simp only [List.set_cons_succ, List.map_cons, ih j h]

theorem tick_of_undefined_list (rand : Nat → Nat) (s : State) (timerId : Nat)
    (timer : Timer) (c : FileContainer)
    (hfind : s.timers.find? (fun t => t.id == timerId) = some timer)
    (hc : s.fileContainers[timer.currentIndex]? = some c)
    (hdata : possibleData s.dataTypes c.filename = none) :
    tick rand s timerId = (s, none) := by
  unfold tick
  simp only [hfind, hc, hdata]
  split <;> rfl

/-- A run of the timer callback changes no filename. -/
theorem tick_filenames (rand : Nat → Nat) (s : State) (timerId : Nat) :
    (tick rand s timerId).1.fileContainers.map (fun c => c.filename)
      = s.fileContainers.map (fun c => c.filename) := by
  cases hfind : s.timers.find? (fun t => t.id == timerId) with
  | none => simp [tick, hfind]
  | some timer =>
    by_cases hlen : s.fileContainers.length = 0
    · simp [tick, hfind, hlen]
    · cases hc : s.fileContainers[timer.currentIndex]? with
      | none => simp [tick, hfind, hlen, hc]
      | some c =>
        cases hdata : possibleData s.dataTypes c.filename with
        | none => rw [tick_of_undefined_list rand s timerId timer c hfind hc hdata]
        | some data =>
          rw [tick_eq rand s timerId timer c data hfind hlen hc hdata]
          have hfirst : (s.fileContainers.set timer.currentIndex
              { c with pulses := c.pulses ++ [data[rand data.length]?] }).map
                (fun c => c.filename)
              = s.fileContainers.map (fun c => c.filename) :=
            map_set_of_eq _ _ _ _ c hc rfl
          simp only
          split
          · next block hblock =>
            rw [map_set_of_eq (fun c : FileContainer => c.filename) _ _
              { block with active := true } block hblock rfl, hfirst]
          · exact hfirst

theorem find?_map_currentIndex (timerId next : Nat) (timers : List Timer) :
    (timers.map (fun t => if t.id == timerId then { t with currentIndex := next } else t)).find?
        (fun t => t.id == timerId)
      = (timers.find? (fun t => t.id == timerId)).map (fun t => { t with currentIndex := next }) := by
  induction timers with
  | nil => rfl
  | cons t rest ih =>
    by_cases h : (t.id == timerId) = true
    · simp [List.find?, h]
    · have h' : (t.id == timerId) = false := by simpa using h
      simp only [List.map_cons, h', Bool.false_eq_true, if_false, List.find?, ih]

theorem runSimulation_find (s : State) (hwf : TimersWellFormed s) :
    (runSimulation s).timers.find? (fun t => t.id == s.nextTimerId)
      = some { id := s.nextTimerId, currentIndex := 0 } := by
  have hnone : ∀ l : List Timer, (∀ t ∈ l, t ∈ s.timers) →
      l.find? (fun t => t.id == s.nextTimerId) = none := by
    intro l hl
    rw [List.find?_eq_none]
    intro t ht
    have := (hwf.2 t (hl t ht)).2
    simp only [beq_iff_eq]
    omega
  have hcleared : ∀ t ∈ (match s.animationInterval with
      | some id => if (id != 0) = true then clearInterval s.timers (some id) else s.timers
      | none => s.timers), t ∈ s.timers := by
    intro t ht
    split at ht
    · split at ht
      · exact (List.mem_filter.1 ht).1
      · exact ht
    · exact ht
  simp only [runSimulation, List.find?_append, hnone _ hcleared]
  simp [List.find?]

/-- No filename shown on the page reads a property inherited from `Object.prototype`: the
expression of lines 322-325 is a list for every container. -/
theorem ticks_invariant (s : State) (rands : Nat → Nat → Nat) (hwf : TimersWellFormed s)
    (hn : 0 < s.fileContainers.length)
    (hown : ∀ c ∈ s.fileContainers, readProp s.dataTypes c.filename ≠ .inherited) (k : Nat) :
    (ticks rands s.nextTimerId (runSimulation s) k).fileContainers.length
      = s.fileContainers.length ∧
    (ticks rands s.nextTimerId (runSimulation s) k).fileContainers.map (fun c => c.filename)
      = s.fileContainers.map (fun c => c.filename) ∧
    (ticks rands s.nextTimerId (runSimulation s) k).dataTypes = s.dataTypes ∧
    (ticks rands s.nextTimerId (runSimulation s) k).timers.find?
        (fun t => t.id == s.nextTimerId)
      = some { id := s.nextTimerId, currentIndex := k % s.fileContainers.length } := by
  induction k with
  | zero =>
    refine ⟨rfl, rfl, rfl, ?_⟩
    rw [ticks, runSimulation_find s hwf, Nat.zero_mod]
  | succ k ih =>
    obtain ⟨hlen, hnames, hcatalog, hfind⟩ := ih
    have hlt : k % s.fileContainers.length
        < (ticks rands s.nextTimerId (runSimulation s) k).fileContainers.length := by
      rw [hlen]
      exact Nat.mod_lt _ hn
    obtain ⟨c, hc⟩ : ∃ c, (ticks rands s.nextTimerId (runSimulation s) k).fileContainers[
        k % s.fileContainers.length]? = some c :=
      ⟨_, List.getElem?_eq_getElem hlt⟩
    have hcown : readProp (ticks rands s.nextTimerId (runSimulation s) k).dataTypes c.filename
        ≠ .inherited := by
      have hmem : c.filename ∈ (ticks rands s.nextTimerId (runSimulation s)
          k).fileContainers.map (fun c => c.filename) :=
        List.mem_map.2 ⟨c, List.getElem?_mem hc, rfl⟩
      rw [hnames] at hmem
      obtain ⟨c0, hc0, hname⟩ := List.mem_map.1 hmem
      rw [hcatalog, ← hname]
      exact hown c0 hc0
    obtain ⟨data, hdata⟩ := possibleData_isSome
      (ticks rands s.nextTimerId (runSimulation s) k).dataTypes c.filename hcown
    have hlen0 : (ticks rands s.nextTimerId (runSimulation s) k).fileContainers.length ≠ 0 := by
      omega
    have htick := tick_eq (rands k) _ s.nextTimerId _ c data hfind hlen0 hc hdata
    have hpres := tick_timers (rands k) (ticks rands s.nextTimerId (runSimulation s) k)
      s.nextTimerId
    have hfile := tick_filenames (rands k) (ticks rands s.nextTimerId (runSimulation s) k)
      s.nextTimerId
    refine ⟨by rw [ticks, hpres.2.2.2.2.1, hlen], by rw [ticks, hfile, hnames],
      by rw [ticks, hpres.2.2.2.2.2, hcatalog], ?_⟩
    rw [ticks, htick]
    simp only
    rw [find?_map_currentIndex, hfind]
    simp only [Option.map_some', findNextContainerIndex, hlen, Nat.mod_add_mod]

/-- The index arithmetic behind the cyclic order: among `n` consecutive ticks, exactly
one has a given remainder modulo `n`. -/
theorem exists_unique_offset (n k c : Nat) (hc : c < n) :
    ∃! j, j < n ∧ (k + j) % n = c := by
  have hn : 0 < n := Nat.lt_of_le_of_lt (Nat.zero_le c) hc
  have hj0 : (k + (c + (n - k % n)) % n) % n = c := by
    have hk := Nat.div_add_mod k n
    have hr := Nat.mod_lt k hn
    rw [Nat.add_mod_mod]
    have hsum : k + (c + (n - k % n)) = c + n * (k / n + 1) := by
      rw [Nat.mul_add, Nat.mul_one]
      generalize n * (k / n) = m at hk
      omega
    rw [hsum, Nat.add_mul_mod_self_left, Nat.mod_eq_of_lt hc]
  refine ⟨(c + (n - k % n)) % n, ⟨Nat.mod_lt _ hn, hj0⟩, ?_⟩
  rintro j ⟨hj, hjc⟩
  have hmod : k + j ≡ k + (c + (n - k % n)) % n [MOD n] := by
    unfold Nat.ModEq
    rw [hjc, hj0]
  have hcancel := Nat.ModEq.add_left_cancel' k hmod
  unfold Nat.ModEq at hcancel
  rw [Nat.mod_eq_of_lt hj, Nat.mod_mod] at hcancel
  exact hcancel

/-- The cyclic order of the runs of the timer callback, for a page on which no filename
reads a property inherited from `Object.prototype`: with a container list of length `n`
that is not empty, the `k`-th run of the callback after `runSimulation` puts its pulse
into container `k mod n` and highlights block `(k + 1) mod n`; `findNextContainerIndex`
returns an index below `n`; among any `n` consecutive runs every container emits exactly
once; and with an empty container list a run of the callback changes nothing. -/
theorem ticks_emit_in_cyclic_order
    (s : State) (rands : Nat → Nat → Nat)
    (hwf : TimersWellFormed s) (hn : 0 < s.fileContainers.length)
    (hown : ∀ c ∈ s.fileContainers, readProp s.dataTypes c.filename ≠ .inherited) :
    (∀ k, ∃ dataType,
      (tick (rands k) (ticks rands s.nextTimerId (runSimulation s) k) s.nextTimerId).2
        = some { container := k % s.fileContainers.length, dataType := dataType,
                 highlighted := some ((k + 1) % s.fileContainers.length) }) ∧
    (∀ currentIndex, findNextContainerIndex s currentIndex < s.fileContainers.length) ∧
    (∀ k c, c < s.fileContainers.length →
      ∃! j, j < s.fileContainers.length ∧
        ((tick (rands (k + j)) (ticks rands s.nextTimerId (runSimulation s) (k + j))
            s.nextTimerId).2.map (fun e => e.container)) = some c) ∧
    (∀ (s' : State) (rand : Nat → Nat) (timerId : Nat),
      s'.fileContainers.length = 0 → tick rand s' timerId = (s', none)) := by
  have hemit : ∀ k, ∃ dataType,
      (tick (rands k) (ticks rands s.nextTimerId (runSimulation s) k) s.nextTimerId).2
        = some { container := k % s.fileContainers.length, dataType := dataType,
                 highlighted := some ((k + 1) % s.fileContainers.length) } := by
    intro k
    obtain ⟨hlen, hnames, hcatalog, hfind⟩ := ticks_invariant s rands hwf hn hown k
    have hlt : k % s.fileContainers.length
        < (ticks rands s.nextTimerId (runSimulation s) k).fileContainers.length := by
      rw [hlen]
      exact Nat.mod_lt _ hn
    obtain ⟨c, hc⟩ : ∃ c, (ticks rands s.nextTimerId (runSimulation s) k).fileContainers[
        k % s.fileContainers.length]? = some c :=
      ⟨_, List.getElem?_eq_getElem hlt⟩
    have hcown : readProp (ticks rands s.nextTimerId (runSimulation s) k).dataTypes c.filename
        ≠ .inherited := by
      have hmem : c.filename ∈ (ticks rands s.nextTimerId (runSimulation s)
          k).fileContainers.map (fun c => c.filename) :=
        List.mem_map.2 ⟨c, List.getElem?_mem hc, rfl⟩
      rw [hnames] at hmem
      obtain ⟨c0, hc0, hname⟩ := List.mem_map.1 hmem
      rw [hcatalog, ← hname]
      exact hown c0 hc0
    obtain ⟨data, hdata⟩ := possibleData_isSome
      (ticks rands s.nextTimerId (runSimulation s) k).dataTypes c.filename hcown
    have hlen0 : (ticks rands s.nextTimerId (runSimulation s) k).fileContainers.length ≠ 0 := by
      omega
    rw [tick_eq (rands k) _ s.nextTimerId _ c data hfind hlen0 hc hdata]
    refine ⟨data[rands k data.length]?, ?_⟩
    have hnext : findNextContainerIndex (ticks rands s.nextTimerId (runSimulation s) k)
        (k % s.fileContainers.length) = (k + 1) % s.fileContainers.length := by
      simp only [findNextContainerIndex, hlen, Nat.mod_add_mod]
    have hnextlt : (k + 1) % s.fileContainers.length
        < ((ticks rands s.nextTimerId (runSimulation s) k).fileContainers.set
            (k % s.fileContainers.length)
            { c with pulses := c.pulses ++ [data[rands k data.length]?] }).length := by
      rw [List.length_set, hlen]
      exact Nat.mod_lt _ hn
    simp only [hnext, List.getElem?_eq_getElem hnextlt, Option.map_some']
  refine ⟨hemit, ?_, ?_, ?_⟩
  · intro currentIndex
    exact Nat.mod_lt _ hn
  · intro k c hc
    obtain ⟨j, ⟨hj, hjc⟩, huniq⟩ := exists_unique_offset s.fileContainers.length k c hc
    refine ⟨j, ⟨hj, ?_⟩, ?_⟩
    · obtain ⟨dataType, he⟩ := hemit (k + j)
      rw [he]
      simp [hjc]
    · rintro j' ⟨hj', hjc'⟩
      obtain ⟨dataType, he⟩ := hemit (k + j')
      rw [he] at hjc'
      simp only [Option.map_some', Option.some.injEq] at hjc'
      exact huniq j' ⟨hj', hjc'⟩
  · intro s' rand timerId hlen
    unfold tick
    split
    · rfl
    · simp [hlen]

theorem ticks_emit_in_cyclic_order_witness :
    TimersWellFormed utilsPage ∧ 0 < utilsPage.fileContainers.length ∧
    (∃ dataType,
      (tick (fun _ => 0) (ticks (fun _ _ => 0) 1 (runSimulation utilsPage) 3) 1).2
        = some { container := 1, dataType := dataType, highlighted := some 0 }) ∧
    (tick (fun _ => 0) (ticks (fun _ _ => 0) 1 (runSimulation utilsPage) 3) 1).2
      = some { container := 1, dataType := some "Utility Data", highlighted := some 0 } :=
  have hwf : TimersWellFormed utilsPage := ⟨by decide, by decide⟩
  ⟨hwf, by decide,
    (ticks_emit_in_cyclic_order utilsPage (fun _ _ => 0) hwf (by decide) (by decide)).1 3,
    by decide⟩

/-- C19 (the code at a failing input): on the page that shows `main.py` and `toString`
with the default catalog, the first run of the callback after `runSimulation` emits from
container 0 and highlights block 1.  At the second run the expression of lines 322-325 is
`undefined` for the filename `toString`: the read `dataTypes['toString']` finds the
function inherited from `Object.prototype`, and no key of the catalog is a suffix of the
name.  Line 327 throws, no pulse is emitted and `currentIndex` stays 1, so every later run
throws again: container 1 never emits, and container 0 never emits a second time. -/
theorem ticks_stall_on_inherited_name :
    TimersWellFormed toStringPage ∧
    toStringPage.fileContainers.length = 2 ∧
    readProp toStringPage.dataTypes "toString" = .inherited ∧
    possibleData toStringPage.dataTypes "toString" = none ∧
    (∀ rands : Nat → Nat → Nat,
      ((tick (rands 0) (ticks rands 1 (runSimulation toStringPage) 0) 1).2.map
        (fun e => (e.container, e.highlighted))) = some (0, some 1)) ∧
    (∀ (rands : Nat → Nat → Nat) (k : Nat),
      (tick (rands (k + 1)) (ticks rands 1 (runSimulation toStringPage) (k + 1)) 1).2 = none) ∧
    (∀ (rands : Nat → Nat → Nat) (k : Nat),
      ticks rands 1 (runSimulation toStringPage) (k + 1)
        = ticks rands 1 (runSimulation toStringPage) 1) ∧
    (∀ (rands : Nat → Nat → Nat) (k : Nat),
      (ticks rands 1 (runSimulation toStringPage) (k + 1)).timers
        = [{ id := 1, currentIndex := 1 }]) := by
  have hfirst : ∀ rand : Nat → Nat,
      tick rand (runSimulation toStringPage) 1
        = ({ runSimulation toStringPage with
              fileContainers :=
                [{ containerWith "1" "main.py" with
                    pulses := [["Data", "Info", "Message"][rand 3]?] },
                 { containerWith "2" "toString" with active := true }]
              timers := [{ id := 1, currentIndex := 1 }] },
           some { container := 0, dataType := ["Data", "Info", "Message"][rand 3]?,
                  highlighted := some 1 }) := by
    intro rand
    rw [tick_eq rand (runSimulation toStringPage) 1 { id := 1, currentIndex := 0 }
      (containerWith "1" "main.py") ["Data", "Info", "Message"]
      (by decide) (by decide) (by decide) (by decide)]
    rfl
  have hstall : ∀ rand0 rand : Nat → Nat,
      tick rand (tick rand0 (runSimulation toStringPage) 1).1 1
        = ((tick rand0 (runSimulation toStringPage) 1).1, none) := by
    intro rand0 rand
    rw [hfirst rand0]
    exact tick_of_undefined_list rand _ 1 { id := 1, currentIndex := 1 }
      { containerWith "2" "toString" with active := true } rfl rfl
      (show possibleData DEFAULT_DATA_TYPES "toString" = none by decide)
  have hticks : ∀ (rands : Nat → Nat → Nat) (k : Nat),
      ticks rands 1 (runSimulation toStringPage) (k + 1)
        = (tick (rands 0) (runSimulation toStringPage) 1).1 := by
    intro rands k
    induction k with
    | zero => rfl
    | succ k ih =>
      show (tick (rands (k + 1)) (ticks rands 1 (runSimulation toStringPage) (k + 1)) 1).1
        = (tick (rands 0) (runSimulation toStringPage) 1).1
      rw [ih, hstall]
  refine ⟨⟨by decide, by decide⟩, by decide, by decide, by decide, ?_, ?_, ?_, ?_⟩
  · intro rands
    show ((tick (rands 0) (runSimulation toStringPage) 1).2.map
      (fun e => (e.container, e.highlighted))) = some (0, some 1)
    rw [hfirst]
    rfl
  · intro rands k
    rw [hticks, hstall]
  · intro rands k
    rw [hticks, hticks rands 0]
  · intro rands k
    rw [hticks, hfirst]

end Simulator

namespace Simulator

/-! ## The catalog as a map -/

theorem getProp_map_replace (catalog : Catalog) (key : String) (value : List String)
    (k : String) :
    getProp (catalog.map (fun kv => if kv.1 == key then (key, value) else kv)) k
      = if k = key then (if catalog.any (fun kv => kv.1 == key) then some value else none)
        else getProp catalog k := by
  induction catalog with
  | nil => simp [getProp]
  | cons kv rest ih =>
    obtain ⟨a, b⟩ := kv
    simp only [getProp] at ih
    by_cases ha : a = key
    · subst ha
      by_cases hk : k = a
      · subst hk
        simp [getProp, List.lookup_cons]
      · have hbeq : (k == a) = false := by simpa using hk
        simp only [getProp, List.map_cons, beq_self_eq_true, if_true, List.lookup_cons, hbeq, ih,
          hk, if_false]
    · have hbeq : (a == key) = false := by simpa using ha
      by_cases hk : k = key
      · subst hk
        have hka : (k == a) = false := by simpa using Ne.symm ha
        simp only [getProp, List.map_cons, hbeq, Bool.false_eq_true, if_false, List.lookup_cons,
          hka, ih, if_true, List.any_cons, Bool.false_or]
      · simp only [getProp, List.map_cons, hbeq, Bool.false_eq_true, if_false, List.lookup_cons,
          ih, hk]

theorem getProp_append_single (catalog : Catalog) (key : String) (value : List String)
    (k : String) (hnew : catalog.any (fun kv => kv.1 == key) = false) :
    getProp (catalog ++ [(key, value)]) k
      = if k = key then some value else getProp catalog k := by
  induction catalog with
  | nil =>
    by_cases hk : k = key
    · simp [getProp, hk]
    · have hbeq : (k == key) = false := by simpa using hk
      simp [getProp, List.lookup_cons, hbeq, hk]
  | cons kv rest ih =>
    obtain ⟨a, b⟩ := kv
    simp only [List.any_cons, Bool.or_eq_false_iff] at hnew
    have ih' := ih hnew.2
    simp only [getProp] at ih'
    have ha : a ≠ key := by simpa using hnew.1
    by_cases hk : k = a
    · subst hk
      simp [getProp, ha]
    · have hbeq : (k == a) = false := by simpa using hk
      simp only [getProp, List.cons_append, List.lookup_cons, hbeq, ih']

/-- Reading after `catalog[key] = value`. -/
theorem getProp_setProp (catalog : Catalog) (key : String) (value : List String) (k : String) :
    getProp (setProp catalog key value) k
      = if k = key then some value else getProp catalog k := by
  unfold setProp
  by_cases hany : catalog.any (fun kv => kv.1 == key) = true
  · simp only [hany, if_true, getProp_map_replace]
  · have hany' : catalog.any (fun kv => kv.1 == key) = false := by
      cases h : catalog.any (fun kv => kv.1 == key) with
      | true => exact absurd h hany
      | false => rfl
    simp only [hany', Bool.false_eq_true, if_false]
    exact getProp_append_single catalog key value k hany'

/-- Reading after `delete catalog[key]`. -/
theorem getProp_deleteProp (catalog : Catalog) (key : String) (k : String) :
    getProp (deleteProp catalog key) k = if k = key then none else getProp catalog k := by
  induction catalog with
  | nil => simp [getProp, deleteProp]
  | cons kv rest ih =>
    obtain ⟨a, b⟩ := kv
    simp only [getProp, deleteProp] at ih
    by_cases ha : a = key
    · subst ha
      by_cases hk : k = a
      · simp [getProp, deleteProp, hk] at ih ⊢
        exact ih
      · have hbeq : (k == a) = false := by simpa using hk
        simp only [getProp, deleteProp, List.filter_cons, bne_self_eq_false,
          Bool.false_eq_true, if_false, List.lookup_cons, hbeq, ih, hk]
    · have hne : (a != key) = true := by simpa using ha
      by_cases hk : k = a
      · subst hk
        simp [getProp, deleteProp, hne, ha]
      · have hbeq : (k == a) = false := by simpa using hk
        simp only [getProp, deleteProp, List.filter_cons, hne, if_true, List.lookup_cons, hbeq,
          ih]

theorem getProp_foldl_setProp (value : String → List String) (names : List String)
    (catalog : Catalog) (k : String) :
    getProp (names.foldl (fun synced filename => setProp synced filename (value filename))
      catalog) k
      = if k ∈ names then some (value k) else getProp catalog k := by
  induction names generalizing catalog with
  | nil => simp
  | cons name rest ih =>
    rw [List.foldl_cons, ih, getProp_setProp]
    by_cases h1 : k ∈ rest
    · simp [h1]
    · by_cases h2 : k = name
      · simp [h2]
      · simp [h1, h2]

theorem syncedDataTypes_eq_foldl (dataTypes : Catalog) (names : List String) (synced : Catalog)
    (hown : ∀ f ∈ names, readProp dataTypes f ≠ .inherited) :
    syncedDataTypes dataTypes names synced
      = some (names.foldl (fun synced filename => setProp synced filename
          (match getProp dataTypes filename with
            | some types => types
            | none => defaultDataTypes filename)) synced) := by
  induction names generalizing synced with
  | nil => rfl
  | cons f rest ih =>
    have hrest : ∀ g ∈ rest, readProp dataTypes g ≠ .inherited :=
      fun g hg => hown g (List.mem_cons_of_mem _ hg)
    rcases readProp_cases dataTypes f (hown f (List.mem_cons_self _ _)) with
      ⟨types, hget, hread⟩ | ⟨hget, hread⟩
    · simp only [syncedDataTypes, hread, List.foldl_cons, hget, ih _ hrest]
    · simp only [syncedDataTypes, hread, List.foldl_cons, hget, ih _ hrest]

theorem syncedDataTypes_eq_none (dataTypes : Catalog) (names : List String) (synced : Catalog)
    (h : ∃ f ∈ names, readProp dataTypes f = .inherited) :
    syncedDataTypes dataTypes names synced = none := by
  induction names generalizing synced with
  | nil =>
    obtain ⟨f, hf, -⟩ := h
    cases hf
  | cons f rest ih =>
    cases hread : readProp dataTypes f with
    | inherited => simp only [syncedDataTypes, hread]
    | list types =>
      have hrest : ∃ g ∈ rest, readProp dataTypes g = .inherited := by
        obtain ⟨g, hg, hgread⟩ := h
        rcases List.mem_cons.1 hg with rfl | hg'
        · rw [hread] at hgread
          cases hgread
        · exact ⟨g, hg', hgread⟩
      simp only [syncedDataTypes, hread, ih _ hrest]
    | undefined =>
      have hrest : ∃ g ∈ rest, readProp dataTypes g = .inherited := by
        obtain ⟨g, hg, hgread⟩ := h
        rcases List.mem_cons.1 hg with rfl | hg'
        · rw [hread] at hgread
          cases hgread
        · exact ⟨g, hg', hgread⟩
      simp only [syncedDataTypes, hread, ih _ hrest]

/-- The synchronisation when no shown filename reads an inherited property: the catalog is
rebuilt from the shown filenames and the number of filenames is returned. -/
theorem sync_of_noInheritedRead (s : State) (h : NoInheritedRead s) :
    syncAnimationDataWithBlocks s
      = (saveDataTypes { s with
          dataTypes := (s.fileContainers.map (fun c => c.filename)).foldl
            (fun synced filename => setProp synced filename
              (match getProp s.dataTypes filename with
                | some types => types
                | none => defaultDataTypes filename)) [] },
        some (s.fileContainers.map (fun c => c.filename)).length) := by
  have hown : ∀ f ∈ s.fileContainers.map (fun c => c.filename),
      readProp s.dataTypes f ≠ .inherited := by
    intro f hf
    obtain ⟨c, hc, rfl⟩ := List.mem_map.1 hf
    exact h c hc
  simp only [syncAnimationDataWithBlocks, syncedDataTypes_eq_foldl s.dataTypes _ [] hown]

/-- The synchronisation when some shown filename reads an inherited property: the function
throws and the state is the one before the call. -/
theorem sync_of_inheritedRead (s : State) (h : ¬ NoInheritedRead s) :
    syncAnimationDataWithBlocks s = (s, none) := by
  have hex : ∃ f ∈ s.fileContainers.map (fun c => c.filename),
      readProp s.dataTypes f = .inherited := by
    unfold NoInheritedRead at h
    push_neg at h
    obtain ⟨c, hc, hread⟩ := h
    exact ⟨c.filename, List.mem_map.2 ⟨c, hc, rfl⟩, hread⟩
  simp only [syncAnimationDataWithBlocks, syncedDataTypes_eq_none s.dataTypes _ [] hex]

theorem sync_fileContainers (s : State) :
    (syncAnimationDataWithBlocks s).1.fileContainers = s.fileContainers := by
  by_cases h : NoInheritedRead s
  · rw [sync_of_noInheritedRead s h]
    rfl
  · rw [sync_of_inheritedRead s h]

/-- The catalog after a `syncAnimationDataWithBlocks` that completes, read at any key: the
former list (or the default by extension) for a filename on the page, nothing for any
other key. -/
theorem getProp_sync (s : State) (h : NoInheritedRead s) (k : String) :
    getProp (syncAnimationDataWithBlocks s).1.dataTypes k
      = if k ∈ s.fileContainers.map (fun c => c.filename) then
          some (match getProp s.dataTypes k with
            | some types => types
            | none => defaultDataTypes k)
        else none := by
  rw [sync_of_noInheritedRead s h]
  simp only [saveDataTypes]
  rw [getProp_foldl_setProp (fun filename =>
    match getProp s.dataTypes filename with
    | some types => types
    | none => defaultDataTypes filename)]
  simp [getProp]

theorem updateFirst_some {α : Type} (p : α → Bool) (f : α → α) (l : List α)
    (h : ∃ x ∈ l, p x = true) :
    ∃ l', updateFirst p f l = some l' ∧ ∃ x ∈ l, p x = true ∧ f x ∈ l' := by
  induction l with
  | nil => simp at h
  | cons x xs ih =>
    by_cases hx : p x = true
    · exact ⟨f x :: xs, by simp [updateFirst, hx], x, List.mem_cons_self _ _, hx,
        List.mem_cons_self _ _⟩
    · have hxs : ∃ y ∈ xs, p y = true := by
        obtain ⟨y, hy, hpy⟩ := h
        rcases List.mem_cons.1 hy with rfl | hy'
        · exact absurd hpy hx
        · exact ⟨y, hy', hpy⟩
      obtain ⟨l', hl', y, hy, hpy, hfy⟩ := ih hxs
      refine ⟨x :: l', by simp [updateFirst, hx, hl'], y, List.mem_cons_of_mem _ hy, hpy,
        List.mem_cons_of_mem _ hfy⟩

/-- C20, as amended: when the block's old filename is not empty and is a key of the
catalog, the new filename differs from it and a container of the page has the id, a
successful update followed by the synchronisation leaves the catalog mapping the new
filename to the list formerly stored under the old filename; the old filename is no
longer a key when no file block of the page shows it any more, and is a key again, with
the default list of its extension, when another file block still shows it and the
synchronisation that ends the update completed (afterwards no shown filename reads a
property inherited from `Object.prototype`). -/
theorem updateExistingBlock_rename_moves_catalog_entry
    (s : State) (id : String) (blockData : BlockData) (blocks : List ServerBlock)
    (oldBlock : ServerBlock) (types : List String)
    (hserver : blocks.find? (fun block => block.id == id) = some oldBlock)
    (hold : oldBlock.filename ≠ "")
    (hcatalog : getProp s.dataTypes oldBlock.filename = some types)
    (hnew : blockData.filename ≠ oldBlock.filename)
    (hpage : ∃ c ∈ s.fileContainers, c.id = id) :
    (updateExistingBlockFetched id blockData blocks).1 = oldBlock.filename ∧
    getProp (updateExistingBlockSaved s id blockData
        (updateExistingBlockFetched id blockData blocks).1 "success").dataTypes
        blockData.filename = some types ∧
    ((∀ c ∈ (updateExistingBlockSaved s id blockData
          (updateExistingBlockFetched id blockData blocks).1 "success").fileContainers,
        c.filename ≠ oldBlock.filename) →
      getProp (updateExistingBlockSaved s id blockData
        (updateExistingBlockFetched id blockData blocks).1 "success").dataTypes
        oldBlock.filename = none) ∧
    ((∃ c ∈ (updateExistingBlockSaved s id blockData
          (updateExistingBlockFetched id blockData blocks).1 "success").fileContainers,
        c.filename = oldBlock.filename) →
      NoInheritedRead (updateExistingBlockSaved s id blockData
        (updateExistingBlockFetched id blockData blocks).1 "success") →
      getProp (updateExistingBlockSaved s id blockData
        (updateExistingBlockFetched id blockData blocks).1 "success").dataTypes
        oldBlock.filename = some (defaultDataTypes oldBlock.filename)) := by
  have hfetched : (updateExistingBlockFetched id blockData blocks).1 = oldBlock.filename := by
    simp [updateExistingBlockFetched, hserver]
  obtain ⟨l', hl', x, -, -, hx⟩ := updateFirst_some (fun c : FileContainer => c.id == id)
    (fun c => { c with filename := blockData.filename, description := blockData.description })
    s.fileContainers (by
      obtain ⟨c, hc, hid⟩ := hpage
      exact ⟨c, hc, by simp [hid]⟩)
  have hb1 : (oldBlock.filename != "") = true := by simpa using hold
  have hb2 : (oldBlock.filename != blockData.filename) = true := by simpa using Ne.symm hnew
  have hread : readProp s.dataTypes oldBlock.filename = .list types :=
    readProp_of_getProp_some _ _ _ hcatalog
  have hsaved : updateExistingBlockSaved s id blockData oldBlock.filename "success"
      = (syncAnimationDataWithBlocks { s with
          fileContainers := l'
          dataTypes := deleteProp (setProp s.dataTypes blockData.filename types)
            oldBlock.filename
          savedDataTypes := some (deleteProp (setProp s.dataTypes blockData.filename types)
            oldBlock.filename) }).1 := by
    simp [updateExistingBlockSaved, hl', hread, hb1, hb2, saveDataTypes]
  rw [hfetched, hsaved]
  have hmoved : getProp (deleteProp (setProp s.dataTypes blockData.filename types)
      oldBlock.filename) blockData.filename = some types := by
    simp only [getProp_deleteProp, hnew, if_false, getProp_setProp, if_true]
  have hgoneold : getProp (deleteProp (setProp s.dataTypes blockData.filename types)
      oldBlock.filename) oldBlock.filename = none := by
    simp only [getProp_deleteProp, if_true]
  by_cases hsync : NoInheritedRead { s with
      fileContainers := l'
      dataTypes := deleteProp (setProp s.dataTypes blockData.filename types)
        oldBlock.filename
      savedDataTypes := some (deleteProp (setProp s.dataTypes blockData.filename types)
        oldBlock.filename) }
  · refine ⟨rfl, ?_, ?_, ?_⟩
    · rw [getProp_sync _ hsync]
      have hmem : blockData.filename ∈ l'.map (fun c => c.filename) :=
        List.mem_map.2 ⟨_, hx, rfl⟩
      simp only [hmem, if_true, hmoved]
    · intro hgone
      rw [sync_fileContainers] at hgone
      rw [getProp_sync _ hsync]
      have hmem : oldBlock.filename ∉ l'.map (fun c => c.filename) := by
        intro h
        obtain ⟨c, hc, hcf⟩ := List.mem_map.1 h
        exact hgone c hc hcf
      simp only [hmem, if_false]
    · intro hshown _
      rw [sync_fileContainers] at hshown
      rw [getProp_sync _ hsync]
      have hmem : oldBlock.filename ∈ l'.map (fun c => c.filename) := by
        obtain ⟨c, hc, hcf⟩ := hshown
        exact List.mem_map.2 ⟨c, hc, hcf⟩
      simp only [hmem, if_true, hgoneold]
  · rw [sync_of_inheritedRead _ hsync]
    refine ⟨rfl, hmoved, fun _ => hgoneold, ?_⟩
    intro _ hcompleted
    exact absurd hcompleted hsync

theorem updateExistingBlock_rename_moves_catalog_entry_witness :
    [({ id := "1", filename := "utils.py", description := "" } : ServerBlock)].find?
        (fun block => block.id == "1")
      = some { id := "1", filename := "utils.py", description := "" } ∧
    "utils.py" ≠ "" ∧
    getProp utilsPage.dataTypes "utils.py" = some ["Utility Data"] ∧
    "helpers.py" ≠ "utils.py" ∧
    (∃ c ∈ utilsPage.fileContainers, c.id = "1") ∧
    (updateExistingBlockSaved utilsPage "1" { filename := "helpers.py", description := "" }
        "utils.py" "success").dataTypes
      = [("helpers.py", ["Utility Data"]), ("test_utils.py", ["Test Result"])] ∧
    getProp (updateExistingBlockSaved utilsPage "1"
        { filename := "helpers.py", description := "" }
        (updateExistingBlockFetched "1" { filename := "helpers.py", description := "" }
          [{ id := "1", filename := "utils.py", description := "" }]).1 "success").dataTypes
        "helpers.py" = some ["Utility Data"] :=
  have h := updateExistingBlock_rename_moves_catalog_entry utilsPage "1"
    { filename := "helpers.py", description := "" }
    [{ id := "1", filename := "utils.py", description := "" }]
    { id := "1", filename := "utils.py", description := "" } ["Utility Data"]
    (by decide) (by decide) (by decide) (by decide) (by decide)
  ⟨by decide, by decide, by decide, by decide, by decide, by decide, h.2.1⟩

/-- C20, as stated, fails: on a page where two file blocks show `utils.py` and the
catalog has the key `utils.py`, renaming the first block to `helpers.py` moves the list to
`helpers.py`, but after the synchronisation that ends the update the catalog has the key
`utils.py` again, with the default list for `.py`. -/
theorem updateExistingBlock_rename_keeps_old_key_shown_elsewhere :
    getProp twinPage.dataTypes "utils.py" = some ["Utility Data"] ∧
    (updateExistingBlockFetched "1" { filename := "helpers.py", description := "" }
      [{ id := "1", filename := "utils.py", description := "" },
       { id := "2", filename := "utils.py", description := "" }]).1 = "utils.py" ∧
    getProp (updateExistingBlockSaved twinPage "1"
        { filename := "helpers.py", description := "" } "utils.py" "success").dataTypes
        "helpers.py" = some ["Utility Data"] ∧
    getProp (updateExistingBlockSaved twinPage "1"
        { filename := "helpers.py", description := "" } "utils.py" "success").dataTypes
        "utils.py" = some ["Python Data", "Module Info", "Function Result"] ∧
    getProp (updateExistingBlockSaved twinPage "1"
        { filename := "helpers.py", description := "" } "utils.py" "success").dataTypes
        "utils.py" ≠ none := by
  decide

end Simulator

namespace Simulator

/-! ## The catalog synchronisation and the catalog editor -/

theorem mem_keys_iff (catalog : Catalog) (key : String) :
    key ∈ keys catalog ↔ ∃ types, getProp catalog key = some types :=
  ⟨getProp_isSome_of_mem_keys catalog key,
    fun ⟨types, h⟩ => mem_keys_of_getProp catalog key types h⟩

theorem endsWith_getLast (s suffix : String) (c : Char)
    (h : endsWith s suffix = true) (hlast : suffix.data.getLast? = some c) :
    s.data.getLast? = some c := by
  unfold endsWith at h
  rw [List.isSuffixOf_iff_suffix] at h
  obtain ⟨t, ht⟩ := h
  rw [← ht, List.getLast?_append, hlast]
  rfl

theorem not_endsWith_of_last (s a b : String) (x y : Char)
    (ha : a.data.getLast? = some x) (hb : b.data.getLast? = some y) (hxy : x ≠ y)
    (h : endsWith s a = true) : endsWith s b = false := by
  cases hsb : endsWith s b with
  | false => rfl
  | true =>
    have h1 := endsWith_getLast s a x h ha
    have h2 := endsWith_getLast s b y hsb hb
    rw [h1] at h2
    exact absurd (Option.some.inj h2) hxy

/-- The defaults of lines 768-778, extension by extension. -/
theorem defaultDataTypes_table (filename : String) :
    (endsWith filename ".py" = true →
      defaultDataTypes filename = ["Python Data", "Module Info", "Function Result"]) ∧
    (endsWith filename ".js" = true →
      defaultDataTypes filename = ["JavaScript Data", "JSON Object", "Function Result"]) ∧
    (endsWith filename ".html" = true →
      defaultDataTypes filename = ["HTML Content", "DOM Event", "Template Data"]) ∧
    (endsWith filename ".css" = true →
      defaultDataTypes filename = ["Style Property", "Media Query", "Animation Data"]) ∧
    (endsWith filename ".py" = false → endsWith filename ".js" = false →
      endsWith filename ".html" = false → endsWith filename ".css" = false →
      defaultDataTypes filename = ["Data", "Information", "Result"]) := by
  refine ⟨?_, ?_, ?_, ?_, ?_⟩
  · intro h
    simp [defaultDataTypes, h]
  · intro h
    have h1 := not_endsWith_of_last filename ".js" ".py" 's' 'y' rfl rfl (by decide) h
    simp [defaultDataTypes, h, h1]
  · intro h
    have h1 := not_endsWith_of_last filename ".html" ".py" 'l' 'y' rfl rfl (by decide) h
    have h2 := not_endsWith_of_last filename ".html" ".js" 'l' 's' rfl rfl (by decide) h
    simp [defaultDataTypes, h, h1, h2]
  · intro h
    have h1 := not_endsWith_of_last filename ".css" ".py" 's' 'y' rfl rfl (by decide) h
    have h2 : endsWith filename ".js" = false := by
      cases hjs : endsWith filename ".js" with
      | false => rfl
      | true =>
        exfalso
        unfold endsWith at h hjs
        rw [List.isSuffixOf_iff_suffix] at h hjs
        obtain ⟨t, ht⟩ := h
        obtain ⟨u, hu⟩ := hjs
        have hrev : (".css".data).reverse ++ t.reverse = (".js".data).reverse ++ u.reverse := by
          rw [← List.reverse_append, ← List.reverse_append, ht, hu]
        have h1 := congrArg (fun l => l[1]?) hrev
        simp at h1
    have h3 := not_endsWith_of_last filename ".css" ".html" 's' 'l' rfl rfl (by decide) h
    simp [defaultDataTypes, h, h1, h2, h3]
  · intro h1 h2 h3 h4
    simp [defaultDataTypes, h1, h2, h3, h4]

theorem sync_returns_count (s : State) (h : NoInheritedRead s) :
    (syncAnimationDataWithBlocks s).2
      = some (s.fileContainers.map (fun c => c.filename)).length := by
  rw [sync_of_noInheritedRead s h]

/-- What `syncAnimationDataWithBlocks` does when it completes, that is, when no shown
filename reads a property inherited from `Object.prototype`: every filename shown on the
page is a key of the catalog; its list is the list the catalog held for it before, when
there was one, and otherwise the default of its extension (`.py`, `.js`, `.html`, `.css`,
else the generic list); the returned number is the number of filename elements shown. -/
theorem syncAnimationDataWithBlocks_seeds_every_shown_filename
    (s : State) (filename : String)
    (hsync : NoInheritedRead s)
    (hshown : filename ∈ s.fileContainers.map (fun c => c.filename)) :
    filename ∈ keys (syncAnimationDataWithBlocks s).1.dataTypes ∧
    (∀ types, getProp s.dataTypes filename = some types →
      getProp (syncAnimationDataWithBlocks s).1.dataTypes filename = some types) ∧
    (getProp s.dataTypes filename = none →
      getProp (syncAnimationDataWithBlocks s).1.dataTypes filename
        = some (defaultDataTypes filename)) ∧
    (endsWith filename ".py" = true →
      defaultDataTypes filename = ["Python Data", "Module Info", "Function Result"]) ∧
    (endsWith filename ".js" = true →
      defaultDataTypes filename = ["JavaScript Data", "JSON Object", "Function Result"]) ∧
    (endsWith filename ".html" = true →
      defaultDataTypes filename = ["HTML Content", "DOM Event", "Template Data"]) ∧
    (endsWith filename ".css" = true →
      defaultDataTypes filename = ["Style Property", "Media Query", "Animation Data"]) ∧
    (endsWith filename ".py" = false → endsWith filename ".js" = false →
      endsWith filename ".html" = false → endsWith filename ".css" = false →
      defaultDataTypes filename = ["Data", "Information", "Result"]) ∧
    (syncAnimationDataWithBlocks s).2
      = some (s.fileContainers.map (fun c => c.filename)).length := by
  have hget := getProp_sync s hsync filename
  simp only [hshown, if_true] at hget
  obtain ⟨t1, t2, t3, t4, t5⟩ := defaultDataTypes_table filename
  refine ⟨?_, ?_, ?_, t1, t2, t3, t4, t5, sync_returns_count s hsync⟩
  · exact (mem_keys_iff _ _).2 ⟨_, hget⟩
  · intro types htypes
    rw [hget, htypes]
  · intro hnone
    rw [hget, hnone]

theorem syncAnimationDataWithBlocks_seeds_every_shown_filename_witness :
    NoInheritedRead utilsPage ∧
    "test_utils.py" ∈ utilsPage.fileContainers.map (fun c => c.filename) ∧
    "notes.txt" ∈ ({ utilsPage with
        fileContainers := [containerWith "3" "notes.txt", containerWith "4" "main.js"] } :
        State).fileContainers.map (fun c => c.filename) ∧
    getProp (syncAnimationDataWithBlocks utilsPage).1.dataTypes "test_utils.py"
      = some ["Test Result"] ∧
    (syncAnimationDataWithBlocks { utilsPage with
        fileContainers := [containerWith "3" "notes.txt", containerWith "4" "main.js"] }).1.dataTypes
      = [("notes.txt", ["Data", "Information", "Result"]),
         ("main.js", ["JavaScript Data", "JSON Object", "Function Result"])] ∧
    getProp (syncAnimationDataWithBlocks { utilsPage with
        fileContainers := [containerWith "3" "notes.txt", containerWith "4" "main.js"] }).1.dataTypes
        "notes.txt" = some (defaultDataTypes "notes.txt") :=
  have h1 := syncAnimationDataWithBlocks_seeds_every_shown_filename utilsPage "test_utils.py"
    (by decide) (by decide)
  have h2 := syncAnimationDataWithBlocks_seeds_every_shown_filename
    { utilsPage with
      fileContainers := [containerWith "3" "notes.txt", containerWith "4" "main.js"] }
    "notes.txt" (by decide) (by decide)
  ⟨by decide, by decide, by decide, h1.2.1 _ (by decide), by decide, h2.2.2.1 (by decide)⟩

/-- C21 (the code at a failing input): when a filename shown on the page is no own member
of the catalog but names a property of `Object.prototype`, such as `constructor`, the test
of line 765 reads the inherited property, the spread of line 766 throws, and
`syncAnimationDataWithBlocks` returns no number and leaves the catalog as it was: the
filename is not a key afterwards and no default was seeded for it. -/
theorem syncAnimationDataWithBlocks_throws_on_inherited_name
    (s : State) (filename : String)
    (hshown : filename ∈ s.fileContainers.map (fun c => c.filename))
    (hown : getProp s.dataTypes filename = none)
    (hproto : filename ∈ objectPrototypeKeys) :
    readProp s.dataTypes filename = .inherited ∧
    syncAnimationDataWithBlocks s = (s, none) ∧
    filename ∉ keys (syncAnimationDataWithBlocks s).1.dataTypes ∧
    getProp (syncAnimationDataWithBlocks s).1.dataTypes filename
      ≠ some (defaultDataTypes filename) := by
  have hread : readProp s.dataTypes filename = .inherited :=
    (readProp_eq_inherited_iff _ _).2 ⟨hown, hproto⟩
  have hthrow : syncAnimationDataWithBlocks s = (s, none) := by
    apply sync_of_inheritedRead
    intro hsync
    obtain ⟨c, hc, hname⟩ := List.mem_map.1 hshown
    exact hsync c hc (by rw [hname]; exact hread)
  refine ⟨hread, hthrow, ?_, ?_⟩
  · rw [hthrow]
    intro hmem
    obtain ⟨types, htypes⟩ := (mem_keys_iff _ _).1 hmem
    rw [hown] at htypes
    cases htypes
  · rw [hthrow, hown]
    intro h
    cases h

theorem syncAnimationDataWithBlocks_throws_on_inherited_name_witness :
    "constructor" ∈ constructorPage.fileContainers.map (fun c => c.filename) ∧
    getProp constructorPage.dataTypes "constructor" = none ∧
    "constructor" ∈ objectPrototypeKeys ∧
    syncAnimationDataWithBlocks constructorPage = (constructorPage, none) ∧
    (syncAnimationDataWithBlocks constructorPage).1.dataTypes = DEFAULT_DATA_TYPES ∧
    "constructor" ∉ keys (syncAnimationDataWithBlocks constructorPage).1.dataTypes :=
  have h := syncAnimationDataWithBlocks_throws_on_inherited_name constructorPage "constructor"
    (by decide) (by decide) (by decide)
  ⟨by decide, by decide, by decide, h.2.1, by decide, h.2.2.1⟩

/-- C22: when the trimmed name is not empty and the scratch list is not empty, the click
on `addFileType` makes the catalog map that name to the scratch list, leaves every other
key as it was and empties the scratch list; otherwise the whole state, hence the catalog
and the scratch list, is unchanged. -/
theorem addFileTypeClick_commits_scratch_list (s : State) (value : String) :
    (FlowEditor.jsTrim value ≠ "" → s.tempDataTypes ≠ [] →
      getProp (addFileTypeClick s value).dataTypes (FlowEditor.jsTrim value)
        = some s.tempDataTypes ∧
      (∀ key, key ≠ FlowEditor.jsTrim value →
        getProp (addFileTypeClick s value).dataTypes key = getProp s.dataTypes key) ∧
      (addFileTypeClick s value).tempDataTypes = []) ∧
    (FlowEditor.jsTrim value = "" ∨ s.tempDataTypes = [] →
      addFileTypeClick s value = s ∧
      (addFileTypeClick s value).dataTypes = s.dataTypes ∧
      (addFileTypeClick s value).tempDataTypes = s.tempDataTypes) := by
  constructor
  · intro hname hscratch
    have hlen : 0 < s.tempDataTypes.length := List.length_pos.2 hscratch
    have hstate : addFileTypeClick s value
        = { s with dataTypes := setProp s.dataTypes (FlowEditor.jsTrim value) s.tempDataTypes,
                   tempDataTypes := [] } := by
      simp [addFileTypeClick, hname, hlen]
    rw [hstate]
    refine ⟨?_, ?_, rfl⟩
    · simp [getProp_setProp]
    · intro key hkey
      simp [getProp_setProp, hkey]
  · intro h
    have hstate : addFileTypeClick s value = s := by
      rcases h with h | h
      · simp [addFileTypeClick, h]
      · simp [addFileTypeClick, h]
    exact ⟨hstate, by rw [hstate], by rw [hstate]⟩

theorem addFileTypeClick_commits_scratch_list_witness :
    FlowEditor.jsTrim "  .md " ≠ "" ∧
    ({ utilsPage with tempDataTypes := ["Heading", "Paragraph"] } : State).tempDataTypes ≠ [] ∧
    (addFileTypeClick { utilsPage with tempDataTypes := ["Heading", "Paragraph"] }
        "  .md ").dataTypes
      = [("utils.py", ["Utility Data"]), ("test_utils.py", ["Test Result"]),
         (".md", ["Heading", "Paragraph"])] ∧
    getProp (addFileTypeClick { utilsPage with tempDataTypes := ["Heading", "Paragraph"] }
        "  .md ").dataTypes (FlowEditor.jsTrim "  .md ") = some ["Heading", "Paragraph"] ∧
    addFileTypeClick utilsPage ".md" = utilsPage :=
  have h := addFileTypeClick_commits_scratch_list
    { utilsPage with tempDataTypes := ["Heading", "Paragraph"] } "  .md "
  have h' := addFileTypeClick_commits_scratch_list utilsPage ".md"
  ⟨by decide, by decide, by decide, (h.1 (by decide) (by decide)).1,
    (h'.2 (Or.inr rfl)).1⟩

/-- C23: for a key `fileType` of the catalog and a label `dataType`, the click on the
remove button leaves under `fileType` the former list without the occurrences of
`dataType`, the other labels in their former order, or removes the key when that list is
empty; every other key keeps its list. -/
theorem removeDataTypeClick_removes_label
    (s : State) (fileType dataType : String) (types : List String)
    (hkey : getProp s.dataTypes fileType = some types) :
    (types.filter (fun type => type != dataType) ≠ [] →
      getProp (removeDataTypeClick s fileType dataType).dataTypes fileType
        = some (types.filter (fun type => type != dataType))) ∧
    (types.filter (fun type => type != dataType) = [] →
      getProp (removeDataTypeClick s fileType dataType).dataTypes fileType = none ∧
      fileType ∉ keys (removeDataTypeClick s fileType dataType).dataTypes) ∧
    (∀ key, key ≠ fileType →
      getProp (removeDataTypeClick s fileType dataType).dataTypes key
        = getProp s.dataTypes key) := by
  have hread : readProp s.dataTypes fileType = .list types :=
    readProp_of_getProp_some _ _ _ hkey
  refine ⟨?_, ?_, ?_⟩
  · intro hne
    have hlen : (types.filter (fun type => type != dataType)).length ≠ 0 := by
      intro h
      exact hne (List.length_eq_zero.1 h)
    simp [removeDataTypeClick, hread, hlen, getProp_setProp]
  · intro hnil
    have hnone : getProp (removeDataTypeClick s fileType dataType).dataTypes fileType = none := by
      simp [removeDataTypeClick, hread, hnil, getProp_deleteProp]
    refine ⟨hnone, ?_⟩
    intro hmem
    obtain ⟨t, ht⟩ := (mem_keys_iff _ _).1 hmem
    rw [hnone] at ht
    cases ht
  · intro key hne
    by_cases hlen : (types.filter (fun type => type != dataType)).length = 0
    · simp [removeDataTypeClick, hread, hlen, getProp_deleteProp, getProp_setProp, hne]
    · simp [removeDataTypeClick, hread, hlen, getProp_setProp, hne]

theorem removeDataTypeClick_removes_label_witness :
    getProp DEFAULT_DATA_TYPES "api.py" = some ["API Request", "API Response", "Endpoint Data"] ∧
    (removeDataTypeClick (pageState [] DEFAULT_DATA_TYPES) "api.py" "API Response").dataTypes
      = [("api.py", ["API Request", "Endpoint Data"]),
         ("search_engine.py", ["Search Query", "Search Results", "Index Data"]),
         ("utils.py", ["Utility Data", "Formatted Date", "Validation Result"]),
         ("models.py", ["Data Model", "Schema", "Database Query"]),
         ("config.py", ["Config Data", "Environment Variable", "Setting"])] ∧
    getProp (removeDataTypeClick (pageState [] DEFAULT_DATA_TYPES) "api.py"
        "API Response").dataTypes "api.py" = some ["API Request", "Endpoint Data"] ∧
    (removeDataTypeClick utilsPage "utils.py" "Utility Data").dataTypes
      = [("test_utils.py", ["Test Result"])] :=
  have h := removeDataTypeClick_removes_label (pageState [] DEFAULT_DATA_TYPES) "api.py"
    "API Response" ["API Request", "API Response", "Endpoint Data"] (by decide)
  ⟨by decide, by decide, h.1 (by decide), by decide⟩

end Simulator

namespace Simulator

/-! ## Loading the catalog -/

/-- C24: `loadDataTypes` assigns to the catalog whatever `JSON.parse` returns for a stored
text that is not empty: a stored text that parses to a value that is no mapping, such as
`null`, becomes the catalog, and the catalog is then not `DEFAULT_DATA_TYPES`.  Only an
absent or empty entry (the catalog keeps the value it had) and a text that does not parse
(the constant is assigned) give the default catalog. -/
theorem loadDataTypes_assigns_any_parsed_value
    (P : FlowEditor.Json.Platform) (dataTypes : FlowEditor.JVal) (saved : String)
    (parsed : FlowEditor.JVal)
    (hsaved : saved ≠ "") (hparse : P.jsonParse saved = .ok parsed) :
    loadDataTypes P dataTypes (some saved) = parsed := by
  simp [loadDataTypes, hsaved, hparse]

theorem loadDataTypes_assigns_any_parsed_value_witness :
    "null" ≠ "" ∧
    (FlowEditor.Json.tablePlatform [("null", .null)]).jsonParse "null" = .ok .null ∧
    loadDataTypes (FlowEditor.Json.tablePlatform [("null", .null)])
      (catalogToJson DEFAULT_DATA_TYPES) (some "null") = .null ∧
    loadDataTypes (FlowEditor.Json.tablePlatform [("null", .null)])
      (catalogToJson DEFAULT_DATA_TYPES) (some "null") ≠ catalogToJson DEFAULT_DATA_TYPES :=
  have h := loadDataTypes_assigns_any_parsed_value
    (FlowEditor.Json.tablePlatform [("null", .null)]) (catalogToJson DEFAULT_DATA_TYPES)
    "null" .null (by decide) (by decide)
  ⟨by decide, by decide, h, by rw [h]; decide⟩

/-- The two cases in which `loadDataTypes` does leave the default catalog: no stored text
or an empty one, when the catalog holds its initial value, and a text that does not
parse. -/
theorem loadDataTypes_default_cases (P : FlowEditor.Json.Platform) (saved err : String) :
    loadDataTypes P (catalogToJson DEFAULT_DATA_TYPES) none = catalogToJson DEFAULT_DATA_TYPES ∧
    loadDataTypes P (catalogToJson DEFAULT_DATA_TYPES) (some "")
      = catalogToJson DEFAULT_DATA_TYPES ∧
    (∀ dataTypes, saved ≠ "" → P.jsonParse saved = .error err →
      loadDataTypes P dataTypes (some saved) = catalogToJson DEFAULT_DATA_TYPES) := by
  refine ⟨rfl, rfl, ?_⟩
  intro dataTypes hsaved hparse
  simp [loadDataTypes, hsaved, hparse]

/-! ## A timer whose index is past the end of the list -/

theorem tick_of_index_out_of_range (rand : Nat → Nat) (s : State) (timerId : Nat)
    (timer : Timer)
    (hfind : s.timers.find? (fun t => t.id == timerId) = some timer)
    (hrange : s.fileContainers[timer.currentIndex]? = none) :
    tick rand s timerId = (s, none) := by
  unfold tick
  simp only [hfind, hrange]
  split <;> rfl

/-- C25: on the page `utils.py`, `test_utils.py` with the simulation running, after the
first run of the timer callback and the deletion of the second file block the simulation
still runs and one container is shown, but the timer's `currentIndex` is 1, which is no
index of the list: the callback returns at line 318 before `currentIndex` is assigned, so
every later run of the callback emits no pulse and changes nothing. -/
theorem tick_emits_nothing_after_deletion :
    afterDeletion.isSimulating = true ∧
    afterDeletion.fileContainers.length = 1 ∧
    afterDeletion.timers = [{ id := 1, currentIndex := 1 }] ∧
    afterDeletion.animationInterval = some 1 ∧
    afterDeletion.fileContainers[1]? = none ∧
    (∀ rand, tick rand afterDeletion 1 = (afterDeletion, none)) ∧
    (∀ rands k, ticks rands 1 afterDeletion k = afterDeletion) := by
  have htick : ∀ rand, tick rand afterDeletion 1 = (afterDeletion, none) := fun rand =>
    tick_of_index_out_of_range rand afterDeletion 1 { id := 1, currentIndex := 1 }
      (by decide) (by decide)
  refine ⟨by decide, by decide, by decide, by decide, by decide, htick, ?_⟩
  intro rands k
  induction k with
  | zero => rfl
  | succ k ih =>
    show (tick (rands k) (ticks rands 1 afterDeletion k) 1).1 = afterDeletion
    rw [ih, htick]

/-! ## The keys of the synchronised catalog -/

/-- What `syncAnimationDataWithBlocks` does to the keys when it completes, that is, when
no shown filename reads a property inherited from `Object.prototype`: afterwards the keys
of the catalog are exactly the filenames shown on the page; an entry whose key is not
shown is gone, and with no file block shown the catalog is empty. -/
theorem syncAnimationDataWithBlocks_keys_are_shown_filenames (s : State)
    (hsync : NoInheritedRead s) :
    (∀ key, key ∈ keys (syncAnimationDataWithBlocks s).1.dataTypes
      ↔ key ∈ s.fileContainers.map (fun c => c.filename)) ∧
    (∀ key, key ∉ s.fileContainers.map (fun c => c.filename) →
      getProp (syncAnimationDataWithBlocks s).1.dataTypes key = none) ∧
    (s.fileContainers = [] → (syncAnimationDataWithBlocks s).1.dataTypes = []) := by
  refine ⟨?_, ?_, ?_⟩
  · intro key
    rw [mem_keys_iff, getProp_sync s hsync]
    constructor
    · rintro ⟨types, h⟩
      by_contra hshown
      rw [if_neg hshown] at h
      cases h
    · intro hshown
      rw [if_pos hshown]
      exact ⟨_, rfl⟩
  · intro key hkey
    rw [getProp_sync s hsync, if_neg hkey]
  · intro hempty
    simp [syncAnimationDataWithBlocks, syncedDataTypes, saveDataTypes, hempty]

/-- C29 (the code at a failing input): when a filename shown on the page reads a property
inherited from `Object.prototype` (it is no own member of the catalog and names such a
property, as `constructor` does), `syncAnimationDataWithBlocks` throws at line 766 and the
catalog stays as it was: every former key is still a key, shown or not, and the shown
filename that made the loop throw is no key.  The click that opens the editor panel ends
with the same throw. -/
theorem syncAnimationDataWithBlocks_keeps_catalog_when_it_throws (s : State)
    (hthrow : ¬ NoInheritedRead s) :
    (syncAnimationDataWithBlocks s).2 = none ∧
    (syncAnimationDataWithBlocks s).1.dataTypes = s.dataTypes ∧
    (∀ key, key ∈ keys (syncAnimationDataWithBlocks s).1.dataTypes ↔ key ∈ keys s.dataTypes) ∧
    (∃ filename ∈ s.fileContainers.map (fun c => c.filename),
      filename ∉ keys (syncAnimationDataWithBlocks s).1.dataTypes) ∧
    animationSettingsToggleClick s = (s, false) := by
  have hsync := sync_of_inheritedRead s hthrow
  refine ⟨by rw [hsync], by rw [hsync], fun key => by rw [hsync], ?_, ?_⟩
  · rw [hsync]
    unfold NoInheritedRead at hthrow
    push_neg at hthrow
    obtain ⟨c, hc, hread⟩ := hthrow
    refine ⟨c.filename, List.mem_map.2 ⟨c, hc, rfl⟩, ?_⟩
    intro hmem
    obtain ⟨types, htypes⟩ := (mem_keys_iff _ _).1 hmem
    rw [((readProp_eq_inherited_iff _ _).1 hread).1] at htypes
    cases htypes
  · simp [animationSettingsToggleClick, hsync]

theorem syncAnimationDataWithBlocks_keeps_catalog_when_it_throws_witness :
    ¬ NoInheritedRead constructorPage ∧
    constructorPage.fileContainers.map (fun c => c.filename) = ["constructor"] ∧
    keys (syncAnimationDataWithBlocks constructorPage).1.dataTypes
      = ["api.py", "search_engine.py", "utils.py", "models.py", "config.py"] ∧
    (syncAnimationDataWithBlocks constructorPage).1.dataTypes = constructorPage.dataTypes ∧
    "api.py" ∈ keys (syncAnimationDataWithBlocks constructorPage).1.dataTypes ∧
    "api.py" ∉ constructorPage.fileContainers.map (fun c => c.filename) ∧
    "constructor" ∉ keys (syncAnimationDataWithBlocks constructorPage).1.dataTypes :=
  have h := syncAnimationDataWithBlocks_keeps_catalog_when_it_throws constructorPage
    (by decide)
  ⟨by decide, by decide, by decide, h.2.1, by decide, by decide, by decide⟩

/-! ## Catalog lists that are not empty -/

theorem mem_of_getProp (catalog : Catalog) (key : String) (types : List String)
    (h : getProp catalog key = some types) : (key, types) ∈ catalog := by
  unfold getProp at h
  induction catalog with
  | nil => cases h
  | cons kv rest ih =>
    obtain ⟨k, v⟩ := kv
    rw [List.lookup_cons] at h
    cases hk : (key == k) with
    | true =>
      rw [hk] at h
      have hkey : key = k := by simpa using hk
      have hv : v = types := by simpa using h
      rw [hkey, hv]
      exact List.mem_cons_self _ _
    | false =>
      rw [hk] at h
      exact List.mem_cons_of_mem _ (ih h)

theorem catalogNonEmpty_getProp (catalog : Catalog) (h : CatalogNonEmpty catalog)
    (key : String) (types : List String) (hget : getProp catalog key = some types) :
    types ≠ [] :=
  h (key, types) (mem_of_getProp catalog key types hget)

theorem catalogNonEmpty_setProp (catalog : Catalog) (h : CatalogNonEmpty catalog)
    (key : String) (value : List String) (hvalue : value ≠ []) :
    CatalogNonEmpty (setProp catalog key value) := by
  intro kv hkv
  unfold setProp at hkv
  split at hkv
  · rw [List.mem_map] at hkv
    obtain ⟨kv0, hmem, heq⟩ := hkv
    by_cases hk : (kv0.1 == key) = true
    · rw [if_pos hk] at heq
      rw [← heq]
      exact hvalue
    · rw [if_neg hk] at heq
      rw [← heq]
      exact h kv0 hmem
  · rw [List.mem_append] at hkv
    rcases hkv with hkv | hkv
    · exact h kv hkv
    · rw [List.mem_singleton] at hkv
      rw [hkv]
      exact hvalue

theorem catalogNonEmpty_deleteProp (catalog : Catalog) (h : CatalogNonEmpty catalog)
    (key : String) : CatalogNonEmpty (deleteProp catalog key) := by
  intro kv hkv
  unfold deleteProp at hkv
  exact h kv (List.mem_filter.1 hkv).1

theorem catalogNonEmpty_deleteProp_setProp (catalog : Catalog) (h : CatalogNonEmpty catalog)
    (key : String) (value : List String) :
    CatalogNonEmpty (deleteProp (setProp catalog key value) key) := by
  intro kv hkv
  unfold deleteProp at hkv
  obtain ⟨hmem, hne⟩ := List.mem_filter.1 hkv
  have hne' : kv.1 ≠ key := by simpa using hne
  unfold setProp at hmem
  split at hmem
  · rw [List.mem_map] at hmem
    obtain ⟨kv0, hmem0, heq⟩ := hmem
    by_cases hk : (kv0.1 == key) = true
    · rw [if_pos hk] at heq
      rw [← heq] at hne'
      exact absurd rfl hne'
    · rw [if_neg hk] at heq
      rw [← heq]
      exact h kv0 hmem0
  · rw [List.mem_append] at hmem
    rcases hmem with hmem | hmem
    · exact h kv hmem
    · rw [List.mem_singleton] at hmem
      rw [hmem] at hne'
      exact absurd rfl hne'

theorem defaultDataTypes_ne_nil (filename : String) : defaultDataTypes filename ≠ [] := by
  unfold defaultDataTypes
  repeat' split
  all_goals simp

theorem catalogNonEmpty_foldl (value : String → List String) (hvalue : ∀ f, value f ≠ [])
    (names : List String) (init : Catalog) (hinit : CatalogNonEmpty init) :
    CatalogNonEmpty (names.foldl (fun synced filename =>
      setProp synced filename (value filename)) init) := by
  induction names generalizing init with
  | nil => exact hinit
  | cons f rest ih =>
    rw [List.foldl_cons]
    exact ih _ (catalogNonEmpty_setProp init hinit f (value f) (hvalue f))

theorem catalogNonEmpty_sync (s : State) (h : CatalogNonEmpty s.dataTypes) :
    CatalogNonEmpty (syncAnimationDataWithBlocks s).1.dataTypes := by
  by_cases hsync : NoInheritedRead s
  · rw [sync_of_noInheritedRead s hsync]
    apply catalogNonEmpty_foldl
    · intro f
      cases hget : getProp s.dataTypes f with
      | some types => exact catalogNonEmpty_getProp s.dataTypes h f types hget
      | none => exact defaultDataTypes_ne_nil f
    · intro kv hkv
      cases hkv
  · rw [sync_of_inheritedRead s hsync]
    exact h

theorem catalogNonEmpty_default : CatalogNonEmpty DEFAULT_DATA_TYPES := by
  unfold CatalogNonEmpty DEFAULT_DATA_TYPES
  decide

theorem possibleData_ne_nil (dataTypes : Catalog) (h : CatalogNonEmpty dataTypes)
    (currentFilename : String) (data : List String)
    (hdata : possibleData dataTypes currentFilename = some data) : data ≠ [] := by
  unfold possibleData at hdata
  simp only at hdata
  split at hdata
  · exact catalogNonEmpty_getProp dataTypes h _ data hdata
  · cases hdata
    simp

theorem tick_emission (rand : Nat → Nat) (s : State) (timerId : Nat) (e : Emission)
    (h : (tick rand s timerId).2 = some e) :
    ∃ c data, s.fileContainers[e.container]? = some c ∧
      possibleData s.dataTypes c.filename = some data ∧
      e.dataType = data[rand data.length]? := by
  cases hfind : s.timers.find? (fun t => t.id == timerId) with
  | none =>
    simp [tick, hfind] at h
  | some timer =>
    by_cases hlen : s.fileContainers.length = 0
    · simp [tick, hfind, hlen] at h
    · cases hc : s.fileContainers[timer.currentIndex]? with
      | none =>
        rw [tick_of_index_out_of_range rand s timerId timer hfind hc] at h
        cases h
      | some c =>
        cases hdata : possibleData s.dataTypes c.filename with
        | none =>
          rw [tick_of_undefined_list rand s timerId timer c hfind hc hdata] at h
          cases h
        | some data =>
          rw [tick_eq rand s timerId timer c data hfind hlen hc hdata] at h
          simp only [Option.some.injEq] at h
          subst h
          exact ⟨c, data, hc, hdata, rfl⟩

/-- C30: when every key of the catalog maps to a list that is not empty, the same holds
after committing the scratch list, deleting a file type, removing a label, resetting to
the default, the rename that ends `updateExistingBlock`, and `syncAnimationDataWithBlocks`
(whether these complete or throw); hence the list that the expression of lines 322-325
yields for a run of the timer callback is not empty, such a list exists for every filename
that does not read a property inherited from `Object.prototype`, and whenever a run draws
a label, with a draw `rand n < n`, the label is an element of that list.  (For a filename
that reads an inherited property the expression can be `undefined`; the run then throws
at line 327 before any label is drawn.) -/
theorem catalog_lists_stay_non_empty (s : State) (h : CatalogNonEmpty s.dataTypes) :
    CatalogNonEmpty DEFAULT_DATA_TYPES ∧
    (∀ value, CatalogNonEmpty (addFileTypeClick s value).dataTypes) ∧
    (∀ fileType confirmed, CatalogNonEmpty (deleteFileTypeClick s fileType confirmed).dataTypes) ∧
    (∀ fileType dataType, CatalogNonEmpty (removeDataTypeClick s fileType dataType).dataTypes) ∧
    (∀ confirmed, CatalogNonEmpty (resetAnimationSettingsClick s confirmed).dataTypes) ∧
    (∀ id blockData oldFilename status,
      CatalogNonEmpty (updateExistingBlockSaved s id blockData oldFilename status).dataTypes) ∧
    CatalogNonEmpty (syncAnimationDataWithBlocks s).1.dataTypes ∧
    (∀ filename data, possibleData s.dataTypes filename = some data → data ≠ []) ∧
    (∀ filename, readProp s.dataTypes filename ≠ .inherited →
      ∃ data, possibleData s.dataTypes filename = some data ∧ data ≠ []) ∧
    (∀ rand timerId e, (∀ n, 0 < n → rand n < n) → (tick rand s timerId).2 = some e →
      ∃ c data label, s.fileContainers[e.container]? = some c ∧
        possibleData s.dataTypes c.filename = some data ∧ data ≠ [] ∧
        e.dataType = some label ∧ label ∈ data) := by
  refine ⟨catalogNonEmpty_default, ?_, ?_, ?_, ?_, ?_, catalogNonEmpty_sync s h,
    possibleData_ne_nil s.dataTypes h, ?_, ?_⟩
  · intro value
    unfold addFileTypeClick
    simp only
    split
    · next hcond =>
      simp only [Bool.and_eq_true, decide_eq_true_eq] at hcond
      exact catalogNonEmpty_setProp s.dataTypes h _ _ (List.length_pos.1 hcond.2)
    · exact h
  · intro fileType confirmed
    unfold deleteFileTypeClick
    split
    · exact catalogNonEmpty_deleteProp s.dataTypes h fileType
    · exact h
  · intro fileType dataType
    unfold removeDataTypeClick
    split
    · exact h
    · exact h
    · next types hget =>
      simp only
      split
      · exact catalogNonEmpty_deleteProp_setProp s.dataTypes h fileType _
      · next hlen =>
        exact catalogNonEmpty_setProp s.dataTypes h _ _
          (fun hnil => hlen (by rw [hnil]; rfl))
  · intro confirmed
    unfold resetAnimationSettingsClick
    split
    · exact catalogNonEmpty_default
    · exact h
  · intro id blockData oldFilename status
    unfold updateExistingBlockSaved
    split
    · exact h
    · split
      · exact h
      · next fileContainers hupd =>
        simp only
        split
        · split
          · next types hread =>
            apply catalogNonEmpty_sync
            exact catalogNonEmpty_deleteProp _
              (catalogNonEmpty_setProp s.dataTypes h _ _
                (catalogNonEmpty_getProp s.dataTypes h oldFilename types
                  ((readProp_eq_list_iff _ _ _).1 hread))) _
          · exact h
          · apply catalogNonEmpty_sync
            exact h
        · apply catalogNonEmpty_sync
          exact h
  · intro filename hown
    obtain ⟨data, hdata⟩ := possibleData_isSome s.dataTypes filename hown
    exact ⟨data, hdata, possibleData_ne_nil s.dataTypes h filename data hdata⟩
  · intro rand timerId e hrand he
    obtain ⟨c, data, hc, hdata, hlabel⟩ := tick_emission rand s timerId e he
    have hne := possibleData_ne_nil s.dataTypes h c.filename data hdata
    have hlt : rand data.length < data.length := hrand _ (List.length_pos.2 hne)
    refine ⟨c, data, data[rand data.length], hc, hdata, hne, ?_, List.getElem_mem _⟩
    rw [hlabel, List.getElem?_eq_getElem hlt]

end Simulator

namespace Simulator

theorem catalog_lists_stay_non_empty_witness :
    CatalogNonEmpty utilsPage.dataTypes ∧
    CatalogNonEmpty (removeDataTypeClick utilsPage "utils.py" "Utility Data").dataTypes ∧
    (removeDataTypeClick utilsPage "utils.py" "Utility Data").dataTypes
      = [("test_utils.py", ["Test Result"])] ∧
    (∃ data, possibleData utilsPage.dataTypes "utils.py" = some data ∧ data ≠ []) ∧
    possibleData utilsPage.dataTypes "utils.py" = some ["Utility Data"] :=
  have hpage : CatalogNonEmpty utilsPage.dataTypes := by
    unfold CatalogNonEmpty
    decide
  have h := catalog_lists_stay_non_empty utilsPage hpage
  ⟨hpage, h.2.2.2.1 "utils.py" "Utility Data", by decide,
    h.2.2.2.2.2.2.2.2.1 "utils.py" (by decide), by decide⟩

end Simulator
